import Mathlib

/-!
# Nominal / effective rate converter (`script.js`)

A shallow embedding of the rate-matrix engine and of the future-value
projector of `script.js`.

Modelling choices.

* A JavaScript number is a `JSNum`: `NaN`, the two infinities, or a finite
  value.  Finite values are exact real numbers: the rounding of IEEE-754
  doubles, overflow to `Infinity` and the sign of zero are abstracted away.
  Every arithmetic operator follows the ECMAScript case table on the
  non-finite values.  Because `Math.pow` is applied to the exponents `1 / m`,
  the carrier has to contain roots, which is why it is `ℝ` and why the
  numeric definitions are noncomputable.
* Input fields are identified by their id (a string) and hold a string, as in
  the DOM.  `MATRIX_INPUTS` is the list of the mapped fields in insertion
  order.  `parseFloat` and `toFixed` work on the characters of those strings.
* `toFixed` rounds to the nearest multiple of `10 ^ (-f)`, the larger one on a
  tie, and writes fixed notation below `10 ^ 21`.  From `10 ^ 21` on it writes
  what `Number::toString` writes, exponential notation; a double that large is
  an integer, and with exact finite values its shortest round-tripping digits
  are the digits of that integer without the trailing zeros.
* The functions that read and write the page take the part of the state they
  use as an argument and return the part they change: the global
  `activeInputId`, the input elements and the text of `futureValue` are the
  fields of `Page`.
* Two statements are about the rounded results themselves (the annual
  conversion giving `v / 100` exactly, and the order of the derived nominal
  rates).  For them the lines concerned are evaluated a second time with every
  operation rounded to binary64 (`roundDouble`, `nominalAnnualEarDouble`,
  `effectiveAnnualEarDouble`, `nominalRateDouble`, `nominalBaseDouble`,
  `earOfPowerDouble`).  ECMAScript leaves the accuracy of `Math.pow` to the
  implementation, so the double it returns is an argument of these
  definitions, and the accuracy assumed of it is a hypothesis
  (`IsNearestRootDouble`, `IsRootDouble`, `IsPowerDouble`).
-/

namespace RateConverter

/-! ## JavaScript numbers -/

/-- A JavaScript number: `NaN`, `+Infinity`, `-Infinity`, or a finite value. -/
inductive JSNum where
  | nan : JSNum
  | pinf : JSNum
  | ninf : JSNum
  | fin (x : ℝ) : JSNum

namespace JSNum

/-- The global function `isNaN` on a number. -/
def isNaN : JSNum → Prop
  | nan => True
  | _ => False

/-- The operator `<` on numbers (every comparison with `NaN` is false). -/
def lt : JSNum → JSNum → Prop
  | nan, _ => False
  | _, nan => False
  | _, ninf => False
  | ninf, _ => True
  | pinf, _ => False
  | fin _, pinf => True
  | fin x, fin y => x < y

/-- A number is finite (`Number.isFinite`). -/
def isFinite : JSNum → Prop
  | fin _ => True
  | _ => False

/-- A number that passes the guards of lines 69 and 173, being neither `NaN`
nor negative: a finite value `≥ 0` or `+Infinity`. -/
def nonneg : JSNum → Prop
  | fin x => 0 ≤ x
  | pinf => True
  | _ => False

/-- Unary minus. -/
noncomputable def neg : JSNum → JSNum
  | nan => nan
  | pinf => ninf
  | ninf => pinf
  | fin x => fin (-x)

/-- The operator `+` on numbers. -/
noncomputable def add : JSNum → JSNum → JSNum
  | nan, _ => nan
  | _, nan => nan
  | pinf, ninf => nan
  | ninf, pinf => nan
  | pinf, _ => pinf
  | _, pinf => pinf
  | ninf, _ => ninf
  | _, ninf => ninf
  | fin x, fin y => fin (x + y)

/-- The operator `-` on numbers. -/
noncomputable def sub (a b : JSNum) : JSNum := add a (neg b)

/-- The product of an infinity of sign `pos` with a finite factor `y`. -/
noncomputable def infTimes (pos : Bool) (y : ℝ) : JSNum :=
  if y = 0 then nan
  else if 0 < y then (if pos then pinf else ninf)
  else (if pos then ninf else pinf)

/-- The operator `*` on numbers. -/
noncomputable def mul : JSNum → JSNum → JSNum
  | nan, _ => nan
  | _, nan => nan
  | pinf, pinf => pinf
  | pinf, ninf => ninf
  | ninf, pinf => ninf
  | ninf, ninf => pinf
  | pinf, fin y => infTimes true y
  | ninf, fin y => infTimes false y
  | fin x, pinf => infTimes true x
  | fin x, ninf => infTimes false x
  | fin x, fin y => fin (x * y)

/-- The quotient of an infinity of sign `pos` by a finite divisor `y`
(a zero divisor counts as `+0`). -/
noncomputable def infOver (pos : Bool) (y : ℝ) : JSNum :=
  if 0 ≤ y then (if pos then pinf else ninf)
  else (if pos then ninf else pinf)

/-- The operator `/` on numbers. -/
noncomputable def div : JSNum → JSNum → JSNum
  | nan, _ => nan
  | _, nan => nan
  | pinf, pinf => nan
  | pinf, ninf => nan
  | ninf, pinf => nan
  | ninf, ninf => nan
  | pinf, fin y => infOver true y
  | ninf, fin y => infOver false y
  | fin _, pinf => fin 0
  | fin _, ninf => fin 0
  | fin x, fin y =>
    if y = 0 then
      (if x = 0 then nan else if 0 < x then pinf else ninf)
    else fin (x / y)

/-- A finite value is an odd integer. -/
def isOddInteger (y : ℝ) : Prop := ∃ k : ℤ, y = 2 * k + 1

/-- A finite value is an integer. -/
def isInteger (y : ℝ) : Prop := ∃ k : ℤ, y = k

open Classical in
/-- The function `Math.pow` (ECMAScript `Number::exponentiate`). -/
noncomputable def pow (base exponent : JSNum) : JSNum :=
  match exponent with
  | nan => nan
  | pinf =>
    match base with
    | nan => nan
    | pinf => pinf
    | ninf => pinf
    | fin x => if 1 < |x| then pinf else if |x| = 1 then nan else fin 0
  | ninf =>
    match base with
    | nan => nan
    | pinf => fin 0
    | ninf => fin 0
    | fin x => if 1 < |x| then fin 0 else if |x| = 1 then nan else pinf
  | fin y =>
    if y = 0 then fin 1
    else
      match base with
      | nan => nan
      | pinf => if 0 < y then pinf else fin 0
      | ninf => if 0 < y then (if isOddInteger y then ninf else pinf) else fin 0
      | fin x =>
        if x = 0 then (if 0 < y then fin 0 else pinf)
        else if x < 0 then (if isInteger y then fin (x ^ ⌊y⌋) else nan)
        else fin (x ^ y)

end JSNum

/-! ## Strings: `parseFloat` and `toFixed` -/

/-- White space and line terminators skipped by `parseFloat` (ECMAScript
`StrWhiteSpaceChar`), by code point. -/
def isWhiteSpace (c : Char) : Bool :=
  let n := c.toNat
  n == 9 || n == 10 || n == 11 || n == 12 || n == 13 || n == 32 || n == 160 ||
  n == 5760 || (8192 ≤ n && n ≤ 8202) || n == 8232 || n == 8233 || n == 8239 ||
  n == 8287 || n == 12288 || n == 65279

/-- A decimal digit character. -/
def isDigit (c : Char) : Bool := 48 ≤ c.toNat && c.toNat ≤ 57

/-- The value of a decimal digit character. -/
def digitVal (c : Char) : ℕ := c.toNat - 48

/-- The value of a run of decimal digits, most significant first. -/
def digitsValue (ds : List Char) : ℕ :=
  ds.foldl (fun acc c => 10 * acc + digitVal c) 0

/-- What `parseFloat` reads off a string before it is turned into a number:
nothing, an infinity, or a signed decimal `mantissa * 10 ^ exponent`. -/
inductive StrNum where
  | nan : StrNum
  | inf (negative : Bool) : StrNum
  | dec (negative : Bool) (mantissa : ℕ) (exponent : ℤ) : StrNum
deriving DecidableEq

/-- The exponent part `e`, `E` followed by an optional sign and at least one
digit; anything else contributes no exponent. -/
def parseExponent : List Char → ℤ
  | [] => 0
  | c :: rest =>
    if c = 'e' ∨ c = 'E' then
      match rest with
      | '-' :: r =>
        if r.takeWhile isDigit = [] then 0 else -(digitsValue (r.takeWhile isDigit) : ℤ)
      | '+' :: r => (digitsValue (r.takeWhile isDigit) : ℤ)
      | r => (digitsValue (r.takeWhile isDigit) : ℤ)
    else 0

/-- The fraction part: the digits after a leading `.` and what follows them. -/
def parseFraction : List Char → List Char × List Char
  | '.' :: r => (r.takeWhile isDigit, r.dropWhile isDigit)
  | r => ([], r)

/-- The longest prefix that is an unsigned `StrDecimalLiteral`. -/
def parseUnsigned (negative : Bool) (cs : List Char) : StrNum :=
  if "Infinity".toList.isPrefixOf cs then StrNum.inf negative
  else
    let intDigits := cs.takeWhile isDigit
    let frac := parseFraction (cs.dropWhile isDigit)
    if intDigits = [] ∧ frac.1 = [] then StrNum.nan
    else StrNum.dec negative (digitsValue (intDigits ++ frac.1))
      (parseExponent frac.2 - frac.1.length)

/-- The literal that `parseFloat` reads: leading white space is skipped, then
an optional sign, then the longest prefix that is a decimal literal. -/
def parseLiteral (s : String) : StrNum :=
  match s.toList.dropWhile isWhiteSpace with
  | '-' :: r => parseUnsigned true r
  | '+' :: r => parseUnsigned false r
  | r => parseUnsigned false r

/-- The number denoted by a literal. -/
noncomputable def StrNum.toJSNum : StrNum → JSNum
  | StrNum.nan => JSNum.nan
  | StrNum.inf negative => if negative then JSNum.ninf else JSNum.pinf
  | StrNum.dec negative mantissa exponent =>
    JSNum.fin ((if negative then -(mantissa : ℝ) else (mantissa : ℝ)) * (10 : ℝ) ^ exponent)

/-- The global function `parseFloat` on a string. -/
noncomputable def parseFloat (s : String) : JSNum := (parseLiteral s).toJSNum

/-- The character of a decimal digit. -/
def digitChar (d : ℕ) : Char := Char.ofNat (48 + d)

/-- Decimal digits of `n` in front of `acc`, most significant first; `fuel`
bounds the number of digits. -/
def natDigitsAux : ℕ → ℕ → List Char → List Char
  | 0, _, acc => acc
  | fuel + 1, n, acc =>
    if n < 10 then digitChar n :: acc
    else natDigitsAux fuel (n / 10) (digitChar (n % 10) :: acc)

/-- The decimal digits of a natural number (`"0"` for zero). -/
def natDigits (n : ℕ) : List Char := natDigitsAux (n + 1) n []

/-- Fixed notation with `f` fraction digits of the integer `n`, read as
`n / 10 ^ f`: the digits of `n`, padded with zeros on the left to `f + 1`
characters, with a point before the last `f`. -/
def fixedDigits (f n : ℕ) : List Char :=
  let m := natDigits n
  if f = 0 then m
  else
    let m := List.replicate (f + 1 - m.length) '0' ++ m
    m.take (m.length - f) ++ '.' :: m.drop (m.length - f)

/-- Drop the trailing zeros of a digit run. -/
def stripTrailingZeros (ds : List Char) : List Char :=
  (ds.reverse.dropWhile (fun c => c == '0')).reverse

/-- Exponential notation of a positive integer `n` (`Number::toString` for a
value of at least `10 ^ 21`): first digit, the remaining significant digits
after a point if there are any, `e+` and the decimal exponent. -/
def exponentialDigits (n : ℕ) : List Char :=
  let ds := natDigits n
  let e := natDigits (ds.length - 1)
  match stripTrailingZeros ds with
  | [] => ds
  | [d] => d :: 'e' :: '+' :: e
  | d :: rest => d :: '.' :: (rest ++ 'e' :: '+' :: e)

/-- The digits that `toFixed f` produces for a magnitude `x ≥ 0`: exponential
notation from `10 ^ 21` on, otherwise the integer nearest to `x * 10 ^ f`
(the larger one on a tie) in fixed notation. -/
noncomputable def magnitudeToFixed (f : ℕ) (x : ℝ) : List Char :=
  if (10 : ℝ) ^ 21 ≤ x then exponentialDigits ⌊x + 1 / 2⌋₊
  else fixedDigits f ⌊x * (10 : ℝ) ^ f + 1 / 2⌋₊

/-- The method `Number.prototype.toFixed`. -/
noncomputable def toFixed (f : ℕ) : JSNum → String
  | JSNum.nan => "NaN"
  | JSNum.pinf => "Infinity"
  | JSNum.ninf => "-Infinity"
  | JSNum.fin x =>
    if x < 0 then String.mk ('-' :: magnitudeToFixed f (-x))
    else String.mk (magnitudeToFixed f x)

/-! ## The page: constants and state -/

/-- The table `MAPPING`: compounding periods per year of each period name
(`none` is the `undefined` of a missing key). -/
def MAPPING (period : String) : Option ℕ :=
  if period = "Daily" then some 365
  else if period = "Monthly" then some 12
  else if period = "Quarterly" then some 4
  else if period = "Annual" then some 1
  else none

/-- The array `PERIOD_NAMES`. -/
def PERIOD_NAMES : List String := ["Daily", "Monthly", "Quarterly", "Annual"]

/-- The array `RATE_TYPES`. -/
def RATE_TYPES : List String := ["nominal", "effective_period"]

/-- The id of the field of a rate type and period (the template of line 24). -/
def fieldId (type period : String) : String := type ++ "_" ++ period

/-- The ids of the eight fields, in the order in which the set-up loops map
them. -/
def FIELD_IDS : List String :=
  PERIOD_NAMES.flatMap (fun period => RATE_TYPES.map (fun type => fieldId type period))

/-- The fields of `MATRIX_INPUTS`: each mapped id with the string its element
holds, in insertion order. -/
abbrev Matrix := List (String × String)

/-- The value of the element `MATRIX_INPUTS[id]`, when the id is mapped. -/
def getField : Matrix → String → Option String
  | [], _ => none
  | field :: rest, id => if field.1 = id then some field.2 else getField rest id

/-- The state the script works on. -/
structure Page where
  /-- The mapped rate fields and their values. -/
  MATRIX_INPUTS : Matrix
  /-- The value of the element `principalAmount`. -/
  principalAmount : String
  /-- The value of the element `timeValue`. -/
  timeValue : String
  /-- The radio inputs named `timeUnit`: value and checked state. -/
  timeUnitInputs : List (String × Bool)
  /-- The text of the element `futureValue`. -/
  futureValue : String
  /-- The variable `activeInputId` (`none` is `null`). -/
  activeInputId : Option String

/-- The method `split` of a string, on one separator character. -/
def splitOnChar (sep : Char) : List Char → List (List Char)
  | [] => [[]]
  | c :: cs =>
    if c = sep then [] :: splitOnChar sep cs
    else
      match splitOnChar sep cs with
      | [] => [[c]]
      | p :: ps => (c :: p) :: ps

/-- The array `id.split('_')`. -/
def idParts (id : String) : List String :=
  (splitOnChar '_' id.toList).map String.mk

/-- The rate type read off a field id (lines 72-79): the first part, or
`effective_period` when the second part is `period`. -/
def idType (id : String) : String :=
  if (idParts id)[1]? = some "period" then "effective_period"
  else (idParts id).headD ""

/-- The period read off a field id (line 76): the last part. -/
def idPeriod (id : String) : String := (idParts id).getLastD ""

/-- A looked-up table entry used as a number (`undefined` becomes `NaN`). -/
noncomputable def toNumber : Option ℕ → JSNum
  | none => JSNum.nan
  | some n => JSNum.fin n

/-! ## Core conversion functions -/

/-- The function `clearAllButOne`: every field but `excludeId` is emptied. -/
def clearAllButOne (excludeId : String) (matrix : Matrix) : Matrix :=
  matrix.map (fun field => if field.1 ≠ excludeId then (field.1, "") else field)

/-- Lines 69-91 of `calculateEffectiveAnnualRate`: the EAR of the parsed value
of the field `inputId`, `none` being `null`. -/
noncomputable def earOfValue (inputId : String) (inputValue : JSNum) : Option JSNum :=
  open Classical in
  if inputValue.isNaN ∨ inputValue.lt (JSNum.fin 0) then none
  else
    let rate := inputValue.div (JSNum.fin 100)
    let m := toNumber (MAPPING (idPeriod inputId))
    if idType inputId = "effective_period" then
      some (((JSNum.fin 1).add rate).pow m |>.sub (JSNum.fin 1))
    else
      some (((JSNum.fin 1).add (rate.div m)).pow m |>.sub (JSNum.fin 1))

/-- The function `calculateEffectiveAnnualRate`. -/
noncomputable def calculateEffectiveAnnualRate (matrix : Matrix) (inputId : String) :
    Option JSNum :=
  match getField matrix inputId with
  | none => none
  | some value => earOfValue inputId (parseFloat value)

/-- Lines 106-127 of `updateMatrix`: the rate in percent derived from the EAR
for the field `id`. -/
noncomputable def rateOfEar (earDecimal : JSNum) (id : String) : JSNum :=
  let m := toNumber (MAPPING (idPeriod id))
  if idType id = "effective_period" then
    (((JSNum.fin 1).add earDecimal).pow ((JSNum.fin 1).div m) |>.sub (JSNum.fin 1)).mul
      (JSNum.fin 100)
  else
    let effectivePeriodRate :=
      ((JSNum.fin 1).add earDecimal).pow ((JSNum.fin 1).div m) |>.sub (JSNum.fin 1)
    (effectivePeriodRate.mul m).mul (JSNum.fin 100)

/-- The function `updateMatrix`: every field but `excludeId` receives the
rate derived from the EAR, written with six decimals. -/
noncomputable def updateMatrix (earDecimal : JSNum) (excludeId : String) (matrix : Matrix) :
    Matrix :=
  matrix.map (fun field =>
    if field.1 = excludeId then field else (field.1, toFixed 6 (rateOfEar earDecimal field.1)))

/-! ## Future value -/

/-- A word character of a regular expression (`\w`). -/
def isWordChar (c : Char) : Bool :=
  isDigit c || (65 ≤ c.toNat && c.toNat ≤ 90) || (97 ≤ c.toNat && c.toNat ≤ 122) || c == '_'

/-- The call `replace(/\B(?=(\d{3})+(?!\d))/g, ",")`, with `prev` the
character before the current position: a comma goes in front of a character
when the position is not a word boundary and the digit run that starts there
is a positive multiple of three long. -/
def groupThousandsAux (prev : Option Char) : List Char → List Char
  | [] => []
  | c :: cs =>
    let notBoundary := ((prev.map isWordChar).getD false == isWordChar c)
    let run := ((c :: cs).takeWhile isDigit).length
    if notBoundary && 0 < run && run % 3 == 0 then
      ',' :: c :: groupThousandsAux (some c) cs
    else c :: groupThousandsAux (some c) cs

/-- The thousands separators of line 196. -/
def groupThousands (s : String) : String := String.mk (groupThousandsAux none s.toList)

/-- Lines 178-191 of `calculateFutureValue`: the time in years. -/
noncomputable def timeInYears (timeUnit : String) (timeValue : JSNum) : JSNum :=
  if timeUnit = "days" then timeValue.div (JSNum.fin 365)
  else if timeUnit = "months" then timeValue.div (JSNum.fin 12)
  else timeValue

/-- Lines 156-162 of `calculateFutureValue`: the value of the last checked
radio input, `years` when none is checked. -/
def selectedTimeUnit (timeUnitInputs : List (String × Bool)) : String :=
  timeUnitInputs.foldl (fun timeUnit input => if input.2 then input.1 else timeUnit) "years"

/-- Lines 164-171 of `calculateFutureValue`: the EAR of the active field, `0`
when there is no active field or its value is invalid. -/
noncomputable def activeEar (page : Page) : JSNum :=
  match page.activeInputId with
  | none => JSNum.fin 0
  | some id =>
    if id = "" then JSNum.fin 0
    else
      match calculateEffectiveAnnualRate page.MATRIX_INPUTS id with
      | none => JSNum.fin 0
      | some calculatedEar => calculatedEar

/-- Line 194 of `calculateFutureValue`: the amount. -/
noncomputable def futureValueAmount (principal timeValue : JSNum) (timeUnit : String)
    (earDecimal : JSNum) : JSNum :=
  principal.mul (((JSNum.fin 1).add earDecimal).pow (timeInYears timeUnit timeValue))

/-- Line 154 of `calculateFutureValue`: the principal, `1000` when the
element is empty. -/
noncomputable def principalOf (page : Page) : JSNum :=
  parseFloat (if page.principalAmount = "" then "1000" else page.principalAmount)

/-- Line 155 of `calculateFutureValue`: the time value, `1` when the element
is empty. -/
noncomputable def timeValueOf (page : Page) : JSNum :=
  parseFloat (if page.timeValue = "" then "1" else page.timeValue)

/-- Lines 154-196 of `calculateFutureValue`: the text the function computes
for the element `futureValue`. -/
noncomputable def futureValueText (page : Page) : String :=
  open Classical in
  let principal := principalOf page
  let timeValue := timeValueOf page
  let timeUnit := selectedTimeUnit page.timeUnitInputs
  let earDecimal := activeEar page
  if principal.isNaN ∨ principal.lt (JSNum.fin 0) ∨ timeValue.isNaN ∨
      timeValue.lt (JSNum.fin 0) then
    "Invalid Input"
  else
    let futureValue := futureValueAmount principal timeValue timeUnit earDecimal
    "$" ++ groupThousands (toFixed 2 futureValue)

/-- The function `calculateFutureValue`: the text of the element
`futureValue` is rewritten, nothing else. -/
noncomputable def calculateFutureValue (page : Page) : Page :=
  { page with futureValue := futureValueText page }

/-- The function `updateAllRates`. -/
noncomputable def updateAllRates (inputId : String) (page : Page) : Page :=
  match calculateEffectiveAnnualRate page.MATRIX_INPUTS inputId with
  | some ear =>
    calculateFutureValue
      { page with MATRIX_INPUTS := updateMatrix ear inputId page.MATRIX_INPUTS }
  | none =>
    calculateFutureValue
      { page with MATRIX_INPUTS := clearAllButOne inputId page.MATRIX_INPUTS }

/-- The browser stores the typed text in the edited element. -/
def setField (id value : String) (matrix : Matrix) : Matrix :=
  matrix.map (fun field => if field.1 = id then (field.1, value) else field)

/-- The `input` listener of the field `id` (lines 28-33), run after the
browser has stored the typed text `value` in the element. -/
noncomputable def onInput (id value : String) (page : Page) : Page :=
  updateAllRates id
    { page with
      MATRIX_INPUTS := clearAllButOne id (setField id value page.MATRIX_INPUTS)
      activeInputId := some id }

/-! ## Closed forms and sample pages used in the statements -/

/-- The closed form of the EAR of a finite value `v` (what lines 83-91 compute
on finite values), as a real number. -/
noncomputable def earFormula (id : String) (m : ℕ) (v : ℝ) : ℝ :=
  if idType id = "effective_period" then (1 + v / 100) ^ m - 1
  else (1 + v / 100 / m) ^ m - 1

/-- The closed form of the rate derived from a finite EAR `e` (what lines
117-127 compute on finite values), as a real number. -/
noncomputable def rateFormula (id : String) (m : ℕ) (e : ℝ) : ℝ :=
  if idType id = "effective_period" then ((1 + e) ^ ((1 : ℝ) / m) - 1) * 100
  else m * ((1 + e) ^ ((1 : ℝ) / m) - 1) * 100

/-- The matrix of the eight fields, all empty. -/
def emptyMatrix : Matrix := FIELD_IDS.map (fun id => (id, ""))

/-- A page whose field `id` holds `text` and is the active one, the other
seven fields being empty, with the default principal, time and unit. -/
def pageWith (id text : String) : Page :=
  { MATRIX_INPUTS := setField id text emptyMatrix
    principalAmount := "1000"
    timeValue := "1"
    timeUnitInputs := [("days", false), ("months", false), ("years", true)]
    futureValue := ""
    activeInputId := some id }

/-- The page of `pageWith "nominal_Annual" "5"` with another principal text. -/
def pageWithPrincipal (text : String) : Page :=
  { pageWith "nominal_Annual" "5" with principalAmount := text }

/-- A page like `pageWith "nominal_Annual" "5"` with another time value and
with the radio input of `unit` checked. -/
def pageWithTime (timeValue unit : String) : Page :=
  { pageWith "nominal_Annual" "5" with
    timeValue := timeValue
    timeUnitInputs := [("days", decide (unit = "days")), ("months", decide (unit = "months")),
      ("years", decide (unit = "years"))] }

/-- A page whose eight fields all hold the text `9.999999`, left over from an
earlier edit. -/
def stalePage : Page :=
  { pageWith "nominal_Annual" "5" with
    MATRIX_INPUTS := FIELD_IDS.map (fun id => (id, "9.999999")) }

/-- The numeric value of a displayed amount, in the words of the
specification: the text without its `$` prefix and without the thousands
separators, read as a number. -/
noncomputable def displayedValue (text : String) : JSNum :=
  parseFloat (String.mk
    ((match text.toList with
      | '$' :: rest => rest
      | cs => cs).filter (fun c => c != ',')))

/-! ## Binary64 evaluation of the conversions

The definitions above take finite numbers to be exact.  The definitions
below evaluate the annual conversion and the nominal rates as the script
does, every arithmetic operation being rounded to the nearest binary64 value;
values are rational numbers, the exponent range is unbounded (no overflow, no
subnormal values). -/

/-- The integer nearest to `x`, the even one on a tie (IEEE-754
`roundTiesToEven`). -/
def roundHalfEven (x : ℚ) : ℤ :=
  if x - ⌊x⌋ < 1 / 2 then ⌊x⌋
  else if 1 / 2 < x - ⌊x⌋ then ⌊x⌋ + 1
  else if ⌊x⌋ % 2 = 0 then ⌊x⌋
  else ⌊x⌋ + 1

/-- The binary64 value nearest to `q`: for `q ≠ 0`, with `e` the exponent
that puts `|q| / 2 ^ e` between `2 ^ 52` and `2 ^ 53`, the nearest multiple of
`2 ^ e`, the one with an even multiplier on a tie. -/
def roundDouble (q : ℚ) : ℚ :=
  if q = 0 then 0
  else
    (if q < 0 then -1 else 1) *
      (roundHalfEven (|q| / 2 ^ (Int.log 2 |q| - 52)) : ℚ) * 2 ^ (Int.log 2 |q| - 52)

/-- Lines 71-90 of `calculateEffectiveAnnualRate` for the field
`nominal_Annual` (`m = 1`) on a finite value `≥ 0`, in binary64:
`rate = inputValue / 100`, then `Math.pow(1 + rate / m, m) - 1`, where
`Math.pow(x, 1)` is `x`. -/
def nominalAnnualEarDouble (inputValue : ℚ) : ℚ :=
  roundDouble (roundDouble (1 + roundDouble (roundDouble (inputValue / 100) / 1)) - 1)

/-- Lines 71-86 of `calculateEffectiveAnnualRate` for the field
`effective_period_Annual` (`m = 1`) on a finite value `≥ 0`, in binary64:
`rate = inputValue / 100`, then `Math.pow(1 + rate, m) - 1`, where
`Math.pow(x, 1)` is `x`. -/
def effectiveAnnualEarDouble (inputValue : ℚ) : ℚ :=
  roundDouble (roundDouble (1 + roundDouble (inputValue / 100)) - 1)

/-- Lines 125-126 of `updateMatrix` for a nominal field of frequency `m`, in
binary64, from the double `p` that `Math.pow(1 + earDecimal, 1 / m)` returns:
`effectivePeriodRate = p - 1`, then `result = (effectivePeriodRate * m) * 100`. -/
def nominalRateDouble (p : ℚ) (m : ℕ) : ℚ :=
  roundDouble (roundDouble (roundDouble (p - 1) * m) * 100)

/-- The double `p`, between `1` and `2`, is the binary64 value nearest to the
`m`-th root of `x`: `p` is a multiple of `2 ^ (-52)` and `x` lies strictly
between the `m`-th powers of the two midpoints around `p`.  This is the value
of `Math.pow(x, 1 / m)` when the function rounds to nearest. -/
def IsNearestRootDouble (x : ℚ) (m : ℕ) (p : ℚ) : Prop :=
  1 ≤ p ∧ p < 2 ∧ (∃ k : ℕ, p = 1 + k / 2 ^ 52) ∧
    (p - 1 / 2 ^ 53) ^ m < x ∧ x < (p + 1 / 2 ^ 53) ^ m

/-- The double `p ≥ 1` is within the relative distance `2 ^ (-52)` of the
`m`-th root of `x`: `x` lies between the `m`-th powers of `p * (1 - 2^(-52))`
and `p * (1 + 2^(-52))`.  ECMAScript leaves the accuracy of `Math.pow` to the
implementation; this is the accuracy of a `Math.pow(x, 1 / m)` that errs by
at most one unit in the last place. -/
def IsRootDouble (x : ℚ) (m : ℕ) (p : ℚ) : Prop :=
  1 ≤ p ∧ (p * (1 - 1 / 2 ^ 52)) ^ m ≤ x ∧ x ≤ (p * (1 + 1 / 2 ^ 52)) ^ m

/-- Lines 71 and 90 of `calculateEffectiveAnnualRate` for a nominal field of
frequency `m` on a finite value `≥ 0`, in binary64: the base of the power,
`1 + rate / m` with `rate = inputValue / 100`. -/
def nominalBaseDouble (inputValue : ℚ) (m : ℕ) : ℚ :=
  roundDouble (1 + roundDouble (roundDouble (inputValue / 100) / m))

/-- Line 90 of `calculateEffectiveAnnualRate` in binary64, from the double `q`
that `Math.pow(1 + rate / m, m)` returns: `q - 1`. -/
def earOfPowerDouble (q : ℚ) : ℚ :=
  roundDouble (q - 1)

/-- The double `q` is within the relative distance `2 ^ (-52)` of the power
`b ^ m`: the accuracy of a `Math.pow(b, m)` that errs by at most one unit in
the last place. -/
def IsPowerDouble (b : ℚ) (m : ℕ) (q : ℚ) : Prop :=
  b ^ m * (1 - 1 / 2 ^ 52) ≤ q ∧ q ≤ b ^ m * (1 + 1 / 2 ^ 52)

/-! ## Arithmetic on finite values -/

theorem JSNum.add_fin (x y : ℝ) : (JSNum.fin x).add (JSNum.fin y) = JSNum.fin (x + y) := rfl

theorem JSNum.sub_fin (x y : ℝ) : (JSNum.fin x).sub (JSNum.fin y) = JSNum.fin (x - y) := by
  simp [JSNum.sub, JSNum.neg, JSNum.add, sub_eq_add_neg]

theorem JSNum.mul_fin (x y : ℝ) : (JSNum.fin x).mul (JSNum.fin y) = JSNum.fin (x * y) := rfl

theorem JSNum.div_fin (x y : ℝ) (hy : y ≠ 0) :
    (JSNum.fin x).div (JSNum.fin y) = JSNum.fin (x / y) := by
  simp [JSNum.div, hy]

theorem JSNum.pow_fin_of_pos (x y : ℝ) (hx : 0 < x) (hy : y ≠ 0) :
    (JSNum.fin x).pow (JSNum.fin y) = JSNum.fin (x ^ y) := by
  simp [JSNum.pow, hy, hx.ne', not_lt.mpr hx.le]

theorem JSNum.pow_fin_natCast (x : ℝ) (n : ℕ) (hx : 0 < x) (hn : n ≠ 0) :
    (JSNum.fin x).pow (JSNum.fin (n : ℝ)) = JSNum.fin (x ^ n) := by
  rw [JSNum.pow_fin_of_pos x n hx (by exact_mod_cast hn), Real.rpow_natCast]

theorem JSNum.lt_fin (x y : ℝ) : (JSNum.fin x).lt (JSNum.fin y) ↔ x < y := Iff.rfl

theorem JSNum.not_isNaN_fin (x : ℝ) : ¬ (JSNum.fin x).isNaN := fun h => h

/-- The frequency of each of the four period names is positive. -/
theorem MAPPING_pos (period : String) (m : ℕ) (h : MAPPING period = some m) : 0 < m := by
  unfold MAPPING at h
  split_ifs at h <;> simp at h <;> omega

/-- The EAR of a finite value `v ≥ 0`, for a field whose period is mapped. -/
theorem earOfValue_fin (id : String) (v : ℝ) (m : ℕ) (hv : 0 ≤ v)
    (hm : MAPPING (idPeriod id) = some m) :
    earOfValue id (JSNum.fin v) = some (JSNum.fin
      (if idType id = "effective_period" then (1 + v / 100) ^ m - 1
       else (1 + v / 100 / m) ^ m - 1)) := by
  have hm0 : 0 < m := MAPPING_pos _ _ hm
  have hmR : (0 : ℝ) < m := by exact_mod_cast hm0
  have h1 : (0 : ℝ) < 1 + v / 100 := by positivity
  have h2 : (0 : ℝ) < 1 + v / 100 / m := by positivity
  unfold earOfValue
  rw [if_neg (by simp [JSNum.isNaN, JSNum.lt, hv])]
  simp only [hm, toNumber]
  rw [JSNum.div_fin v 100 (by norm_num), JSNum.div_fin _ _ hmR.ne', JSNum.add_fin,
    JSNum.add_fin, JSNum.pow_fin_natCast _ _ h1 hm0.ne', JSNum.pow_fin_natCast _ _ h2 hm0.ne',
    JSNum.sub_fin, JSNum.sub_fin]
  split_ifs <;> rfl

/-! ## The eight field ids -/

/-- The type, the period and the frequency read off each of the eight ids
are those the id was built from. -/
theorem id_parts_of_fieldId (type period : String) (htype : type ∈ RATE_TYPES)
    (hperiod : period ∈ PERIOD_NAMES) :
    idType (fieldId type period) = type ∧ idPeriod (fieldId type period) = period ∧
      ∃ m, MAPPING period = some m ∧ (m = 365 ∨ m = 12 ∨ m = 4 ∨ m = 1) := by
  simp only [RATE_TYPES, PERIOD_NAMES, List.mem_cons, List.mem_singleton, List.mem_nil_iff,
    or_false] at htype hperiod
  rcases htype with rfl | rfl <;> rcases hperiod with rfl | rfl | rfl | rfl <;>
    refine ⟨by decide, by decide, ?_⟩ <;>
    first
      | exact ⟨365, by decide, by decide⟩
      | exact ⟨12, by decide, by decide⟩
      | exact ⟨4, by decide, by decide⟩
      | exact ⟨1, by decide, by decide⟩

/-! ## Conversion to the effective annual rate -/

/-- C1: for each of the eight fields (type `nominal` or `effective_period`,
period with frequency `m` in `MAPPING`) holding a text that parses to a finite
`v ≥ 0`, `calculateEffectiveAnnualRate` reads the type and the period back
from the id and returns `(1 + v/100)^m - 1` for `effective_period` and
`(1 + (v/100)/m)^m - 1` for `nominal`. -/
theorem calculateEffectiveAnnualRate_formula (matrix : Matrix) (type period text : String)
    (v : ℝ) (m : ℕ) (htype : type ∈ RATE_TYPES) (hperiod : period ∈ PERIOD_NAMES)
    (hm : MAPPING period = some m)
    (hfield : getField matrix (fieldId type period) = some text)
    (hparse : parseFloat text = JSNum.fin v) (hv : 0 ≤ v) :
    idType (fieldId type period) = type ∧ idPeriod (fieldId type period) = period ∧
    calculateEffectiveAnnualRate matrix (fieldId type period) =
      some (JSNum.fin (if type = "effective_period" then (1 + v / 100) ^ m - 1
        else (1 + v / 100 / m) ^ m - 1)) := by
  obtain ⟨ht, hp, -⟩ := id_parts_of_fieldId type period htype hperiod
  refine ⟨ht, hp, ?_⟩
  unfold calculateEffectiveAnnualRate
  rw [hfield]
  simp only [hparse]
  rw [earOfValue_fin _ v m hv (by rw [hp]; exact hm), ht]

/-- C1 at the monthly nominal field holding `"6"`: the EAR is
`(1 + 0.06/12)^12 - 1`. -/
theorem calculateEffectiveAnnualRate_formula_witness :
    idType (fieldId "nominal" "Monthly") = "nominal" ∧
    idPeriod (fieldId "nominal" "Monthly") = "Monthly" ∧
    calculateEffectiveAnnualRate [("nominal_Monthly", "6")] (fieldId "nominal" "Monthly") =
      some (JSNum.fin (if "nominal" = "effective_period" then (1 + 6 / 100) ^ 12 - 1
        else (1 + 6 / 100 / (12 : ℕ)) ^ 12 - 1)) :=
  calculateEffectiveAnnualRate_formula [("nominal_Monthly", "6")] "nominal" "Monthly" "6" 6 12
    (by decide) (by decide) (by decide) (by decide)
    (by simp [parseFloat, show parseLiteral "6" = StrNum.dec false 6 0 by decide,
      StrNum.toJSNum])
    (by norm_num)

/-- Each of the eight ids is built from a rate type and a period name. -/
theorem exists_fieldId_of_mem (id : String) (hid : id ∈ FIELD_IDS) :
    ∃ type period, type ∈ RATE_TYPES ∧ period ∈ PERIOD_NAMES ∧ id = fieldId type period := by
  simp only [FIELD_IDS, List.mem_flatMap, List.mem_map] at hid
  obtain ⟨period, hperiod, type, htype, rfl⟩ := hid
  exact ⟨type, period, htype, hperiod, rfl⟩

/-- The period of each of the eight ids has a frequency in `MAPPING`. -/
theorem exists_MAPPING_of_mem (id : String) (hid : id ∈ FIELD_IDS) :
    ∃ m, MAPPING (idPeriod id) = some m := by
  obtain ⟨type, period, htype, hperiod, rfl⟩ := exists_fieldId_of_mem id hid
  obtain ⟨-, hp, m, hm, -⟩ := id_parts_of_fieldId type period htype hperiod
  exact ⟨m, by rw [hp]; exact hm⟩

/-- The value `+Infinity` passes the guard of line 69 and its EAR is
`+Infinity`. -/
theorem earOfValue_pinf (id : String) (m : ℕ) (hm : MAPPING (idPeriod id) = some m) :
    earOfValue id JSNum.pinf = some JSNum.pinf := by
  have hm0 : 0 < m := MAPPING_pos _ _ hm
  have hmR : (0 : ℝ) < m := by exact_mod_cast hm0
  unfold earOfValue
  rw [if_neg (by simp [JSNum.isNaN, JSNum.lt])]
  simp [hm, toNumber, JSNum.div, JSNum.infOver, JSNum.add, JSNum.pow, JSNum.sub, JSNum.neg,
    hmR.le, hmR, hmR.ne', hm0.ne']

/-- C2, as stated, fails at the text `Infinity`: the parsed value is not a
finite number, yet `calculateEffectiveAnnualRate` does not return `null`. -/
theorem calculateEffectiveAnnualRate_infinity_not_null :
    parseFloat "Infinity" = JSNum.pinf ∧
    calculateEffectiveAnnualRate [("nominal_Annual", "Infinity")] "nominal_Annual" =
      some JSNum.pinf ∧
    ¬ (calculateEffectiveAnnualRate [("nominal_Annual", "Infinity")] "nominal_Annual" = none ↔
      ¬ ∃ v : ℝ, parseFloat "Infinity" = JSNum.fin v ∧ 0 ≤ v) := by
  have hparse : parseFloat "Infinity" = JSNum.pinf := by
    simp [parseFloat, show parseLiteral "Infinity" = StrNum.inf false by decide,
      StrNum.toJSNum]
  have hcalc : calculateEffectiveAnnualRate [("nominal_Annual", "Infinity")]
      "nominal_Annual" = some JSNum.pinf := by
    unfold calculateEffectiveAnnualRate
    rw [show getField [("nominal_Annual", "Infinity")] "nominal_Annual" = some "Infinity" by
      decide]
    simp only [hparse]
    exact earOfValue_pinf _ 1 (by decide)
  refine ⟨hparse, hcalc, ?_⟩
  rw [hcalc, hparse]
  simp

/-- C2, amended: for each of the eight fields, `calculateEffectiveAnnualRate`
returns `null` if and only if the parsed value is `NaN` or negative
(`-Infinity` included); every finite value `v ≥ 0` yields a number, and
`+Infinity` is accepted as well, with EAR `+Infinity`. -/
theorem calculateEffectiveAnnualRate_null_iff (matrix : Matrix) (id text : String)
    (hid : id ∈ FIELD_IDS) (hfield : getField matrix id = some text) :
    (calculateEffectiveAnnualRate matrix id = none ↔
      (parseFloat text).isNaN ∨ (parseFloat text).lt (JSNum.fin 0)) ∧
    (∀ v : ℝ, parseFloat text = JSNum.fin v → 0 ≤ v →
      ∃ ear : JSNum, calculateEffectiveAnnualRate matrix id = some ear) ∧
    (parseFloat text = JSNum.pinf →
      calculateEffectiveAnnualRate matrix id = some JSNum.pinf) ∧
    (parseFloat text = JSNum.ninf → calculateEffectiveAnnualRate matrix id = none) := by
  obtain ⟨m, hm⟩ := exists_MAPPING_of_mem id hid
  have hcalc : calculateEffectiveAnnualRate matrix id = earOfValue id (parseFloat text) := by
    unfold calculateEffectiveAnnualRate
    rw [hfield]
  rw [hcalc]
  refine ⟨?_, ?_, ?_, ?_⟩
  · unfold earOfValue
    split_ifs with h1 h2 <;> simp [h1]
  · intro v hv h0
    rw [hv, earOfValue_fin id v m h0 hm]
    exact ⟨_, rfl⟩
  · intro h
    rw [h]
    exact earOfValue_pinf id m hm
  · intro h
    rw [h]
    simp [earOfValue, JSNum.lt]

/-- C2, amended, at the annual nominal field holding `"5"`, a finite value
`≥ 0`: the field has an EAR, so the result is not `null`. -/
theorem calculateEffectiveAnnualRate_null_iff_witness :
    ((calculateEffectiveAnnualRate [("nominal_Annual", "5")] "nominal_Annual" = none ↔
      (parseFloat "5").isNaN ∨ (parseFloat "5").lt (JSNum.fin 0)) ∧
    (∀ v : ℝ, parseFloat "5" = JSNum.fin v → 0 ≤ v →
      ∃ ear : JSNum, calculateEffectiveAnnualRate [("nominal_Annual", "5")] "nominal_Annual" =
        some ear) ∧
    (parseFloat "5" = JSNum.pinf →
      calculateEffectiveAnnualRate [("nominal_Annual", "5")] "nominal_Annual" =
        some JSNum.pinf) ∧
    (parseFloat "5" = JSNum.ninf →
      calculateEffectiveAnnualRate [("nominal_Annual", "5")] "nominal_Annual" = none)) ∧
    (∃ ear : JSNum, calculateEffectiveAnnualRate [("nominal_Annual", "5")] "nominal_Annual" =
      some ear) ∧
    calculateEffectiveAnnualRate [("nominal_Annual", "5")] "nominal_Annual" ≠ none := by
  have h := calculateEffectiveAnnualRate_null_iff [("nominal_Annual", "5")] "nominal_Annual"
    "5" (by decide) (by decide)
  have hparse : parseFloat "5" = JSNum.fin 5 := by
    simp [parseFloat, show parseLiteral "5" = StrNum.dec false 5 0 by decide, StrNum.toJSNum]
  obtain ⟨ear, hear⟩ := h.2.1 5 hparse (by norm_num)
  refine ⟨h, ⟨ear, hear⟩, ?_⟩
  rw [hear]
  simp

/-! ## Conversion from the effective annual rate -/

/-- The rate derived from a finite EAR above `-1`, for a field whose period is
mapped. -/
theorem rateOfEar_fin (id : String) (e : ℝ) (m : ℕ) (he : -1 < e)
    (hm : MAPPING (idPeriod id) = some m) :
    rateOfEar (JSNum.fin e) id = JSNum.fin
      (if idType id = "effective_period" then ((1 + e) ^ ((1 : ℝ) / m) - 1) * 100
       else m * ((1 + e) ^ ((1 : ℝ) / m) - 1) * 100) := by
  have hm0 : 0 < m := MAPPING_pos _ _ hm
  have hmR : (0 : ℝ) < m := by exact_mod_cast hm0
  have h1 : (0 : ℝ) < 1 + e := by linarith
  have h2 : (1 : ℝ) / m ≠ 0 := by positivity
  unfold rateOfEar
  simp only [hm, toNumber]
  rw [JSNum.div_fin 1 m hmR.ne', JSNum.add_fin, JSNum.pow_fin_of_pos _ _ h1 h2, JSNum.sub_fin,
    JSNum.mul_fin, JSNum.mul_fin, JSNum.mul_fin]
  split_ifs
  · rfl
  · rw [mul_comm _ (m : ℝ)]

/-- Reading a field after a pass over the matrix that keeps the ids. -/
theorem getField_map (g : String × String → String × String) (hg : ∀ field, (g field).1 = field.1)
    (matrix : Matrix) (id : String) :
    getField (matrix.map g) id = (getField matrix id).map (fun value => (g (id, value)).2) := by
  induction matrix with
  | nil => rfl
  | cons field rest ih =>
    simp only [List.map_cons, getField, hg]
    by_cases hid : field.1 = id
    · subst hid
      simp
    · simp [hid, ih]

/-- Reading a field after `updateMatrix`. -/
theorem getField_updateMatrix (ear : JSNum) (excludeId id : String) (matrix : Matrix) :
    getField (updateMatrix ear excludeId matrix) id =
      if id = excludeId then getField matrix id
      else (getField matrix id).map (fun _ => toFixed 6 (rateOfEar ear id)) := by
  unfold updateMatrix
  rw [getField_map _ (by intro field; split_ifs <;> rfl)]
  by_cases h : id = excludeId <;> simp [h]

/-- Reading a field after `clearAllButOne`. -/
theorem getField_clearAllButOne (excludeId id : String) (matrix : Matrix) :
    getField (clearAllButOne excludeId matrix) id =
      if id = excludeId then getField matrix id
      else (getField matrix id).map (fun _ => "") := by
  unfold clearAllButOne
  rw [getField_map _ (by intro field; split_ifs <;> rfl)]
  by_cases h : id = excludeId <;> simp [h]

/-- C3: for every finite EAR above `-1` and every mapped field other than the
excluded one, `updateMatrix` writes `toFixed(6)` of `((1+ear)^(1/m) - 1) * 100`
when the field is an `effective_period` field and of
`m * ((1+ear)^(1/m) - 1) * 100` when it is a `nominal` field, `m` being the
frequency of the field's period. -/
theorem updateMatrix_writes_derived_rate (matrix : Matrix) (excludeId type period old : String)
    (e : ℝ) (m : ℕ) (htype : type ∈ RATE_TYPES) (hperiod : period ∈ PERIOD_NAMES)
    (hm : MAPPING period = some m) (he : -1 < e)
    (hne : fieldId type period ≠ excludeId)
    (hfield : getField matrix (fieldId type period) = some old) :
    getField (updateMatrix (JSNum.fin e) excludeId matrix) (fieldId type period) =
      some (toFixed 6 (JSNum.fin
        (if type = "effective_period" then ((1 + e) ^ ((1 : ℝ) / m) - 1) * 100
         else m * ((1 + e) ^ ((1 : ℝ) / m) - 1) * 100))) := by
  obtain ⟨ht, hp, -⟩ := id_parts_of_fieldId type period htype hperiod
  rw [getField_updateMatrix, if_neg hne, hfield,
    rateOfEar_fin _ e m he (by rw [hp]; exact hm), ht]
  rfl

/-- C3 at the daily effective field, EAR `0.05`, the annual nominal field
being the excluded one. -/
theorem updateMatrix_writes_derived_rate_witness :
    getField (updateMatrix (JSNum.fin 0.05) "nominal_Annual"
        [("nominal_Annual", "5"), ("effective_period_Daily", "")])
        (fieldId "effective_period" "Daily") =
      some (toFixed 6 (JSNum.fin
        (if "effective_period" = "effective_period" then
          ((1 + 0.05) ^ ((1 : ℝ) / (365 : ℕ)) - 1) * 100
         else (365 : ℕ) * ((1 + 0.05) ^ ((1 : ℝ) / (365 : ℕ)) - 1) * 100))) :=
  updateMatrix_writes_derived_rate [("nominal_Annual", "5"), ("effective_period_Daily", "")]
    "nominal_Annual" "effective_period" "Daily" "" 0.05 365 (by decide) (by decide)
    (by decide) (by norm_num) (by decide) (by decide)

/-! ## Round trips through the effective annual rate -/

/-- The `m`-th power undoes the `m`-th root taken by `Math.pow(x, 1 / m)`. -/
theorem root_pow (x : ℝ) (m : ℕ) (hx : 0 ≤ x) (hm : 0 < m) :
    (x ^ ((1 : ℝ) / m)) ^ m = x := by
  rw [one_div]
  exact Real.rpow_inv_natCast_pow hx hm.ne'

/-- The `m`-th root taken by `Math.pow(x, 1 / m)` undoes the `m`-th power. -/
theorem pow_root (x : ℝ) (m : ℕ) (hx : 0 ≤ x) (hm : 0 < m) :
    (x ^ m) ^ ((1 : ℝ) / m) = x := by
  rw [one_div]
  exact Real.pow_rpow_inv_natCast hx hm.ne'

/-- The EAR of a value `v ≥ 0` is not negative. -/
theorem earFormula_nonneg (id : String) (m : ℕ) (v : ℝ) (hv : 0 ≤ v) :
    0 ≤ earFormula id m v := by
  unfold earFormula
  split_ifs
  · have : (1 : ℝ) ≤ (1 + v / 100) ^ m := one_le_pow₀ (by linarith [div_nonneg hv (by norm_num : (0:ℝ) ≤ 100)])
    linarith
  · have h : (0 : ℝ) ≤ v / 100 / m := by positivity
    have : (1 : ℝ) ≤ (1 + v / 100 / m) ^ m := one_le_pow₀ (by linarith)
    linarith

/-- The rate derived from an EAR `e ≥ 0` is not negative. -/
theorem rateFormula_nonneg (id : String) (m : ℕ) (e : ℝ) (he : 0 ≤ e) :
    0 ≤ rateFormula id m e := by
  have h1 : (1 : ℝ) ≤ (1 + e) ^ ((1 : ℝ) / m) :=
    Real.one_le_rpow (by linarith) (by positivity)
  have h2 : (0 : ℝ) ≤ (1 + e) ^ ((1 : ℝ) / m) - 1 := by linarith
  unfold rateFormula
  split_ifs <;> positivity

/-- Converting the rate derived from an EAR `e ≥ 0` gives `e` back. -/
theorem earFormula_rateFormula (id : String) (m : ℕ) (e : ℝ) (hm : 0 < m) (he : 0 ≤ e) :
    earFormula id m (rateFormula id m e) = e := by
  have hmR : (m : ℝ) ≠ 0 := by exact_mod_cast hm.ne'
  have hroot := root_pow (1 + e) m (by linarith) hm
  unfold earFormula rateFormula
  split_ifs
  · rw [mul_div_assoc, div_self (by norm_num : (100 : ℝ) ≠ 0), mul_one, add_sub_cancel, hroot]
    ring
  · have hrate : (m : ℝ) * ((1 + e) ^ ((1 : ℝ) / m) - 1) * 100 / 100 / m =
        (1 + e) ^ ((1 : ℝ) / m) - 1 := by
      field_simp
    rw [hrate, add_sub_cancel, hroot]
    ring

/-- Deriving the rate from the EAR of a value `v ≥ 0` gives `v` back. -/
theorem rateFormula_earFormula (id : String) (m : ℕ) (v : ℝ) (hm : 0 < m) (hv : 0 ≤ v) :
    rateFormula id m (earFormula id m v) = v := by
  have hmR : (m : ℝ) ≠ 0 := by exact_mod_cast hm.ne'
  have h1 : (0 : ℝ) ≤ 1 + v / 100 := by positivity
  have h2 : (0 : ℝ) ≤ 1 + v / 100 / m := by positivity
  unfold earFormula rateFormula
  split_ifs
  · rw [add_sub_cancel, pow_root _ m h1 hm]
    ring
  · rw [add_sub_cancel, pow_root _ m h2 hm]
    field_simp
    ring

/-- C4: cross-representation round trip.  For all fields `r1`, `r2` among the
eight and every finite `v ≥ 0`, the EAR of `(r1, v)` is a number, and
converting the unrounded rate that `updateMatrix` derives from it for `r2`
back with the conversion of `calculateEffectiveAnnualRate` gives the same
EAR. -/
theorem cross_representation_round_trip (r1 r2 : String) (v : ℝ) (h1 : r1 ∈ FIELD_IDS)
    (h2 : r2 ∈ FIELD_IDS) (hv : 0 ≤ v) :
    ∃ ear : JSNum, earOfValue r1 (JSNum.fin v) = some ear ∧
      earOfValue r2 (rateOfEar ear r2) = some ear := by
  obtain ⟨m1, hm1⟩ := exists_MAPPING_of_mem r1 h1
  obtain ⟨m2, hm2⟩ := exists_MAPPING_of_mem r2 h2
  have he : 0 ≤ earFormula r1 m1 v := earFormula_nonneg r1 m1 v hv
  refine ⟨JSNum.fin (earFormula r1 m1 v), earOfValue_fin r1 v m1 hv hm1, ?_⟩
  have hrate : rateOfEar (JSNum.fin (earFormula r1 m1 v)) r2 =
      JSNum.fin (rateFormula r2 m2 (earFormula r1 m1 v)) :=
    rateOfEar_fin r2 _ m2 (by linarith) hm2
  rw [hrate, earOfValue_fin r2 _ m2 (rateFormula_nonneg r2 m2 _ he) hm2]
  exact congrArg (fun x => some (JSNum.fin x))
    (earFormula_rateFormula r2 m2 _ (MAPPING_pos _ _ hm2) he)

/-- C4 from the monthly nominal field holding `6` to the daily effective
field. -/
theorem cross_representation_round_trip_witness :
    ∃ ear : JSNum, earOfValue "nominal_Monthly" (JSNum.fin 6) = some ear ∧
      earOfValue "effective_period_Daily" (rateOfEar ear "effective_period_Daily") =
        some ear :=
  cross_representation_round_trip "nominal_Monthly" "effective_period_Daily" 6 (by decide)
    (by decide) (by norm_num)

/-- C5: same-representation round trip.  For every field `r` among the eight
and every finite `v ≥ 0`, the EAR of `(r, v)` is a number and the unrounded
rate that `updateMatrix` derives from it for `r` is `v`. -/
theorem same_representation_round_trip (r : String) (v : ℝ) (hr : r ∈ FIELD_IDS)
    (hv : 0 ≤ v) :
    ∃ ear : JSNum, earOfValue r (JSNum.fin v) = some ear ∧ rateOfEar ear r = JSNum.fin v := by
  obtain ⟨m, hm⟩ := exists_MAPPING_of_mem r hr
  have he : 0 ≤ earFormula r m v := earFormula_nonneg r m v hv
  refine ⟨JSNum.fin (earFormula r m v), earOfValue_fin r v m hv hm, ?_⟩
  have hrate : rateOfEar (JSNum.fin (earFormula r m v)) r =
      JSNum.fin (rateFormula r m (earFormula r m v)) :=
    rateOfEar_fin r _ m (by linarith) hm
  rw [hrate, rateFormula_earFormula r m v (MAPPING_pos _ _ hm) hv]

/-- C5 at the monthly nominal field holding `6`. -/
theorem same_representation_round_trip_witness :
    ∃ ear : JSNum, earOfValue "nominal_Monthly" (JSNum.fin 6) = some ear ∧
      rateOfEar ear "nominal_Monthly" = JSNum.fin 6 :=
  same_representation_round_trip "nominal_Monthly" 6 (by decide) (by norm_num)

/-! ## Reading back what `toFixed` writes -/

/-- The digit character of `d < 10` is a digit and has value `d`. -/
theorem digitChar_spec (d : ℕ) (hd : d < 10) :
    isDigit (digitChar d) = true ∧ digitVal (digitChar d) = d := by
  interval_cases d <;> exact ⟨by decide, by decide⟩

/-- Appending one digit to a digit run. -/
theorem digitsValue_append_singleton (ds : List Char) (c : Char) :
    digitsValue (ds ++ [c]) = 10 * digitsValue ds + digitVal c := by
  simp [digitsValue, List.foldl_append]

/-- The digits produced with enough fuel: a non-empty run of digit characters
in front of the accumulator, whose value is the number. -/
theorem natDigitsAux_spec (fuel : ℕ) : ∀ (n : ℕ) (acc : List Char), n < fuel →
    ∃ ds : List Char, natDigitsAux fuel n acc = ds ++ acc ∧ ds ≠ [] ∧
      (∀ c ∈ ds, isDigit c = true) ∧ digitsValue ds = n := by
  induction fuel with
  | zero => intro n acc h; omega
  | succ fuel ih =>
    intro n acc hn
    unfold natDigitsAux
    by_cases h10 : n < 10
    · rw [if_pos h10]
      refine ⟨[digitChar n], rfl, by simp, ?_, ?_⟩
      · intro c hc
        rw [List.mem_singleton] at hc
        rw [hc]
        exact (digitChar_spec n h10).1
      · simp [digitsValue, (digitChar_spec n h10).2]
    · rw [if_neg h10]
      obtain ⟨ds, hds, -, hdig, hval⟩ := ih (n / 10) (digitChar (n % 10) :: acc) (by omega)
      have hmod := digitChar_spec (n % 10) (Nat.mod_lt _ (by norm_num))
      refine ⟨ds ++ [digitChar (n % 10)], by rw [hds]; simp, by simp, ?_, ?_⟩
      · intro c hc
        rw [List.mem_append, List.mem_singleton] at hc
        rcases hc with hc | hc
        · exact hdig c hc
        · rw [hc]; exact hmod.1
      · rw [digitsValue_append_singleton, hval, hmod.2]
        omega

/-- The decimal digits of `n`: a non-empty run of digit characters of value
`n`. -/
theorem natDigits_spec (n : ℕ) :
    natDigits n ≠ [] ∧ (∀ c ∈ natDigits n, isDigit c = true) ∧
      digitsValue (natDigits n) = n := by
  obtain ⟨ds, hds, hne, hdig, hval⟩ := natDigitsAux_spec (n + 1) n [] (by omega)
  have : natDigits n = ds := by rw [natDigits, hds, List.append_nil]
  rw [this]
  exact ⟨hne, hdig, hval⟩

/-- Leading zeros do not change the value of a digit run. -/
theorem digitsValue_replicate_zero_append (k : ℕ) (ds : List Char) :
    digitsValue (List.replicate k '0' ++ ds) = digitsValue ds := by
  induction k with
  | zero => rfl
  | succ k ih =>
    have h0 : digitVal '0' = 0 := by decide
    simp only [digitsValue, List.replicate_succ, List.cons_append, List.foldl_cons, mul_zero,
      zero_add, h0] at ih ⊢
    exact ih

/-- A run of digit characters is what `takeWhile isDigit` keeps of it when a
non-digit follows. -/
theorem takeWhile_isDigit_append (a : List Char) (c : Char) (b : List Char)
    (ha : ∀ x ∈ a, isDigit x = true) (hc : isDigit c = false) :
    (a ++ c :: b).takeWhile isDigit = a ∧ (a ++ c :: b).dropWhile isDigit = c :: b := by
  induction a with
  | nil => simp [List.takeWhile, List.dropWhile, hc]
  | cons x xs ih =>
    have hx : isDigit x = true := ha x (List.mem_cons_self _ _)
    have := ih (fun y hy => ha y (List.mem_cons_of_mem _ hy))
    simp [List.takeWhile, List.dropWhile, hx, this]

/-- A run of digit characters is kept whole by `takeWhile isDigit`. -/
theorem takeWhile_isDigit_all (a : List Char) (ha : ∀ x ∈ a, isDigit x = true) :
    a.takeWhile isDigit = a ∧ a.dropWhile isDigit = [] := by
  induction a with
  | nil => simp
  | cons x xs ih =>
    have hx : isDigit x = true := ha x (List.mem_cons_self _ _)
    have := ih (fun y hy => ha y (List.mem_cons_of_mem _ hy))
    simp [List.takeWhile, List.dropWhile, hx, this]

/-- A digit is neither white space, nor a sign, nor the first letter of
`Infinity`. -/
theorem isDigit_not_special (c : Char) (hc : isDigit c = true) :
    isWhiteSpace c = false ∧ c ≠ '-' ∧ c ≠ '+' ∧ c ≠ 'I' ∧ c ≠ '.' := by
  have h : 48 ≤ c.toNat ∧ c.toNat ≤ 57 := by
    simpa [isDigit] using hc
  refine ⟨?_, ?_, ?_, ?_, ?_⟩
  · simp only [isWhiteSpace, Bool.or_eq_false_iff, Bool.and_eq_false_iff, beq_eq_false_iff_ne,
      decide_eq_false_iff_not]
    omega
  all_goals
    intro hc2
    rw [hc2] at h
    revert h
    decide

/-- A text that starts with a digit is read as an unsigned literal. -/
theorem parseLiteral_of_digit (s : String) (d : Char) (rest : List Char)
    (hs : s.toList = d :: rest) (hd : isDigit d = true) :
    parseLiteral s = parseUnsigned false (d :: rest) := by
  obtain ⟨hw, hminus, hplus, -, -⟩ := isDigit_not_special d hd
  unfold parseLiteral
  rw [hs]
  have hdrop : List.dropWhile isWhiteSpace (d :: rest) = d :: rest := by
    simp [List.dropWhile, hw]
  rw [hdrop]
  split
  · rename_i r heq
    exact absurd (List.cons.inj heq).1 hminus
  · rename_i r heq
    exact absurd (List.cons.inj heq).1 hplus
  · rfl

/-- A digit run `a`, a point and a digit run `b` are read as the decimal with
the digits `a ++ b` and as many fraction digits as `b` has. -/
theorem parseUnsigned_fixed (a b : List Char) (ha : ∀ x ∈ a, isDigit x = true)
    (hb : ∀ x ∈ b, isDigit x = true) (hne : a ≠ []) :
    parseUnsigned false (a ++ '.' :: b) =
      StrNum.dec false (digitsValue (a ++ b)) (-(b.length : ℤ)) := by
  obtain ⟨d, rest, rfl⟩ := List.exists_cons_of_ne_nil hne
  have hd : isDigit d = true := ha d (List.mem_cons_self _ _)
  obtain ⟨-, -, -, hI, -⟩ := isDigit_not_special d hd
  have hpre : "Infinity".toList.isPrefixOf (d :: rest ++ '.' :: b) = false := by
    have : "Infinity".toList = 'I' :: "nfinity".toList := rfl
    rw [this]
    simp [List.isPrefixOf, Ne.symm hI]
  obtain ⟨htake, hdrop⟩ := takeWhile_isDigit_append (d :: rest) '.' b ha (by decide)
  obtain ⟨htakeb, hdropb⟩ := takeWhile_isDigit_all b hb
  unfold parseUnsigned
  rw [hpre]
  simp only [htake, hdrop, parseFraction, htakeb, hdropb, parseExponent]
  simp

/-- Reading back the fixed notation of `n` with `f ≥ 1` fraction digits gives
the decimal `n * 10 ^ (-f)`. -/
theorem parseLiteral_fixedDigits (f n : ℕ) (hf : 0 < f) :
    parseLiteral (String.mk (fixedDigits f n)) = StrNum.dec false n (-(f : ℤ)) := by
  obtain ⟨hne, hdig, hval⟩ := natDigits_spec n
  set m := List.replicate (f + 1 - (natDigits n).length) '0' ++ natDigits n with hm
  have hmdig : ∀ c ∈ m, isDigit c = true := by
    intro c hc
    rw [hm, List.mem_append] at hc
    rcases hc with hc | hc
    · rw [(List.mem_replicate.mp hc).2]; decide
    · exact hdig c hc
  have hmlen : f + 1 ≤ m.length := by
    rw [hm, List.length_append, List.length_replicate]
    omega
  have hmval : digitsValue m = n := by
    rw [hm, digitsValue_replicate_zero_append, hval]
  have hfixed : fixedDigits f n = m.take (m.length - f) ++ '.' :: m.drop (m.length - f) := by
    unfold fixedDigits
    simp only [if_neg hf.ne', ← hm]
  have ha : ∀ x ∈ m.take (m.length - f), isDigit x = true :=
    fun x hx => hmdig x (List.mem_of_mem_take hx)
  have hb : ∀ x ∈ m.drop (m.length - f), isDigit x = true :=
    fun x hx => hmdig x (List.mem_of_mem_drop hx)
  have hane : m.take (m.length - f) ≠ [] := by
    intro h
    have := congrArg List.length h
    rw [List.length_take] at this
    simp at this
    omega
  have hblen : (m.drop (m.length - f)).length = f := by
    rw [List.length_drop]
    omega
  obtain ⟨d, rest, hcons⟩ := List.exists_cons_of_ne_nil hane
  have hd : isDigit d = true := ha d (by rw [hcons]; exact List.mem_cons_self _ _)
  rw [parseLiteral_of_digit (String.mk (fixedDigits f n)) d (rest ++ '.' :: m.drop (m.length - f))
    (by rw [hfixed, hcons]; rfl) hd]
  have := parseUnsigned_fixed _ _ ha hb hane
  rw [hcons] at this
  rw [List.cons_append] at this
  rw [this, ← hcons, List.take_append_drop, hmval, hblen]

/-- Trailing zeros multiply the value of a digit run by a power of ten. -/
theorem digitsValue_append_replicate_zero (ds : List Char) (k : ℕ) :
    digitsValue (ds ++ List.replicate k '0') = digitsValue ds * 10 ^ k := by
  induction k with
  | zero => simp
  | succ k ih =>
    have h0 : digitVal '0' = 0 := by decide
    rw [List.replicate_succ', ← List.append_assoc, digitsValue_append_singleton, ih, h0]
    ring

/-- A digit run is its significant part followed by its trailing zeros. -/
theorem stripTrailingZeros_append (ds : List Char) :
    ∃ k, ds = stripTrailingZeros ds ++ List.replicate k '0' ∧
      (stripTrailingZeros ds).length + k = ds.length := by
  refine ⟨(ds.reverse.takeWhile (fun c => c == '0')).length, ?_, ?_⟩
  · have hzeros : (ds.reverse.takeWhile (fun c => c == '0')).reverse =
        List.replicate (ds.reverse.takeWhile (fun c => c == '0')).length '0' := by
      rw [List.eq_replicate_iff]
      refine ⟨by simp, ?_⟩
      intro c hc
      rw [List.mem_reverse] at hc
      simpa using List.mem_takeWhile_imp hc
    have hsplit := List.takeWhile_append_dropWhile (fun c => c == '0') ds.reverse
    have := congrArg List.reverse hsplit
    rw [List.reverse_append, List.reverse_reverse] at this
    rw [← hzeros]
    exact this.symm
  · have hsplit := List.takeWhile_append_dropWhile (fun c => c == '0') ds.reverse
    have := congrArg List.length hsplit
    simp only [List.length_append, List.length_reverse] at this
    simp only [stripTrailingZeros, List.length_reverse]
    omega

/-- The exponent part `e+` followed by a digit run. -/
theorem parseExponent_plus (ds : List Char) (hds : ∀ x ∈ ds, isDigit x = true) :
    parseExponent ('e' :: '+' :: ds) = (digitsValue ds : ℤ) := by
  simp [parseExponent, (takeWhile_isDigit_all ds hds).1]

/-- Reading back the exponential notation of `n > 0` gives a decimal whose
value is `n`. -/
theorem parseLiteral_exponentialDigits (n : ℕ) (hn : 0 < n) :
    ∃ (mantissa k : ℕ), parseLiteral (String.mk (exponentialDigits n)) =
      StrNum.dec false mantissa (k : ℤ) ∧ mantissa * 10 ^ k = n := by
  obtain ⟨hne, hdig, hval⟩ := natDigits_spec n
  obtain ⟨k, hsplit, hlen⟩ := stripTrailingZeros_append (natDigits n)
  obtain ⟨-, hedig, heval⟩ := natDigits_spec ((natDigits n).length - 1)
  have hsval : digitsValue (stripTrailingZeros (natDigits n)) * 10 ^ k = n := by
    rw [← digitsValue_append_replicate_zero, ← hsplit, hval]
  have hsdig : ∀ c ∈ stripTrailingZeros (natDigits n), isDigit c = true := by
    intro c hc
    apply hdig
    rw [hsplit]
    exact List.mem_append_left _ hc
  refine ⟨digitsValue (stripTrailingZeros (natDigits n)), k, ?_, hsval⟩
  cases hs : stripTrailingZeros (natDigits n) with
  | nil =>
    rw [hs] at hsval
    simp [digitsValue] at hsval
    omega
  | cons d rest =>
    rw [hs] at hsdig hlen
    have hd : isDigit d = true := hsdig d (List.mem_cons_self _ _)
    have hrest : ∀ x ∈ rest, isDigit x = true :=
      fun x hx => hsdig x (List.mem_cons_of_mem _ hx)
    obtain ⟨-, -, -, hI, -⟩ := isDigit_not_special d hd
    have hexp : (k : ℤ) = (digitsValue (natDigits ((natDigits n).length - 1)) : ℤ) -
        (rest.length : ℤ) := by
      rw [heval]
      simp only [List.length_cons] at hlen
      omega
    cases rest with
    | nil =>
      have hform : exponentialDigits n =
          d :: 'e' :: '+' :: natDigits ((natDigits n).length - 1) := by
        simp only [exponentialDigits, hs]
      rw [hform, parseLiteral_of_digit _ d _ rfl hd]
      unfold parseUnsigned
      have hpre : "Infinity".toList.isPrefixOf
          (d :: 'e' :: '+' :: natDigits ((natDigits n).length - 1)) = false := by
        have : "Infinity".toList = 'I' :: "nfinity".toList := rfl
        rw [this]
        simp [List.isPrefixOf, Ne.symm hI]
      obtain ⟨htake, hdrop⟩ := takeWhile_isDigit_append [d] 'e'
        ('+' :: natDigits ((natDigits n).length - 1))
        (by simpa using hd) (by decide)
      rw [hpre]
      simp only [List.singleton_append] at htake hdrop
      simp only [htake, hdrop, parseFraction, parseExponent_plus _ hedig]
      simp only [List.length_nil] at hexp
      simp [hexp, parseExponent_plus _ hedig]
    | cons r rs =>
      have hform : exponentialDigits n = d :: '.' :: (r :: rs ++ 'e' :: '+' ::
          natDigits ((natDigits n).length - 1)) := by
        simp only [exponentialDigits, hs]
      have htext : d :: '.' :: (r :: rs ++ 'e' :: '+' ::
          natDigits ((natDigits n).length - 1)) =
          [d] ++ '.' :: (r :: rs ++ 'e' :: '+' :: natDigits ((natDigits n).length - 1)) := rfl
      rw [hform, parseLiteral_of_digit _ d _ rfl hd]
      unfold parseUnsigned
      have hpre : "Infinity".toList.isPrefixOf (d :: '.' :: (r :: rs ++ 'e' :: '+' ::
          natDigits ((natDigits n).length - 1))) = false := by
        have : "Infinity".toList = 'I' :: "nfinity".toList := rfl
        rw [this]
        simp [List.isPrefixOf, Ne.symm hI]
      obtain ⟨htake, hdrop⟩ := takeWhile_isDigit_append [d] '.'
        (r :: rs ++ 'e' :: '+' :: natDigits ((natDigits n).length - 1))
        (by simpa using hd) (by decide)
      obtain ⟨htake2, hdrop2⟩ := takeWhile_isDigit_append (r :: rs) 'e'
        ('+' :: natDigits ((natDigits n).length - 1)) hrest (by decide)
      rw [hpre, htext]
      simp only [htake, hdrop, parseFraction, htake2, hdrop2, parseExponent_plus _ hedig]
      simp [hexp, parseExponent_plus _ hedig]

/-- The text `toFixed(f)` writes for a finite `x ≥ 0` has no sign. -/
theorem toFixed_of_nonneg (f : ℕ) (x : ℝ) (hx : 0 ≤ x) :
    toFixed f (JSNum.fin x) = String.mk (magnitudeToFixed f x) := by
  simp [toFixed, not_lt.mpr hx]

/-- Below `10 ^ 21`, reading back `toFixed(f)` of `x ≥ 0` gives the multiple
of `10 ^ (-f)` nearest to `x`. -/
theorem parseFloat_toFixed_small (f : ℕ) (x : ℝ) (hf : 0 < f) (hx : 0 ≤ x)
    (hsmall : x < 10 ^ 21) :
    parseFloat (toFixed f (JSNum.fin x)) =
      JSNum.fin ((⌊x * (10 : ℝ) ^ f + 1 / 2⌋₊ : ℝ) / 10 ^ f) := by
  rw [toFixed_of_nonneg f x hx]
  unfold parseFloat magnitudeToFixed
  rw [if_neg (not_le.mpr hsmall), parseLiteral_fixedDigits f _ hf]
  simp only [StrNum.toJSNum, Bool.false_eq_true, if_false]
  rw [zpow_neg, zpow_natCast, ← div_eq_mul_inv]

/-- From `10 ^ 21` on, reading back `toFixed(f)` of `x` gives the integer
nearest to `x`. -/
theorem parseFloat_toFixed_large (f : ℕ) (x : ℝ) (hlarge : (10 : ℝ) ^ 21 ≤ x) :
    parseFloat (toFixed f (JSNum.fin x)) = JSNum.fin (⌊x + 1 / 2⌋₊ : ℝ) := by
  have hx : (0 : ℝ) ≤ x := le_trans (by positivity) hlarge
  have hpos : 0 < ⌊x + 1 / 2⌋₊ := by
    rw [Nat.floor_pos]
    have : (1 : ℝ) ≤ 10 ^ 21 := by norm_num
    linarith
  obtain ⟨mantissa, k, hparse, hvalue⟩ := parseLiteral_exponentialDigits _ hpos
  rw [toFixed_of_nonneg f x hx]
  unfold parseFloat magnitudeToFixed
  rw [if_pos hlarge, hparse]
  simp only [StrNum.toJSNum, Bool.false_eq_true, if_false]
  rw [zpow_natCast, ← hvalue]
  push_cast
  rfl

/-- Reading back `toFixed(f)` of `x ≥ 0` gives a finite value `y ≥ 0` close to
`x`: within half a unit of the last fraction digit below `10 ^ 21`, within
one half from there on. -/
theorem parseFloat_toFixed_nonneg (f : ℕ) (x : ℝ) (hf : 0 < f) (hx : 0 ≤ x) :
    ∃ y : ℝ, parseFloat (toFixed f (JSNum.fin x)) = JSNum.fin y ∧ 0 ≤ y ∧
      |y - x| ≤ 1 / (2 * 10 ^ f) + x / (2 * 10 ^ 21) := by
  by_cases hsmall : x < 10 ^ 21
  · refine ⟨_, parseFloat_toFixed_small f x hf hx hsmall, by positivity, ?_⟩
    have hp : (0 : ℝ) < 10 ^ f := by positivity
    have h0 : (0 : ℝ) ≤ x * 10 ^ f + 1 / 2 := by positivity
    have h1 := Nat.floor_le h0
    have h2 := Nat.lt_floor_add_one (x * (10 : ℝ) ^ f + 1 / 2)
    have h3 : (0 : ℝ) ≤ x / (2 * 10 ^ 21) := by positivity
    have h4 : |(⌊x * (10 : ℝ) ^ f + 1 / 2⌋₊ : ℝ) / 10 ^ f - x| ≤ 1 / (2 * 10 ^ f) := by
      rw [abs_le]
      constructor
      · rw [le_sub_iff_add_le, le_div_iff₀ hp]
        have : (-(1 / (2 * 10 ^ f)) + x) * (10 : ℝ) ^ f = x * 10 ^ f - 1 / 2 := by
          field_simp
          ring
        rw [this]
        linarith
      · rw [sub_le_iff_le_add, div_le_iff₀ hp]
        have : (1 / (2 * 10 ^ f) + x) * (10 : ℝ) ^ f = x * 10 ^ f + 1 / 2 := by
          field_simp
          ring
        rw [this]
        linarith
    linarith
  · have hlarge : (10 : ℝ) ^ 21 ≤ x := not_lt.mp hsmall
    refine ⟨_, parseFloat_toFixed_large f x hlarge, by positivity, ?_⟩
    have h0 : (0 : ℝ) ≤ x + 1 / 2 := by positivity
    have h1 := Nat.floor_le h0
    have h2 := Nat.lt_floor_add_one (x + 1 / 2)
    have h3 : (0 : ℝ) < 1 / (2 * 10 ^ f) := by positivity
    have h4 : (1 : ℝ) / 2 ≤ x / (2 * 10 ^ 21) := by
      rw [le_div_iff₀ (by positivity)]
      linarith
    rw [abs_le]
    constructor <;> linarith

/-! ## The EAR of a stored (rounded) rate -/

/-- A relative change of at most `5e-9` in the base changes an `m`-th power,
`m ≤ 365`, by at most `2e-6` of its value. -/
theorem pow_close (a a' : ℝ) (m : ℕ) (hm : m ≤ 365) (ha : 1 ≤ a)
    (hrel : |a' - a| ≤ 5e-9 * a) : |a' ^ m - a ^ m| ≤ 2e-6 * a ^ m := by
  have ha0 : (0 : ℝ) < a := by linarith
  have hfact : a' = a * (1 + (a' - a) / a) := by
    field_simp
  have ht : |(a' - a) / a| ≤ 5e-9 := by
    rw [abs_div, abs_of_pos ha0, div_le_iff₀ ha0]
    exact hrel
  obtain ⟨ht1, ht2⟩ := abs_le.mp ht
  have hup : (1 + (a' - a) / a) ^ m ≤ 1 + 2e-6 := by
    calc (1 + (a' - a) / a) ^ m ≤ (1 + 5e-9 : ℝ) ^ m :=
          pow_le_pow_left₀ (by linarith) (by linarith) m
      _ ≤ (1 + 5e-9 : ℝ) ^ 365 := pow_le_pow_right₀ (by norm_num) hm
      _ ≤ 1 + 2e-6 := by norm_num
  have hlow : 1 - 2e-6 ≤ (1 + (a' - a) / a) ^ m := by
    calc (1 - 2e-6 : ℝ) ≤ (1 - 5e-9 : ℝ) ^ 365 := by norm_num
      _ ≤ (1 - 5e-9 : ℝ) ^ m := pow_le_pow_of_le_one (by norm_num) (by norm_num) hm
      _ ≤ (1 + (a' - a) / a) ^ m := pow_le_pow_left₀ (by norm_num) (by linarith) m
  have hpow : (0 : ℝ) < a ^ m := by positivity
  have hdiff : a' ^ m - a ^ m = a ^ m * ((1 + (a' - a) / a) ^ m - 1) := by
    conv_lhs => rw [hfact, mul_pow]
    ring
  rw [hdiff, abs_mul, abs_of_pos hpow, mul_comm]
  apply mul_le_mul_of_nonneg_right _ hpow.le
  rw [abs_le]
  constructor <;> linarith

/-- The EAR of a rate `d'` that is close to `d` (as a stored text is to the
rate it renders) is within `2e-6` of `1 + EAR` of the EAR of `d`. -/
theorem earFormula_close (id : String) (m : ℕ) (d d' : ℝ) (hm0 : 0 < m) (hm : m ≤ 365)
    (hd : 0 ≤ d) (hclose : |d' - d| ≤ 1 / (2 * 10 ^ 6) + d / (2 * 10 ^ 21)) :
    |earFormula id m d' - earFormula id m d| ≤ 2e-6 * (1 + earFormula id m d) := by
  have hmR : (1 : ℝ) ≤ m := by exact_mod_cast hm0
  have hmpos : (0 : ℝ) < m := by linarith
  unfold earFormula
  split_ifs
  · have hrel : |(1 + d' / 100) - (1 + d / 100)| ≤ 5e-9 * (1 + d / 100) := by
      have : (1 + d' / 100) - (1 + d / 100) = (d' - d) / 100 := by ring
      rw [this, abs_div, abs_of_pos (by norm_num : (0 : ℝ) < 100), div_le_iff₀ (by norm_num)]
      refine le_trans hclose ?_
      norm_num
      nlinarith
    have := pow_close (1 + d / 100) (1 + d' / 100) m hm (by linarith [div_nonneg hd (by norm_num : (0:ℝ) ≤ 100)]) hrel
    have e1 : (1 + d' / 100) ^ m - 1 - ((1 + d / 100) ^ m - 1) =
        (1 + d' / 100) ^ m - (1 + d / 100) ^ m := by ring
    have e2 : (1 : ℝ) + ((1 + d / 100) ^ m - 1) = (1 + d / 100) ^ m := by ring
    rw [e1, e2]
    exact this
  · have hq : (0 : ℝ) ≤ d / 100 / m := by positivity
    have hrel : |(1 + d' / 100 / m) - (1 + d / 100 / m)| ≤ 5e-9 * (1 + d / 100 / m) := by
      have : (1 + d' / 100 / m) - (1 + d / 100 / m) = (d' - d) / (100 * m) := by
        field_simp
      rw [this, abs_div, abs_of_pos (by positivity : (0 : ℝ) < 100 * m),
        div_le_iff₀ (by positivity)]
      refine le_trans hclose ?_
      have h1 : 5e-9 * (1 + d / 100 / m) * (100 * (m : ℝ)) = 5e-7 * m + 5e-9 * d := by
        field_simp
        ring
      rw [h1]
      norm_num
      nlinarith
    have := pow_close (1 + d / 100 / m) (1 + d' / 100 / m) m hm (by linarith) hrel
    have e1 : (1 + d' / 100 / m) ^ m - 1 - ((1 + d / 100 / m) ^ m - 1) =
        (1 + d' / 100 / m) ^ m - (1 + d / 100 / m) ^ m := by ring
    have e2 : (1 : ℝ) + ((1 + d / 100 / m) ^ m - 1) = (1 + d / 100 / m) ^ m := by ring
    rw [e1, e2]
    exact this

/-- No frequency in `MAPPING` exceeds `365`. -/
theorem MAPPING_le (period : String) (m : ℕ) (h : MAPPING period = some m) : m ≤ 365 := by
  unfold MAPPING at h
  split_ifs at h <;> simp at h <;> omega

/-- The function `calculateFutureValue` leaves the rate fields alone. -/
theorem calculateFutureValue_MATRIX_INPUTS (page : Page) :
    (calculateFutureValue page).MATRIX_INPUTS = page.MATRIX_INPUTS := by
  rfl

/-- The rate fields after `updateAllRates`. -/
theorem updateAllRates_MATRIX_INPUTS (inputId : String) (page : Page) :
    (updateAllRates inputId page).MATRIX_INPUTS =
      match calculateEffectiveAnnualRate page.MATRIX_INPUTS inputId with
      | some ear => updateMatrix ear inputId page.MATRIX_INPUTS
      | none => clearAllButOne inputId page.MATRIX_INPUTS := by
  unfold updateAllRates
  cases calculateEffectiveAnnualRate page.MATRIX_INPUTS inputId <;>
    simp [calculateFutureValue_MATRIX_INPUTS]

/-- The EAR of a field that holds a text parsing to a finite `v ≥ 0`. -/
theorem calculateEffectiveAnnualRate_fin (matrix : Matrix) (id text : String) (v : ℝ) (m : ℕ)
    (hfield : getField matrix id = some text) (hparse : parseFloat text = JSNum.fin v)
    (hv : 0 ≤ v) (hm : MAPPING (idPeriod id) = some m) :
    calculateEffectiveAnnualRate matrix id = some (JSNum.fin (earFormula id m v)) := by
  unfold calculateEffectiveAnnualRate
  rw [hfield]
  simp only [hparse]
  exact earOfValue_fin id v m hv hm

/-- C6, amended: for all fields `r1`, `r2` among the eight and every finite
`v ≥ 0` held by `r1`, after `updateAllRates` the text stored in `r2` is read
back by `calculateEffectiveAnnualRate` as a number, not `null`, and whenever
that number and the EAR of `(r1, v)` are both finite they differ by at most
`2e-6 * (1 + EAR)`. -/
theorem stored_rate_ear_within (page : Page) (r1 r2 text old : String) (v : ℝ)
    (h1 : r1 ∈ FIELD_IDS) (h2 : r2 ∈ FIELD_IDS)
    (hfield : getField page.MATRIX_INPUTS r1 = some text)
    (hparse : parseFloat text = JSNum.fin v) (hv : 0 ≤ v)
    (hold : getField page.MATRIX_INPUTS r2 = some old) :
    ∃ ear ear' : JSNum, calculateEffectiveAnnualRate page.MATRIX_INPUTS r1 = some ear ∧
      calculateEffectiveAnnualRate (updateAllRates r1 page).MATRIX_INPUTS r2 = some ear' ∧
      ∀ e e' : ℝ, ear = JSNum.fin e → ear' = JSNum.fin e' → |e' - e| ≤ 2e-6 * (1 + e) := by
  obtain ⟨m1, hm1⟩ := exists_MAPPING_of_mem r1 h1
  obtain ⟨m2, hm2⟩ := exists_MAPPING_of_mem r2 h2
  have hm2pos : 0 < m2 := MAPPING_pos _ _ hm2
  have he : 0 ≤ earFormula r1 m1 v := earFormula_nonneg r1 m1 v hv
  have hcalc := calculateEffectiveAnnualRate_fin page.MATRIX_INPUTS r1 text v m1 hfield hparse
    hv hm1
  by_cases hne : r2 = r1
  · subst hne
    have hstored : getField (updateAllRates r2 page).MATRIX_INPUTS r2 = some text := by
      rw [updateAllRates_MATRIX_INPUTS, hcalc]
      simp only
      rw [getField_updateMatrix, if_pos rfl, hfield]
    refine ⟨JSNum.fin (earFormula r2 m1 v), JSNum.fin (earFormula r2 m1 v), hcalc,
      calculateEffectiveAnnualRate_fin _ r2 text v m1 hstored hparse hv hm1, ?_⟩
    intro e e' hfin hfin'
    rw [← JSNum.fin.inj hfin, ← JSNum.fin.inj hfin', sub_self, abs_zero]
    positivity
  have hd : 0 ≤ rateFormula r2 m2 (earFormula r1 m1 v) := rateFormula_nonneg r2 m2 _ he
  obtain ⟨y, hy, hy0, hyclose⟩ := parseFloat_toFixed_nonneg 6 _ (by norm_num) hd
  have hstored : getField (updateAllRates r1 page).MATRIX_INPUTS r2 =
      some (toFixed 6 (JSNum.fin (rateFormula r2 m2 (earFormula r1 m1 v)))) := by
    rw [updateAllRates_MATRIX_INPUTS, hcalc]
    simp only
    rw [getField_updateMatrix, if_neg hne, hold, rateOfEar_fin r2 _ m2 (by linarith) hm2]
    rfl
  refine ⟨JSNum.fin (earFormula r1 m1 v), JSNum.fin (earFormula r2 m2 y), hcalc,
    calculateEffectiveAnnualRate_fin _ r2 _ y m2 hstored hy hy0 hm2, ?_⟩
  intro e e' hfin hfin'
  rw [← JSNum.fin.inj hfin, ← JSNum.fin.inj hfin']
  have := earFormula_close r2 m2 _ y hm2pos (MAPPING_le _ _ hm2) hd hyclose
  rw [earFormula_rateFormula r2 m2 _ hm2pos he] at this
  exact this

/-- The text `toFixed(f)` writes for `0 ≤ x < 10 ^ 21`, given the integer `n`
nearest to `x * 10 ^ f`. -/
theorem toFixed_eq_fixedDigits (f : ℕ) (x : ℝ) (n : ℕ) (hx : 0 ≤ x) (hsmall : x < 10 ^ 21)
    (hlow : (n : ℝ) ≤ x * 10 ^ f + 1 / 2) (hhigh : x * 10 ^ f + 1 / 2 < n + 1) :
    toFixed f (JSNum.fin x) = String.mk (fixedDigits f n) := by
  rw [toFixed_of_nonneg f x hx]
  unfold magnitudeToFixed
  rw [if_neg (not_le.mpr hsmall), (Nat.floor_eq_iff (by positivity)).mpr ⟨hlow, hhigh⟩]

/-- C6, as stated, fails when the annual nominal field holds `1.0000004`: the
annual effective field receives the text `1.000000`, whose EAR `0.01`
differs from the EAR `0.010000004` of the input by more than `1e-9` of it. -/
theorem stored_rate_ear_misses_tolerance :
    calculateEffectiveAnnualRate (pageWith "nominal_Annual" "1.0000004").MATRIX_INPUTS
      "nominal_Annual" = some (JSNum.fin 0.010000004) ∧
    getField (updateAllRates "nominal_Annual"
      (pageWith "nominal_Annual" "1.0000004")).MATRIX_INPUTS "effective_period_Annual" =
        some "1.000000" ∧
    calculateEffectiveAnnualRate (updateAllRates "nominal_Annual"
      (pageWith "nominal_Annual" "1.0000004")).MATRIX_INPUTS "effective_period_Annual" =
        some (JSNum.fin 0.01) ∧
    ¬ |(0.01 : ℝ) - 0.010000004| ≤ 1e-9 * |(0.010000004 : ℝ)| := by
  have hparse : parseFloat "1.0000004" = JSNum.fin 1.0000004 := by
    simp only [parseFloat, show parseLiteral "1.0000004" = StrNum.dec false 10000004 (-7) by
      decide, StrNum.toJSNum]
    norm_num
  have hcalc : calculateEffectiveAnnualRate (pageWith "nominal_Annual" "1.0000004").MATRIX_INPUTS
      "nominal_Annual" = some (JSNum.fin 0.010000004) := by
    rw [calculateEffectiveAnnualRate_fin _ "nominal_Annual" "1.0000004" 1.0000004 1 (by decide)
      hparse (by norm_num) (by decide)]
    simp only [earFormula, show ¬ idType "nominal_Annual" = "effective_period" by decide,
      if_false]
    norm_num
  have hrate : rateFormula "effective_period_Annual" 1 0.010000004 = 1.0000004 := by
    simp only [rateFormula, show idType "effective_period_Annual" = "effective_period" by decide,
      if_true]
    norm_num
  have hstored : getField (updateAllRates "nominal_Annual"
      (pageWith "nominal_Annual" "1.0000004")).MATRIX_INPUTS "effective_period_Annual" =
        some "1.000000" := by
    rw [updateAllRates_MATRIX_INPUTS, hcalc]
    simp only
    rw [getField_updateMatrix, if_neg (by decide),
      show getField (pageWith "nominal_Annual" "1.0000004").MATRIX_INPUTS
        "effective_period_Annual" = some "" by decide,
      rateOfEar_fin "effective_period_Annual" _ 1 (by norm_num) (by decide)]
    have := toFixed_eq_fixedDigits 6 (rateFormula "effective_period_Annual" 1 0.010000004)
      1000000 (by rw [hrate]; norm_num) (by rw [hrate]; norm_num) (by rw [hrate]; norm_num)
      (by rw [hrate]; norm_num)
    simp only [rateFormula] at this
    simp only [Option.map_some', this]
    decide
  have hparse2 : parseFloat "1.000000" = JSNum.fin 1 := by
    simp only [parseFloat, show parseLiteral "1.000000" = StrNum.dec false 1000000 (-6) by
      decide, StrNum.toJSNum]
    norm_num
  refine ⟨hcalc, hstored, ?_, by norm_num [abs_of_pos, abs_of_neg]⟩
  rw [calculateEffectiveAnnualRate_fin _ "effective_period_Annual" "1.000000" 1 1 hstored
    hparse2 (by norm_num) (by decide)]
  simp only [earFormula, show idType "effective_period_Annual" = "effective_period" by decide,
    if_true]
  norm_num

/-- C6, amended, from the annual nominal field holding `5` to the daily
effective field. -/
theorem stored_rate_ear_within_witness :
    ∃ ear ear' : JSNum,
      calculateEffectiveAnnualRate (pageWith "nominal_Annual" "5").MATRIX_INPUTS
        "nominal_Annual" = some ear ∧
      calculateEffectiveAnnualRate (updateAllRates "nominal_Annual"
        (pageWith "nominal_Annual" "5")).MATRIX_INPUTS "effective_period_Daily" = some ear' ∧
      ∀ e e' : ℝ, ear = JSNum.fin e → ear' = JSNum.fin e' → |e' - e| ≤ 2e-6 * (1 + e) :=
  stored_rate_ear_within (pageWith "nominal_Annual" "5") "nominal_Annual"
    "effective_period_Daily" "5" "" 5 (by decide) (by decide) (by decide)
    (by simp [parseFloat, show parseLiteral "5" = StrNum.dec false 5 0 by decide,
      StrNum.toJSNum])
    (by norm_num) (by decide)

/-! ## The orchestration `updateAllRates` -/

/-- C7: identity on the active field.  For every field `r` among the eight
holding a text that parses to a finite `v ≥ 0`, after `updateAllRates(r)` the
field `r` still holds exactly that text. -/
theorem updateAllRates_keeps_active_field (page : Page) (r text : String) (v : ℝ)
    (hr : r ∈ FIELD_IDS) (hfield : getField page.MATRIX_INPUTS r = some text)
    (hparse : parseFloat text = JSNum.fin v) (hv : 0 ≤ v) :
    getField (updateAllRates r page).MATRIX_INPUTS r = some text := by
  obtain ⟨m, hm⟩ := exists_MAPPING_of_mem r hr
  rw [updateAllRates_MATRIX_INPUTS,
    calculateEffectiveAnnualRate_fin page.MATRIX_INPUTS r text v m hfield hparse hv hm]
  simp only
  rw [getField_updateMatrix, if_pos rfl, hfield]

/-- C7 at the monthly nominal field holding `6`. -/
theorem updateAllRates_keeps_active_field_witness :
    getField (updateAllRates "nominal_Monthly" (pageWith "nominal_Monthly" "6")).MATRIX_INPUTS
      "nominal_Monthly" = some "6" :=
  updateAllRates_keeps_active_field (pageWith "nominal_Monthly" "6") "nominal_Monthly" "6" 6
    (by decide) (by decide)
    (by simp [parseFloat, show parseLiteral "6" = StrNum.dec false 6 0 by decide,
      StrNum.toJSNum])
    (by norm_num)

/-- A field whose text parses to `NaN` or to a negative value has no EAR. -/
theorem calculateEffectiveAnnualRate_invalid (matrix : Matrix) (id text : String)
    (hfield : getField matrix id = some text)
    (hinvalid : (parseFloat text).isNaN ∨ (parseFloat text).lt (JSNum.fin 0)) :
    calculateEffectiveAnnualRate matrix id = none := by
  unfold calculateEffectiveAnnualRate
  rw [hfield]
  simp only [earOfValue, if_pos hinvalid]

/-- C8, as stated, fails when the annual nominal field holds `-5`: the input
is invalid, the other fields are emptied, but the field itself still holds
`-5`, so the matrix is not all empty. -/
theorem updateAllRates_invalid_keeps_own_text :
    calculateEffectiveAnnualRate (pageWith "nominal_Annual" "-5").MATRIX_INPUTS
      "nominal_Annual" = none ∧
    getField (updateAllRates "nominal_Annual" (pageWith "nominal_Annual" "-5")).MATRIX_INPUTS
      "nominal_Annual" = some "-5" ∧
    getField (updateAllRates "nominal_Annual" (pageWith "nominal_Annual" "-5")).MATRIX_INPUTS
      "nominal_Annual" ≠ some "" := by
  have hparse : parseFloat "-5" = JSNum.fin (-5) := by
    simp [parseFloat, show parseLiteral "-5" = StrNum.dec true 5 0 by decide, StrNum.toJSNum]
  have hcalc : calculateEffectiveAnnualRate (pageWith "nominal_Annual" "-5").MATRIX_INPUTS
      "nominal_Annual" = none :=
    calculateEffectiveAnnualRate_invalid _ _ "-5" (by decide)
      (Or.inr (by rw [hparse]; simp [JSNum.lt]))
  have hstored : getField (updateAllRates "nominal_Annual"
      (pageWith "nominal_Annual" "-5")).MATRIX_INPUTS "nominal_Annual" = some "-5" := by
    rw [updateAllRates_MATRIX_INPUTS, hcalc]
    decide
  refine ⟨hcalc, hstored, ?_⟩
  rw [hstored]
  decide

/-- C8, amended: for every field `r` whose text is invalid (it parses to `NaN`,
as the empty string does, or to a negative value), `updateAllRates(r)`
empties every other mapped field and leaves the text of `r` itself as it
is; the whole matrix is empty when that text is the empty string. -/
theorem updateAllRates_invalid_clears_others (page : Page) (r text : String)
    (hfield : getField page.MATRIX_INPUTS r = some text)
    (hinvalid : (parseFloat text).isNaN ∨ (parseFloat text).lt (JSNum.fin 0)) :
    (∀ id old, id ≠ r → getField page.MATRIX_INPUTS id = some old →
      getField (updateAllRates r page).MATRIX_INPUTS id = some "") ∧
    getField (updateAllRates r page).MATRIX_INPUTS r = some text ∧
    (text = "" → ∀ id old, getField page.MATRIX_INPUTS id = some old →
      getField (updateAllRates r page).MATRIX_INPUTS id = some "") := by
  have hcalc := calculateEffectiveAnnualRate_invalid page.MATRIX_INPUTS r text hfield hinvalid
  have hother : ∀ id old, id ≠ r → getField page.MATRIX_INPUTS id = some old →
      getField (updateAllRates r page).MATRIX_INPUTS id = some "" := by
    intro id old hne hold
    rw [updateAllRates_MATRIX_INPUTS, hcalc]
    simp only
    rw [getField_clearAllButOne, if_neg hne, hold]
    rfl
  have hown : getField (updateAllRates r page).MATRIX_INPUTS r = some text := by
    rw [updateAllRates_MATRIX_INPUTS, hcalc]
    simp only
    rw [getField_clearAllButOne, if_pos rfl, hfield]
  refine ⟨hother, hown, ?_⟩
  intro htext id old hold
  by_cases hid : id = r
  · rw [hid, hown, htext]
  · exact hother id old hid hold

/-- C8, amended, at the annual nominal field holding the empty string. -/
theorem updateAllRates_invalid_clears_others_witness :
    (∀ id old, id ≠ "nominal_Annual" →
      getField (pageWith "nominal_Annual" "").MATRIX_INPUTS id = some old →
      getField (updateAllRates "nominal_Annual" (pageWith "nominal_Annual" "")).MATRIX_INPUTS
        id = some "") ∧
    getField (updateAllRates "nominal_Annual" (pageWith "nominal_Annual" "")).MATRIX_INPUTS
      "nominal_Annual" = some "" ∧
    ("" = "" → ∀ id old, getField (pageWith "nominal_Annual" "").MATRIX_INPUTS id = some old →
      getField (updateAllRates "nominal_Annual" (pageWith "nominal_Annual" "")).MATRIX_INPUTS
        id = some "") :=
  updateAllRates_invalid_clears_others (pageWith "nominal_Annual" "") "nominal_Annual" ""
    (by decide)
    (Or.inl (by
      simp [parseFloat, show parseLiteral "" = StrNum.nan by decide, StrNum.toJSNum,
        JSNum.isNaN]))

/-! ## The future value -/

/-- The function `Math.pow` on a positive finite base and a finite exponent. -/
theorem JSNum.pow_fin_pos_base (x y : ℝ) (hx : 0 < x) :
    (JSNum.fin x).pow (JSNum.fin y) = JSNum.fin (x ^ y) := by
  by_cases hy : y = 0
  · simp [JSNum.pow, hy]
  · exact JSNum.pow_fin_of_pos x y hx hy

/-- The time in years of a finite time value. -/
theorem timeInYears_fin (timeUnit : String) (T : ℝ) :
    timeInYears timeUnit (JSNum.fin T) = JSNum.fin
      (if timeUnit = "days" then T / 365 else if timeUnit = "months" then T / 12 else T) := by
  unfold timeInYears
  rw [JSNum.div_fin T 365 (by norm_num), JSNum.div_fin T 12 (by norm_num)]
  split_ifs <;> rfl

/-- A text that starts with `$` is not the text `Invalid Input`. -/
theorem dollar_append_ne_invalid (s : String) : "$" ++ s ≠ "Invalid Input" := by
  intro h
  have hdata := congrArg String.data h
  rw [String.data_append] at hdata
  have hhead := congrArg List.head? hdata
  have hleft : ("$".data ++ s.data).head? = some '$' := rfl
  rw [hleft] at hhead
  revert hhead
  decide

/-- C9: for every principal `P ≥ 0`, time value `T ≥ 0`, time unit and EAR
`E > -1`, `calculateFutureValue` displays the amount `P * (1 + E)^t`, where
`t` is `T / 365` for the unit `days`, `T / 12` for `months`, and `T` for
`years` or any other unit. -/
theorem calculateFutureValue_amount (page : Page) (P T E : ℝ)
    (hP : principalOf page = JSNum.fin P) (hT : timeValueOf page = JSNum.fin T)
    (hP0 : 0 ≤ P) (hT0 : 0 ≤ T) (hE : activeEar page = JSNum.fin E) (hE1 : -1 < E) :
    (calculateFutureValue page).futureValue =
      "$" ++ groupThousands (toFixed 2 (JSNum.fin (P * (1 + E) ^
        (if selectedTimeUnit page.timeUnitInputs = "days" then T / 365
         else if selectedTimeUnit page.timeUnitInputs = "months" then T / 12
         else T)))) := by
  have hvalid : ¬ ((principalOf page).isNaN ∨ (principalOf page).lt (JSNum.fin 0) ∨
      (timeValueOf page).isNaN ∨ (timeValueOf page).lt (JSNum.fin 0)) := by
    rw [hP, hT]
    simp [JSNum.isNaN, JSNum.lt, hP0, hT0]
  show futureValueText page = _
  unfold futureValueText
  simp only [if_neg hvalid]
  rw [hP, hT, hE]
  unfold futureValueAmount
  rw [timeInYears_fin, JSNum.add_fin, JSNum.pow_fin_pos_base _ _ (by linarith), JSNum.mul_fin]

/-- The EAR of the active field of a page whose annual nominal field holds
`5` is `0.05`. -/
theorem activeEar_pageWith_five :
    activeEar (pageWith "nominal_Annual" "5") = JSNum.fin 0.05 := by
  have hparse : parseFloat "5" = JSNum.fin 5 := by
    simp [parseFloat, show parseLiteral "5" = StrNum.dec false 5 0 by decide, StrNum.toJSNum]
  have hcalc := calculateEffectiveAnnualRate_fin (pageWith "nominal_Annual" "5").MATRIX_INPUTS
    "nominal_Annual" "5" 5 1 (by decide) hparse (by norm_num) (by decide)
  have hid : (pageWith "nominal_Annual" "5").activeInputId = some "nominal_Annual" := rfl
  unfold activeEar
  rw [hid]
  simp only [show ¬ ("nominal_Annual" = "") by decide, if_false, hcalc]
  simp only [earFormula, show ¬ idType "nominal_Annual" = "effective_period" by decide,
    if_false]
  norm_num

/-- C9 at principal `1000`, one year, EAR `0.05`: the text is `$1,050.00`. -/
theorem calculateFutureValue_amount_witness :
    (calculateFutureValue (pageWith "nominal_Annual" "5")).futureValue =
      "$" ++ groupThousands (toFixed 2 (JSNum.fin (1000 * (1 + 0.05) ^
        (if selectedTimeUnit (pageWith "nominal_Annual" "5").timeUnitInputs = "days" then
          (1 : ℝ) / 365
         else if selectedTimeUnit (pageWith "nominal_Annual" "5").timeUnitInputs = "months" then
          (1 : ℝ) / 12
         else (1 : ℝ))))) ∧
    (calculateFutureValue (pageWith "nominal_Annual" "5")).futureValue = "$1,050.00" := by
  have h := calculateFutureValue_amount (pageWith "nominal_Annual" "5") 1000 1 0.05
    (by
      simp [principalOf, pageWith, parseFloat,
        show parseLiteral "1000" = StrNum.dec false 1000 0 by decide, StrNum.toJSNum])
    (by
      simp [timeValueOf, pageWith, parseFloat,
        show parseLiteral "1" = StrNum.dec false 1 0 by decide, StrNum.toJSNum])
    (by norm_num) (by norm_num) activeEar_pageWith_five (by norm_num)
  refine ⟨h, ?_⟩
  rw [h]
  have hunit : selectedTimeUnit (pageWith "nominal_Annual" "5").timeUnitInputs = "years" := by
    decide
  simp only [hunit, show ¬ ("years" = "days") by decide, show ¬ ("years" = "months") by decide,
    if_false, Real.rpow_one]
  rw [toFixed_eq_fixedDigits 2 _ 105000 (by norm_num) (by norm_num) (by norm_num)
    (by norm_num)]
  decide

/-- The text displayed when the guard of line 173 rejects the inputs. -/
theorem futureValueText_of_invalid (page : Page)
    (h : (principalOf page).isNaN ∨ (principalOf page).lt (JSNum.fin 0) ∨
      (timeValueOf page).isNaN ∨ (timeValueOf page).lt (JSNum.fin 0)) :
    futureValueText page = "Invalid Input" := by
  unfold futureValueText
  simp only [if_pos h]

/-- The text displayed when the guard of line 173 lets the inputs through. -/
theorem futureValueText_of_valid (page : Page)
    (h : ¬ ((principalOf page).isNaN ∨ (principalOf page).lt (JSNum.fin 0) ∨
      (timeValueOf page).isNaN ∨ (timeValueOf page).lt (JSNum.fin 0))) :
    futureValueText page =
      "$" ++ groupThousands (toFixed 2 (futureValueAmount (principalOf page) (timeValueOf page)
        (selectedTimeUnit page.timeUnitInputs) (activeEar page))) := by
  unfold futureValueText
  simp only [if_neg h]

/-- C10, as stated, fails for the principal text `Infinity`: the principal is
not a finite number, yet the text displayed is `$Infinity`, not
`Invalid Input`. -/
theorem calculateFutureValue_infinity_not_invalid :
    principalOf (pageWithPrincipal "Infinity") = JSNum.pinf ∧
    (calculateFutureValue (pageWithPrincipal "Infinity")).futureValue = "$Infinity" ∧
    ¬ ((calculateFutureValue (pageWithPrincipal "Infinity")).futureValue = "Invalid Input" ↔
      ¬ ((∃ P : ℝ, principalOf (pageWithPrincipal "Infinity") = JSNum.fin P ∧ 0 ≤ P) ∧
         (∃ T : ℝ, timeValueOf (pageWithPrincipal "Infinity") = JSNum.fin T ∧ 0 ≤ T))) := by
  have hP : principalOf (pageWithPrincipal "Infinity") = JSNum.pinf := by
    simp [principalOf, pageWithPrincipal, parseFloat,
      show parseLiteral "Infinity" = StrNum.inf false by decide, StrNum.toJSNum]
  have hT : timeValueOf (pageWithPrincipal "Infinity") = JSNum.fin 1 := by
    simp [timeValueOf, pageWithPrincipal, pageWith, parseFloat,
      show parseLiteral "1" = StrNum.dec false 1 0 by decide, StrNum.toJSNum]
  have hE : activeEar (pageWithPrincipal "Infinity") = JSNum.fin 0.05 :=
    activeEar_pageWith_five
  have hunit : selectedTimeUnit (pageWithPrincipal "Infinity").timeUnitInputs = "years" := by
    decide
  have hamount : futureValueAmount JSNum.pinf (JSNum.fin 1) "years" (JSNum.fin 0.05) =
      JSNum.pinf := by
    unfold futureValueAmount
    rw [timeInYears_fin, JSNum.add_fin, JSNum.pow_fin_pos_base _ _ (by norm_num)]
    simp only [show ¬ ("years" = "days") by decide, show ¬ ("years" = "months") by decide,
      if_false, Real.rpow_one]
    simp only [JSNum.mul, JSNum.infTimes]
    norm_num
  have htext : (calculateFutureValue (pageWithPrincipal "Infinity")).futureValue =
      "$Infinity" := by
    show futureValueText _ = _
    rw [futureValueText_of_valid _ (by rw [hP, hT]; simp [JSNum.isNaN, JSNum.lt]), hP, hT, hE,
      hunit, hamount]
    decide
  refine ⟨hP, htext, ?_⟩
  rw [htext, hP]
  simp

/-- C10, amended: `calculateFutureValue` displays `Invalid Input` if and only
if the principal or the time value parses to `NaN` or to a negative value
(`-Infinity` included); every pair of finite values `P ≥ 0`, `T ≥ 0` yields
the text of an amount, and `+Infinity` is not rejected. -/
theorem calculateFutureValue_invalid_iff (page : Page) :
    ((calculateFutureValue page).futureValue = "Invalid Input" ↔
      ((principalOf page).isNaN ∨ (principalOf page).lt (JSNum.fin 0) ∨
       (timeValueOf page).isNaN ∨ (timeValueOf page).lt (JSNum.fin 0))) ∧
    (∀ P T : ℝ, principalOf page = JSNum.fin P → timeValueOf page = JSNum.fin T →
      0 ≤ P → 0 ≤ T →
      (calculateFutureValue page).futureValue =
        "$" ++ groupThousands (toFixed 2 (futureValueAmount (JSNum.fin P) (JSNum.fin T)
          (selectedTimeUnit page.timeUnitInputs) (activeEar page)))) ∧
    (principalOf page = JSNum.pinf → timeValueOf page = JSNum.pinf →
      (calculateFutureValue page).futureValue ≠ "Invalid Input") := by
  have hiff : (calculateFutureValue page).futureValue = "Invalid Input" ↔
      ((principalOf page).isNaN ∨ (principalOf page).lt (JSNum.fin 0) ∨
       (timeValueOf page).isNaN ∨ (timeValueOf page).lt (JSNum.fin 0)) := by
    show futureValueText page = _ ↔ _
    by_cases h : (principalOf page).isNaN ∨ (principalOf page).lt (JSNum.fin 0) ∨
        (timeValueOf page).isNaN ∨ (timeValueOf page).lt (JSNum.fin 0)
    · simp only [futureValueText_of_invalid page h, h]
    · simp only [futureValueText_of_valid page h, h, iff_false]
      exact dollar_append_ne_invalid _
  refine ⟨hiff, ?_, ?_⟩
  · intro P T hP hT hP0 hT0
    show futureValueText page = _
    rw [futureValueText_of_valid page (by rw [hP, hT]; simp [JSNum.isNaN, JSNum.lt, hP0, hT0]),
      hP, hT]
  · intro hP hT
    rw [Ne, hiff, hP, hT]
    simp [JSNum.isNaN, JSNum.lt]

/-- C10, amended, at the principal `-100`: the text is `Invalid Input`. -/
theorem calculateFutureValue_invalid_iff_witness :
    (calculateFutureValue (pageWithPrincipal "-100")).futureValue = "Invalid Input" :=
  (calculateFutureValue_invalid_iff (pageWithPrincipal "-100")).1.mpr
    (Or.inr (Or.inl (by
      simp [principalOf, pageWithPrincipal, parseFloat,
        show parseLiteral "-100" = StrNum.dec true 100 0 by decide, StrNum.toJSNum,
        JSNum.lt])))

/-! ## The future value without a valid rate, and across time units -/

/-- Without an active field, or with an active field whose value is invalid,
the EAR used by `calculateFutureValue` is `0`. -/
theorem activeEar_of_no_rate (page : Page)
    (hrate : page.activeInputId = none ∨ ∃ id, page.activeInputId = some id ∧
      calculateEffectiveAnnualRate page.MATRIX_INPUTS id = none) :
    activeEar page = JSNum.fin 0 := by
  unfold activeEar
  rcases hrate with h | ⟨id, h, hcalc⟩
  · rw [h]
  · rw [h]
    simp only [hcalc]
    split_ifs <;> rfl

/-- The amount of line 194 on finite inputs with a base above `0`. -/
theorem futureValueAmount_fin (P T E : ℝ) (timeUnit : String) (hE : -1 < E) :
    futureValueAmount (JSNum.fin P) (JSNum.fin T) timeUnit (JSNum.fin E) =
      JSNum.fin (P * (1 + E) ^
        (if timeUnit = "days" then T / 365 else if timeUnit = "months" then T / 12 else T)) := by
  unfold futureValueAmount
  rw [timeInYears_fin, JSNum.add_fin, JSNum.pow_fin_pos_base _ _ (by linarith), JSNum.mul_fin]

/-- The text displayed for finite inputs `P ≥ 0`, `T ≥ 0` and a finite EAR
above `-1`. -/
theorem futureValueText_fin (page : Page) (P T E : ℝ)
    (hP : principalOf page = JSNum.fin P) (hT : timeValueOf page = JSNum.fin T)
    (hP0 : 0 ≤ P) (hT0 : 0 ≤ T) (hE : activeEar page = JSNum.fin E) (hE1 : -1 < E) :
    futureValueText page =
      "$" ++ groupThousands (toFixed 2 (JSNum.fin (P * (1 + E) ^
        (if selectedTimeUnit page.timeUnitInputs = "days" then T / 365
         else if selectedTimeUnit page.timeUnitInputs = "months" then T / 12
         else T)))) := by
  rw [futureValueText_of_valid page
    (by rw [hP, hT]; simp [JSNum.isNaN, JSNum.lt, hP0, hT0]), hP, hT, hE,
    futureValueAmount_fin P T E _ hE1]

/-- C11: when no field is active, or the active field's value is invalid,
`calculateFutureValue` uses the EAR `0` and still succeeds: for every
principal `P ≥ 0`, time value `T ≥ 0` and time unit the amount is exactly
`P`, and that is what the text displays. -/
theorem calculateFutureValue_without_rate (page : Page) (P T : ℝ)
    (hP : principalOf page = JSNum.fin P) (hT : timeValueOf page = JSNum.fin T)
    (hP0 : 0 ≤ P) (hT0 : 0 ≤ T)
    (hrate : page.activeInputId = none ∨ ∃ id, page.activeInputId = some id ∧
      calculateEffectiveAnnualRate page.MATRIX_INPUTS id = none) :
    activeEar page = JSNum.fin 0 ∧
    futureValueAmount (principalOf page) (timeValueOf page)
      (selectedTimeUnit page.timeUnitInputs) (activeEar page) = JSNum.fin P ∧
    (calculateFutureValue page).futureValue =
      "$" ++ groupThousands (toFixed 2 (JSNum.fin P)) := by
  have hE := activeEar_of_no_rate page hrate
  have hamount : ∀ timeUnit : String,
      futureValueAmount (JSNum.fin P) (JSNum.fin T) timeUnit (JSNum.fin 0) = JSNum.fin P := by
    intro timeUnit
    rw [futureValueAmount_fin P T 0 timeUnit (by norm_num), add_zero, Real.one_rpow, mul_one]
  refine ⟨hE, ?_, ?_⟩
  · rw [hP, hT, hE, hamount]
  · show futureValueText page = _
    rw [futureValueText_of_valid page
      (by rw [hP, hT]; simp [JSNum.isNaN, JSNum.lt, hP0, hT0]), hP, hT, hE, hamount]

/-- C11 with the principal `1000` and an active field that is empty: the
amount is `1000` and the text is `$1,000.00`. -/
theorem calculateFutureValue_without_rate_witness :
    (activeEar (pageWith "nominal_Annual" "") = JSNum.fin 0 ∧
    futureValueAmount (principalOf (pageWith "nominal_Annual" ""))
      (timeValueOf (pageWith "nominal_Annual" ""))
      (selectedTimeUnit (pageWith "nominal_Annual" "").timeUnitInputs)
      (activeEar (pageWith "nominal_Annual" "")) = JSNum.fin 1000 ∧
    (calculateFutureValue (pageWith "nominal_Annual" "")).futureValue =
      "$" ++ groupThousands (toFixed 2 (JSNum.fin 1000))) ∧
    "$" ++ groupThousands (toFixed 2 (JSNum.fin 1000)) = "$1,000.00" := by
  refine ⟨calculateFutureValue_without_rate (pageWith "nominal_Annual" "") 1000 1
    (by
      simp [principalOf, pageWith, parseFloat,
        show parseLiteral "1000" = StrNum.dec false 1000 0 by decide, StrNum.toJSNum])
    (by
      simp [timeValueOf, pageWith, parseFloat,
        show parseLiteral "1" = StrNum.dec false 1 0 by decide, StrNum.toJSNum])
    (by norm_num) (by norm_num)
    (Or.inr ⟨"nominal_Annual", rfl,
      calculateEffectiveAnnualRate_invalid _ _ "" (by decide)
        (Or.inl (by
          simp [parseFloat, show parseLiteral "" = StrNum.nan by decide, StrNum.toJSNum,
            JSNum.isNaN]))⟩), ?_⟩
  rw [toFixed_eq_fixedDigits 2 1000 100000 (by norm_num) (by norm_num) (by norm_num)
    (by norm_num)]
  decide

/-- C12: time-unit equivalence.  For every principal `P ≥ 0`, EAR `E > -1`
and `t ≥ 0`, projecting over `12 * t` months, or over `365 * t` days, gives
the same amount and the same displayed text as projecting over `t` years. -/
theorem time_unit_equivalence (page pageYears : Page) (P E t k : ℝ) (unit : String)
    (hunit : (unit = "months" ∧ k = 12) ∨ (unit = "days" ∧ k = 365))
    (hP0 : 0 ≤ P) (hE1 : -1 < E) (ht : 0 ≤ t)
    (hP : principalOf page = JSNum.fin P) (hPy : principalOf pageYears = JSNum.fin P)
    (hE : activeEar page = JSNum.fin E) (hEy : activeEar pageYears = JSNum.fin E)
    (hT : timeValueOf page = JSNum.fin (k * t))
    (hU : selectedTimeUnit page.timeUnitInputs = unit)
    (hTy : timeValueOf pageYears = JSNum.fin t)
    (hUy : selectedTimeUnit pageYears.timeUnitInputs = "years") :
    futureValueAmount (principalOf page) (timeValueOf page)
        (selectedTimeUnit page.timeUnitInputs) (activeEar page) =
      futureValueAmount (principalOf pageYears) (timeValueOf pageYears)
        (selectedTimeUnit pageYears.timeUnitInputs) (activeEar pageYears) ∧
    (calculateFutureValue page).futureValue = (calculateFutureValue pageYears).futureValue ∧
    (calculateFutureValue pageYears).futureValue =
      "$" ++ groupThousands (toFixed 2 (JSNum.fin (P * (1 + E) ^ t))) := by
  have hk : 0 ≤ k := by rcases hunit with ⟨-, h⟩ | ⟨-, h⟩ <;> rw [h] <;> norm_num
  have hyears : (if ("years" : String) = "days" then t / 365
      else if ("years" : String) = "months" then t / 12 else t) = t := by
    rw [if_neg (by decide), if_neg (by decide)]
  have hother : (if unit = "days" then k * t / 365
      else if unit = "months" then k * t / 12 else k * t) = t := by
    rcases hunit with ⟨hu, h⟩ | ⟨hu, h⟩
    · rw [hu, h, if_neg (by decide), if_pos rfl]
      ring
    · rw [hu, h, if_pos rfl]
      ring
  have htext : futureValueText page =
      "$" ++ groupThousands (toFixed 2 (JSNum.fin (P * (1 + E) ^ t))) := by
    rw [futureValueText_fin page P (k * t) E hP hT hP0 (mul_nonneg hk ht) hE hE1, hU, hother]
  have htexty : futureValueText pageYears =
      "$" ++ groupThousands (toFixed 2 (JSNum.fin (P * (1 + E) ^ t))) := by
    rw [futureValueText_fin pageYears P t E hPy hTy hP0 ht hEy hE1, hUy, hyears]
  refine ⟨?_, ?_, htexty⟩
  · rw [hP, hT, hU, hE, hPy, hTy, hUy, hEy, futureValueAmount_fin P (k * t) E unit hE1,
      futureValueAmount_fin P t E "years" hE1, hother, hyears]
  · show futureValueText page = futureValueText pageYears
    rw [htext, htexty]

/-- C12 at the principal `1000` and the EAR `0.05`: 12 months and 1 year both
display `$1,050.00`. -/
theorem time_unit_equivalence_witness :
    (futureValueAmount (principalOf (pageWithTime "12" "months"))
        (timeValueOf (pageWithTime "12" "months"))
        (selectedTimeUnit (pageWithTime "12" "months").timeUnitInputs)
        (activeEar (pageWithTime "12" "months")) =
      futureValueAmount (principalOf (pageWithTime "1" "years"))
        (timeValueOf (pageWithTime "1" "years"))
        (selectedTimeUnit (pageWithTime "1" "years").timeUnitInputs)
        (activeEar (pageWithTime "1" "years")) ∧
    (calculateFutureValue (pageWithTime "12" "months")).futureValue =
      (calculateFutureValue (pageWithTime "1" "years")).futureValue ∧
    (calculateFutureValue (pageWithTime "1" "years")).futureValue =
      "$" ++ groupThousands (toFixed 2 (JSNum.fin (1000 * (1 + 0.05) ^ (1 : ℝ))))) ∧
    "$" ++ groupThousands (toFixed 2 (JSNum.fin (1000 * (1 + 0.05) ^ (1 : ℝ)))) =
      "$1,050.00" := by
  have hP : ∀ timeValue unit : String,
      principalOf (pageWithTime timeValue unit) = JSNum.fin 1000 := by
    intro timeValue unit
    simp [principalOf, pageWithTime, pageWith, parseFloat,
      show parseLiteral "1000" = StrNum.dec false 1000 0 by decide, StrNum.toJSNum]
  refine ⟨time_unit_equivalence (pageWithTime "12" "months") (pageWithTime "1" "years")
    1000 0.05 1 12 "months" (Or.inl ⟨rfl, rfl⟩) (by norm_num) (by norm_num) (by norm_num)
    (hP _ _) (hP _ _) activeEar_pageWith_five activeEar_pageWith_five
    (by
      simp [timeValueOf, pageWithTime, parseFloat,
        show parseLiteral "12" = StrNum.dec false 12 0 by decide, StrNum.toJSNum])
    (by decide)
    (by
      simp [timeValueOf, pageWithTime, parseFloat,
        show parseLiteral "1" = StrNum.dec false 1 0 by decide, StrNum.toJSNum])
    (by decide), ?_⟩
  rw [Real.rpow_one, toFixed_eq_fixedDigits 2 _ 105000 (by norm_num) (by norm_num)
    (by norm_num) (by norm_num)]
  decide

/-! ## Frame and consistency of the matrix -/

/-- C14: `calculateFutureValue` never modifies the rate matrix.  For every
page, whatever the principal and the time value are, the mapped fields hold
the same texts after the call as before, the active field is the same, and
so are the principal, time and unit inputs; with an invalid principal or time
the only change is the text `Invalid Input`. -/
theorem calculateFutureValue_leaves_matrix (page : Page) :
    (calculateFutureValue page).MATRIX_INPUTS = page.MATRIX_INPUTS ∧
    (∀ id, getField (calculateFutureValue page).MATRIX_INPUTS id =
      getField page.MATRIX_INPUTS id) ∧
    (calculateFutureValue page).activeInputId = page.activeInputId ∧
    (calculateFutureValue page).principalAmount = page.principalAmount ∧
    (calculateFutureValue page).timeValue = page.timeValue ∧
    (calculateFutureValue page).timeUnitInputs = page.timeUnitInputs ∧
    (((principalOf page).isNaN ∨ (principalOf page).lt (JSNum.fin 0) ∨
        (timeValueOf page).isNaN ∨ (timeValueOf page).lt (JSNum.fin 0)) →
      calculateFutureValue page = { page with futureValue := "Invalid Input" }) := by
  refine ⟨rfl, fun _ => rfl, rfl, rfl, rfl, rfl, ?_⟩
  intro h
  show ({ page with futureValue := futureValueText page } : Page) = _
  rw [futureValueText_of_invalid page h]

/-- Reading a field after the browser has stored a typed text. -/
theorem getField_setField (id value id' : String) (matrix : Matrix) :
    getField (setField id value matrix) id' =
      if id' = id then (getField matrix id').map (fun _ => value)
      else getField matrix id' := by
  unfold setField
  rw [getField_map _ (by intro field; split_ifs <;> rfl)]
  by_cases h : id' = id <;> simp [h]

/-- The EAR of a mapped field is the EAR of the parsed text it holds. -/
theorem calculateEffectiveAnnualRate_of_field (matrix : Matrix) (id text : String)
    (hfield : getField matrix id = some text) :
    calculateEffectiveAnnualRate matrix id = earOfValue id (parseFloat text) := by
  unfold calculateEffectiveAnnualRate
  rw [hfield]

/-- The rate fields after the `input` listener of a mapped field `r` has run
on the typed text `value`: `r` holds `value` and every other mapped field
holds the empty text or the rate derived from the EAR of `(r, value)`. -/
theorem getField_onInput (page : Page) (r value old id : String)
    (hr : getField page.MATRIX_INPUTS r = some old) :
    getField (onInput r value page).MATRIX_INPUTS id =
      if id = r then some value
      else
        (getField page.MATRIX_INPUTS id).map (fun _ =>
          match earOfValue r (parseFloat value) with
          | none => ""
          | some ear => toFixed 6 (rateOfEar ear id)) := by
  have hown : getField (clearAllButOne r (setField r value page.MATRIX_INPUTS)) r =
      some value := by
    rw [getField_clearAllButOne, if_pos rfl, getField_setField, if_pos rfl, hr]
    rfl
  have hcalc := calculateEffectiveAnnualRate_of_field _ r value hown
  unfold onInput
  rw [updateAllRates_MATRIX_INPUTS]
  simp only [hcalc]
  by_cases hid : id = r
  · subst hid
    rw [if_pos rfl]
    cases earOfValue id (parseFloat value) with
    | none =>
      simp only
      rw [getField_clearAllButOne, if_pos rfl, hown]
    | some ear =>
      simp only
      rw [getField_updateMatrix, if_pos rfl, hown]
  · rw [if_neg hid]
    cases earOfValue r (parseFloat value) with
    | none =>
      simp only
      rw [getField_clearAllButOne, if_neg hid, getField_clearAllButOne, if_neg hid,
        getField_setField, if_neg hid]
      cases getField page.MATRIX_INPUTS id <;> rfl
    | some ear =>
      simp only
      rw [getField_updateMatrix, if_neg hid, getField_clearAllButOne, if_neg hid,
        getField_setField, if_neg hid]
      cases getField page.MATRIX_INPUTS id <;> rfl

/-- C15: matrix consistency.  After an edit step on a mapped field `r`
(`clearAllButOne(r)`, then `updateAllRates(r)`), whatever the fields held
before, `r` is the active field and holds the typed text, and the other
mapped fields are all empty when the EAR of `r` is `null`, and each hold the
rate derived from that EAR for them, written by `toFixed(6)`, when it is a
number; no field keeps the text it held before. -/
theorem onInput_matrix_consistent (page : Page) (r value old : String)
    (hr : getField page.MATRIX_INPUTS r = some old) :
    (onInput r value page).activeInputId = some r ∧
    getField (onInput r value page).MATRIX_INPUTS r = some value ∧
    (calculateEffectiveAnnualRate (onInput r value page).MATRIX_INPUTS r = none →
      ∀ id stale, id ≠ r → getField page.MATRIX_INPUTS id = some stale →
        getField (onInput r value page).MATRIX_INPUTS id = some "") ∧
    (∀ ear, calculateEffectiveAnnualRate (onInput r value page).MATRIX_INPUTS r = some ear →
      ∀ id stale, id ≠ r → getField page.MATRIX_INPUTS id = some stale →
        getField (onInput r value page).MATRIX_INPUTS id =
          some (toFixed 6 (rateOfEar ear id))) := by
  have hown : getField (onInput r value page).MATRIX_INPUTS r = some value := by
    rw [getField_onInput page r value old r hr, if_pos rfl]
  have hcalc := calculateEffectiveAnnualRate_of_field _ r value hown
  have hactive : (onInput r value page).activeInputId = some r := by
    unfold onInput updateAllRates
    cases calculateEffectiveAnnualRate
      (clearAllButOne r (setField r value page.MATRIX_INPUTS)) r <;> rfl
  refine ⟨hactive, hown, ?_, ?_⟩
  · intro hnone id stale hid hstale
    rw [hcalc] at hnone
    rw [getField_onInput page r value old id hr, if_neg hid, hstale, hnone]
    rfl
  · intro ear hsome id stale hid hstale
    rw [hcalc] at hsome
    rw [getField_onInput page r value old id hr, if_neg hid, hstale, hsome]
    rfl

/-- C15 for the text `5` typed into the annual nominal field of a page whose
fields all hold `9.999999`. -/
theorem onInput_matrix_consistent_witness :
    (onInput "nominal_Annual" "5" stalePage).activeInputId = some "nominal_Annual" ∧
    getField (onInput "nominal_Annual" "5" stalePage).MATRIX_INPUTS "nominal_Annual" =
      some "5" ∧
    (calculateEffectiveAnnualRate (onInput "nominal_Annual" "5" stalePage).MATRIX_INPUTS
        "nominal_Annual" = none →
      ∀ id stale, id ≠ "nominal_Annual" → getField stalePage.MATRIX_INPUTS id = some stale →
        getField (onInput "nominal_Annual" "5" stalePage).MATRIX_INPUTS id = some "") ∧
    (∀ ear, calculateEffectiveAnnualRate (onInput "nominal_Annual" "5" stalePage).MATRIX_INPUTS
        "nominal_Annual" = some ear →
      ∀ id stale, id ≠ "nominal_Annual" → getField stalePage.MATRIX_INPUTS id = some stale →
        getField (onInput "nominal_Annual" "5" stalePage).MATRIX_INPUTS id =
          some (toFixed 6 (rateOfEar ear id))) :=
  onInput_matrix_consistent stalePage "nominal_Annual" "5" "9.999999" (by decide)

/-! ## Validity is closed under conversion -/

/-- A number is neither `NaN` nor negative exactly when the guard of line 69
lets it through. -/
theorem JSNum.nonneg_iff (x : JSNum) :
    x.nonneg ↔ ¬ (x.isNaN ∨ x.lt (JSNum.fin 0)) := by
  cases x <;> simp [JSNum.nonneg, JSNum.isNaN, JSNum.lt]

/-- The EAR of a value that is neither `NaN` nor negative is a number that is
neither `NaN` nor negative. -/
theorem earOfValue_of_nonneg (id : String) (m : ℕ) (hm : MAPPING (idPeriod id) = some m)
    (x : JSNum) (hx : x.nonneg) : ∃ e : JSNum, earOfValue id x = some e ∧ e.nonneg := by
  cases x with
  | nan => exact absurd hx (by simp [JSNum.nonneg])
  | ninf => exact absurd hx (by simp [JSNum.nonneg])
  | pinf => exact ⟨JSNum.pinf, earOfValue_pinf id m hm, trivial⟩
  | fin v =>
    have hv : 0 ≤ v := hx
    exact ⟨_, earOfValue_fin id v m hv hm, earFormula_nonneg id m v hv⟩

/-- The rate derived from the EAR `+Infinity` is `+Infinity`. -/
theorem rateOfEar_pinf (id : String) (m : ℕ) (hm : MAPPING (idPeriod id) = some m) :
    rateOfEar JSNum.pinf id = JSNum.pinf := by
  have hm0 : 0 < m := MAPPING_pos _ _ hm
  have hmR : (0 : ℝ) < m := by exact_mod_cast hm0
  have hinv : (0 : ℝ) < 1 / m := by positivity
  unfold rateOfEar
  simp only [hm, toNumber]
  rw [JSNum.div_fin 1 m hmR.ne']
  have hadd : (JSNum.fin 1).add JSNum.pinf = JSNum.pinf := rfl
  have hpow : JSNum.pinf.pow (JSNum.fin (1 / (m : ℝ))) = JSNum.pinf := by
    simp [JSNum.pow, hm0.ne', hm0]
  have hsub : JSNum.pinf.sub (JSNum.fin 1) = JSNum.pinf := rfl
  have hmul : ∀ y : ℝ, 0 < y → JSNum.pinf.mul (JSNum.fin y) = JSNum.pinf := by
    intro y hy
    simp [JSNum.mul, JSNum.infTimes, hy.ne', hy]
  rw [hadd, hpow, hsub, hmul 100 (by norm_num), hmul m hmR, hmul 100 (by norm_num)]
  split_ifs <;> rfl

/-- The rate derived from an EAR that is neither `NaN` nor negative is neither
`NaN` nor negative. -/
theorem rateOfEar_of_nonneg (id : String) (m : ℕ) (hm : MAPPING (idPeriod id) = some m)
    (e : JSNum) (he : e.nonneg) : (rateOfEar e id).nonneg := by
  cases e with
  | nan => exact absurd he (by simp [JSNum.nonneg])
  | ninf => exact absurd he (by simp [JSNum.nonneg])
  | pinf =>
    rw [rateOfEar_pinf id m hm]
    trivial
  | fin x =>
    have hx : 0 ≤ x := he
    rw [rateOfEar_fin id x m (by linarith) hm]
    exact rateFormula_nonneg id m x hx

/-- What `parseFloat` reads off the text `toFixed(f)` writes for a number that
is neither `NaN` nor negative is neither `NaN` nor negative. -/
theorem parseFloat_toFixed_of_nonneg (f : ℕ) (hf : 0 < f) (d : JSNum) (hd : d.nonneg) :
    (parseFloat (toFixed f d)).nonneg := by
  cases d with
  | nan => exact absurd hd (by simp [JSNum.nonneg])
  | ninf => exact absurd hd (by simp [JSNum.nonneg])
  | pinf =>
    have hparse : parseFloat (toFixed f JSNum.pinf) = JSNum.pinf := by
      show parseFloat "Infinity" = JSNum.pinf
      simp [parseFloat, show parseLiteral "Infinity" = StrNum.inf false by decide,
        StrNum.toJSNum]
    rw [hparse]
    trivial
  | fin x =>
    obtain ⟨y, hy, hy0, -⟩ := parseFloat_toFixed_nonneg f x hf hd
    rw [hy]
    exact hy0

/-- C17: validity is closed under conversion.  For every field `r` among the
eight holding a valid value (neither `NaN` nor negative: a finite `v ≥ 0`, or
`+Infinity`), the EAR returned by `calculateEffectiveAnnualRate` is `≥ 0`
(finite or `+Infinity`); the rate `updateMatrix` derives from it for each of
the other seven fields is `≥ 0`; and after `updateAllRates(r)` feeding any of
those fields back into `calculateEffectiveAnnualRate` returns an EAR `≥ 0`,
never `null`.  Each step keeps the class: from any EAR `≥ 0`, `+Infinity`
included, the derived rate, the text written for it and the EAR read back
from that text are `≥ 0`. -/
theorem derived_fields_valid (page : Page) (r text : String) (hr : r ∈ FIELD_IDS)
    (hfield : getField page.MATRIX_INPUTS r = some text)
    (hvalid : (parseFloat text).nonneg) :
    (∃ ear : JSNum, calculateEffectiveAnnualRate page.MATRIX_INPUTS r = some ear ∧
      ear.nonneg ∧
      ∀ id, id ∈ FIELD_IDS → id ≠ r →
        (rateOfEar ear id).nonneg ∧
        (∀ old, getField page.MATRIX_INPUTS id = some old →
          ∃ ear' : JSNum,
            calculateEffectiveAnnualRate (updateAllRates r page).MATRIX_INPUTS id =
              some ear' ∧ ear'.nonneg)) ∧
    (∀ id, id ∈ FIELD_IDS → ∀ e : JSNum, e.nonneg →
      (rateOfEar e id).nonneg ∧
      (parseFloat (toFixed 6 (rateOfEar e id))).nonneg ∧
      ∃ e' : JSNum, earOfValue id (parseFloat (toFixed 6 (rateOfEar e id))) = some e' ∧
        e'.nonneg) := by
  have hstep : ∀ id, id ∈ FIELD_IDS → ∀ e : JSNum, e.nonneg →
      (rateOfEar e id).nonneg ∧
      (parseFloat (toFixed 6 (rateOfEar e id))).nonneg ∧
      ∃ e' : JSNum, earOfValue id (parseFloat (toFixed 6 (rateOfEar e id))) = some e' ∧
        e'.nonneg := by
    intro id hid e he
    obtain ⟨m, hm⟩ := exists_MAPPING_of_mem id hid
    have hrate := rateOfEar_of_nonneg id m hm e he
    have hread := parseFloat_toFixed_of_nonneg 6 (by norm_num) _ hrate
    exact ⟨hrate, hread, earOfValue_of_nonneg id m hm _ hread⟩
  refine ⟨?_, hstep⟩
  obtain ⟨m, hm⟩ := exists_MAPPING_of_mem r hr
  obtain ⟨ear, hear, hnonneg⟩ := earOfValue_of_nonneg r m hm _ hvalid
  have hcalc : calculateEffectiveAnnualRate page.MATRIX_INPUTS r = some ear := by
    rw [calculateEffectiveAnnualRate_of_field _ r text hfield, hear]
  refine ⟨ear, hcalc, hnonneg, ?_⟩
  intro id hid hne
  obtain ⟨hrate, -, e', he', hnonneg'⟩ := hstep id hid ear hnonneg
  refine ⟨hrate, ?_⟩
  intro old hold
  have hstored : getField (updateAllRates r page).MATRIX_INPUTS id =
      some (toFixed 6 (rateOfEar ear id)) := by
    rw [updateAllRates_MATRIX_INPUTS, hcalc]
    simp only
    rw [getField_updateMatrix, if_neg hne, hold]
    rfl
  exact ⟨e', by rw [calculateEffectiveAnnualRate_of_field _ id _ hstored, he'], hnonneg'⟩

/-- C17 at the annual nominal field holding `5`. -/
theorem derived_fields_valid_witness :
    (∃ ear : JSNum,
      calculateEffectiveAnnualRate (pageWith "nominal_Annual" "5").MATRIX_INPUTS
        "nominal_Annual" = some ear ∧
      ear.nonneg ∧
      ∀ id, id ∈ FIELD_IDS → id ≠ "nominal_Annual" →
        (rateOfEar ear id).nonneg ∧
        (∀ old, getField (pageWith "nominal_Annual" "5").MATRIX_INPUTS id = some old →
          ∃ ear' : JSNum,
            calculateEffectiveAnnualRate
              (updateAllRates "nominal_Annual" (pageWith "nominal_Annual" "5")).MATRIX_INPUTS
              id = some ear' ∧ ear'.nonneg)) ∧
    (∀ id, id ∈ FIELD_IDS → ∀ e : JSNum, e.nonneg →
      (rateOfEar e id).nonneg ∧
      (parseFloat (toFixed 6 (rateOfEar e id))).nonneg ∧
      ∃ e' : JSNum, earOfValue id (parseFloat (toFixed 6 (rateOfEar e id))) = some e' ∧
        e'.nonneg) :=
  derived_fields_valid (pageWith "nominal_Annual" "5") "nominal_Annual" "5" (by decide)
    (by decide)
    (by
      have hparse : parseFloat "5" = JSNum.fin 5 := by
        simp [parseFloat, show parseLiteral "5" = StrNum.dec false 5 0 by decide,
          StrNum.toJSNum]
      rw [hparse]
      show (0 : ℝ) ≤ 5
      norm_num)

/-! ## Nominal rates and compounding frequency -/

/-- One step of the comparison of the means of the powers of `z ≥ 1`. -/
theorem pow_mean_step (z : ℝ) (hz : 1 ≤ z) (k : ℕ) :
    ((k : ℝ) + 1) * (z ^ k - 1) ≤ k * (z ^ (k + 1) - 1) := by
  induction k with
  | zero => simp
  | succ k ih =>
    have hzk : (0 : ℝ) ≤ z ^ k := by positivity
    have hsq : (0 : ℝ) ≤ ((k : ℝ) + 1) * z ^ k * (z - 1) ^ 2 := by positivity
    push_cast
    have e1 : z ^ (k + 1 + 1) = z ^ k * z ^ 2 := by ring
    have e2 : z ^ (k + 1) = z ^ k * z := by ring
    rw [e1, e2]
    rw [e2] at ih
    nlinarith [ih, hsq]

/-- For `z ≥ 1` and `1 ≤ a ≤ b`, `(z^a - 1) / a ≤ (z^b - 1) / b`, without the
divisions. -/
theorem pow_mean_mono (z : ℝ) (hz : 1 ≤ z) (a b : ℕ) (ha : 0 < a) (hab : a ≤ b) :
    (b : ℝ) * (z ^ a - 1) ≤ a * (z ^ b - 1) := by
  induction b, hab using Nat.le_induction with
  | base => exact le_refl _
  | succ b hb ih =>
    have hbpos : (0 : ℝ) < b := by exact_mod_cast lt_of_lt_of_le ha hb
    have hapos : (0 : ℝ) < a := by exact_mod_cast ha
    have hstep := pow_mean_step z hz b
    have h1 : (b : ℝ) * (((b : ℝ) + 1) * (z ^ a - 1)) ≤ b * (a * (z ^ (b + 1) - 1)) := by
      calc (b : ℝ) * (((b : ℝ) + 1) * (z ^ a - 1))
          = ((b : ℝ) + 1) * (b * (z ^ a - 1)) := by ring
        _ ≤ ((b : ℝ) + 1) * (a * (z ^ b - 1)) :=
            mul_le_mul_of_nonneg_left ih (by positivity)
        _ = a * (((b : ℝ) + 1) * (z ^ b - 1)) := by ring
        _ ≤ a * (b * (z ^ (b + 1) - 1)) := mul_le_mul_of_nonneg_left hstep hapos.le
        _ = b * (a * (z ^ (b + 1) - 1)) := by ring
    push_cast
    exact le_of_mul_le_mul_left h1 hbpos

/-- The nominal rate `m * (x^(1/m) - 1)` of a growth factor `x ≥ 1` does not
increase with the frequency `m`. -/
theorem nominal_rate_antitone (x : ℝ) (hx : 1 ≤ x) (a b : ℕ) (ha : 0 < a) (hab : a ≤ b) :
    (b : ℝ) * (x ^ ((1 : ℝ) / b) - 1) ≤ a * (x ^ ((1 : ℝ) / a) - 1) := by
  have hx0 : (0 : ℝ) ≤ x := by linarith
  have hb : 0 < b := lt_of_lt_of_le ha hab
  have haR : (a : ℝ) ≠ 0 := by exact_mod_cast ha.ne'
  have hbR : (b : ℝ) ≠ 0 := by exact_mod_cast hb.ne'
  have hz : (1 : ℝ) ≤ x ^ ((1 : ℝ) / (a * b)) := Real.one_le_rpow hx (by positivity)
  have hza : (x ^ ((1 : ℝ) / (a * b))) ^ a = x ^ ((1 : ℝ) / b) := by
    rw [← Real.rpow_natCast, ← Real.rpow_mul hx0]
    congr 1
    field_simp
  have hzb : (x ^ ((1 : ℝ) / (a * b))) ^ b = x ^ ((1 : ℝ) / a) := by
    rw [← Real.rpow_natCast, ← Real.rpow_mul hx0]
    congr 1
    field_simp
    ring
  have := pow_mean_mono _ hz a b ha hab
  rw [hza, hzb] at this
  exact this

/-- The rate derived from a finite EAR `e ≥ 0` for a nominal field. -/
theorem rateOfEar_nominal (e : ℝ) (he : 0 ≤ e) (period : String) (m : ℕ)
    (hperiod : period ∈ PERIOD_NAMES) (hm : MAPPING period = some m) :
    rateOfEar (JSNum.fin e) (fieldId "nominal" period) =
      JSNum.fin (m * ((1 + e) ^ ((1 : ℝ) / m) - 1) * 100) := by
  obtain ⟨ht, hp, -⟩ := id_parts_of_fieldId "nominal" period (by decide) hperiod
  rw [rateOfEar_fin _ e m (by linarith) (by rw [hp]; exact hm), ht, if_neg (by decide)]

/-! ## The displayed amount -/

/-- Removing the separators that `groupThousands` inserts gives the text back,
when the text has no comma of its own. -/
theorem filter_groupThousandsAux (cs : List Char) : ∀ prev : Option Char,
    (∀ c ∈ cs, c ≠ ',') →
    (groupThousandsAux prev cs).filter (fun c => c != ',') = cs := by
  induction cs with
  | nil => intro prev _; rfl
  | cons c rest ih =>
    intro prev hcs
    have hc : c ≠ ',' := hcs c (List.mem_cons_self _ _)
    have hrest := ih (some c) (fun x hx => hcs x (List.mem_cons_of_mem _ hx))
    have hb : (c != ',') = true := by simpa using hc
    have hcomma : ((',' : Char) != ',') = false := by decide
    unfold groupThousandsAux
    simp only
    split_ifs <;> simp only [List.filter, hb, hcomma, hrest]

/-- The digits that `toFixed` writes for a magnitude contain no comma. -/
theorem magnitudeToFixed_no_comma (f : ℕ) (x : ℝ) : ∀ c ∈ magnitudeToFixed f x, c ≠ ',' := by
  have hdigit : ∀ c : Char, isDigit c = true → c ≠ ',' := by
    intro c hc h
    rw [h] at hc
    revert hc
    decide
  have hnat : ∀ n : ℕ, ∀ c ∈ natDigits n, c ≠ ',' :=
    fun n c hc => hdigit c ((natDigits_spec n).2.1 c hc)
  intro c hc
  unfold magnitudeToFixed at hc
  split_ifs at hc
  · unfold exponentialDigits at hc
    obtain ⟨k, hsplit, -⟩ := stripTrailingZeros_append (natDigits ⌊x + 1 / 2⌋₊)
    have hstrip : ∀ y ∈ stripTrailingZeros (natDigits ⌊x + 1 / 2⌋₊), y ≠ ',' := by
      intro y hy
      apply hnat ⌊x + 1 / 2⌋₊
      rw [hsplit]
      exact List.mem_append_left _ hy
    simp only at hc
    split at hc
    · exact hnat _ c hc
    · rename_i d heq
      rw [heq] at hstrip
      simp only [List.mem_cons] at hc
      rcases hc with h | h | h | h
      · rw [h]; exact hstrip d (List.mem_cons_self _ _)
      · rw [h]; decide
      · rw [h]; decide
      · exact hnat _ c h
    · rename_i d rest _ heq
      rw [heq] at hstrip
      simp only [List.mem_cons, List.mem_append] at hc
      rcases hc with h | h | h | h | h | h
      · rw [h]; exact hstrip d (List.mem_cons_self _ _)
      · rw [h]; decide
      · exact hstrip c (List.mem_cons_of_mem _ h)
      · rw [h]; decide
      · rw [h]; decide
      · exact hnat _ c h
  · unfold fixedDigits at hc
    simp only at hc
    have hpad : ∀ y ∈ List.replicate (f + 1 - (natDigits ⌊x * 10 ^ f + 1 / 2⌋₊).length) '0' ++
        natDigits ⌊x * 10 ^ f + 1 / 2⌋₊, y ≠ ',' := by
      intro y hy
      rw [List.mem_append] at hy
      rcases hy with h | h
      · rw [(List.mem_replicate.mp h).2]; decide
      · exact hnat _ y h
    split_ifs at hc
    · exact hnat _ c hc
    · rw [List.mem_append, List.mem_cons] at hc
      rcases hc with h | h | h
      · exact hpad c (List.mem_of_mem_take h)
      · rw [h]; decide
      · exact hpad c (List.mem_of_mem_drop h)

/-- The numeric value of the text displayed for an amount `x ≥ 0` is what
`parseFloat` reads off `toFixed(2)` of `x`. -/
theorem displayedValue_amount (x : ℝ) (hx : 0 ≤ x) :
    displayedValue ("$" ++ groupThousands (toFixed 2 (JSNum.fin x))) =
      parseFloat (toFixed 2 (JSNum.fin x)) := by
  rw [toFixed_of_nonneg 2 x hx]
  unfold displayedValue groupThousands
  have hlist : ("$" ++ String.mk (groupThousandsAux none
      (String.mk (magnitudeToFixed 2 x)).toList)).toList =
      '$' :: groupThousandsAux none (magnitudeToFixed 2 x) := by
    show ("$" ++ _ : String).data = _
    rw [String.data_append]
    rfl
  rw [hlist]
  simp only
  rw [filter_groupThousandsAux _ none (magnitudeToFixed_no_comma 2 x)]

/-- Rounding to the nearest multiple of `10 ^ (-f)` moves a value `x ≥ 0` by
at most half a unit of the last digit. -/
theorem abs_round_sub_le (f : ℕ) (x : ℝ) (hx : 0 ≤ x) :
    |(⌊x * (10 : ℝ) ^ f + 1 / 2⌋₊ : ℝ) / 10 ^ f - x| ≤ 1 / (2 * 10 ^ f) := by
  have hp : (0 : ℝ) < 10 ^ f := by positivity
  have h0 : (0 : ℝ) ≤ x * 10 ^ f + 1 / 2 := by positivity
  have h1 := Nat.floor_le h0
  have h2 := Nat.lt_floor_add_one (x * (10 : ℝ) ^ f + 1 / 2)
  rw [abs_le]
  constructor
  · rw [le_sub_iff_add_le, le_div_iff₀ hp]
    have : (-(1 / (2 * 10 ^ f)) + x) * (10 : ℝ) ^ f = x * 10 ^ f - 1 / 2 := by
      field_simp
      ring
    rw [this]
    linarith
  · rw [sub_le_iff_le_add, div_le_iff₀ hp]
    have : (1 / (2 * 10 ^ f) + x) * (10 : ℝ) ^ f = x * 10 ^ f + 1 / 2 := by
      field_simp
      ring
    rw [this]
    linarith

/-- C16: for every principal `P ≥ 0`, time value `T ≥ 0`, time unit and EAR
`E > -1`, the text displayed by `calculateFutureValue` is the amount
`A = P * (1 + E)^t` rounded to two decimals: its numeric value (without the
`$` prefix and the thousands separators) is a finite `y` with
`|y - A| ≤ 0.005` and `100 * y` a whole number.  As every double of
magnitude `10 ^ 21` or more is a whole number, amounts from `10 ^ 21` on are
taken to be whole. -/
theorem displayed_amount_rounded (page : Page) (P T E A : ℝ)
    (hP : principalOf page = JSNum.fin P) (hT : timeValueOf page = JSNum.fin T)
    (hP0 : 0 ≤ P) (hT0 : 0 ≤ T) (hE : activeEar page = JSNum.fin E) (hE1 : -1 < E)
    (hA : A = P * (1 + E) ^
      (if selectedTimeUnit page.timeUnitInputs = "days" then T / 365
       else if selectedTimeUnit page.timeUnitInputs = "months" then T / 12
       else T))
    (hdouble : A < 10 ^ 21 ∨ ∃ N : ℕ, A = N) :
    ∃ y : ℝ, displayedValue (calculateFutureValue page).futureValue = JSNum.fin y ∧
      |y - A| ≤ 0.005 ∧ ∃ n : ℕ, y * 100 = n := by
  have hA0 : 0 ≤ A := by
    rw [hA]
    exact mul_nonneg hP0 (Real.rpow_nonneg (by linarith) _)
  have htext : (calculateFutureValue page).futureValue =
      "$" ++ groupThousands (toFixed 2 (JSNum.fin A)) := by
    show futureValueText page = _
    rw [futureValueText_fin page P T E hP hT hP0 hT0 hE hE1, hA]
  rw [htext, displayedValue_amount A hA0]
  by_cases hsmall : A < 10 ^ 21
  · refine ⟨_, parseFloat_toFixed_small 2 A (by norm_num) hA0 hsmall, ?_, ⌊A * 10 ^ 2 + 1 / 2⌋₊,
      ?_⟩
    · have := abs_round_sub_le 2 A hA0
      norm_num at this ⊢
      linarith
    · norm_num
  · obtain ⟨N, hN⟩ : ∃ N : ℕ, A = N := by
      rcases hdouble with h | h
      · exact absurd h hsmall
      · exact h
    have hfloor : ⌊A + 1 / 2⌋₊ = N := by
      rw [Nat.floor_eq_iff (by positivity), hN]
      constructor <;> linarith
    refine ⟨(N : ℝ), ?_, ?_, N * 100, ?_⟩
    · rw [parseFloat_toFixed_large 2 A (not_lt.mp hsmall), hfloor]
    · rw [hN, sub_self, abs_zero]
      norm_num
    · push_cast
      ring

/-- C16 at the principal `1000`, one year and the EAR `0.05`. -/
theorem displayed_amount_rounded_witness :
    ∃ y : ℝ, displayedValue (calculateFutureValue (pageWith "nominal_Annual" "5")).futureValue =
        JSNum.fin y ∧
      |y - 1050| ≤ 0.005 ∧ ∃ n : ℕ, y * 100 = n :=
  displayed_amount_rounded (pageWith "nominal_Annual" "5") 1000 1 0.05 1050
    (by
      simp [principalOf, pageWith, parseFloat,
        show parseLiteral "1000" = StrNum.dec false 1000 0 by decide, StrNum.toJSNum])
    (by
      simp [timeValueOf, pageWith, parseFloat,
        show parseLiteral "1" = StrNum.dec false 1 0 by decide, StrNum.toJSNum])
    (by norm_num) (by norm_num) activeEar_pageWith_five (by norm_num)
    (by
      have hunit : selectedTimeUnit (pageWith "nominal_Annual" "5").timeUnitInputs =
          "years" := by decide
      rw [hunit, if_neg (by decide), if_neg (by decide), Real.rpow_one]
      norm_num)
    (Or.inl (by norm_num))

/-! ## The annual conversion in binary64 -/

/-- The binary logarithm of a rational between two consecutive powers of two. -/
theorem log_eq_of_bounds (q : ℚ) (k : ℤ) (hlow : (2 : ℚ) ^ k ≤ q) (hhigh : q < 2 ^ (k + 1)) :
    Int.log 2 q = k := by
  have hq : 0 < q := lt_of_lt_of_le (by positivity) hlow
  have h1 : k ≤ Int.log 2 q :=
    (Int.zpow_le_iff_le_log (by norm_num) hq).mp (by exact_mod_cast hlow)
  have h2 : Int.log 2 q < k + 1 :=
    (Int.lt_zpow_iff_log_lt (by norm_num) hq).mp (by exact_mod_cast hhigh)
  omega

/-- Rounding to the nearest integer returns the floor or the floor plus one. -/
theorem roundHalfEven_cases (x : ℚ) :
    (roundHalfEven x = ⌊x⌋ ∧ x - ⌊x⌋ ≤ 1 / 2) ∨
    (roundHalfEven x = ⌊x⌋ + 1 ∧ 1 / 2 ≤ x - ⌊x⌋) := by
  unfold roundHalfEven
  split_ifs with h1 h2 h3
  · exact Or.inl ⟨rfl, h1.le⟩
  · exact Or.inr ⟨rfl, h2.le⟩
  · exact Or.inl ⟨rfl, not_lt.mp h2⟩
  · exact Or.inr ⟨rfl, not_lt.mp h1⟩

/-- Rounding to the nearest integer moves a value by at most one half. -/
theorem abs_roundHalfEven_sub_le (x : ℚ) : |(roundHalfEven x : ℚ) - x| ≤ 1 / 2 := by
  have hfloor := Int.floor_le x
  have hlt := Int.lt_floor_add_one x
  rw [abs_le]
  rcases roundHalfEven_cases x with ⟨h, hfrac⟩ | ⟨h, hfrac⟩
  · rw [h]
    constructor <;> linarith
  · rw [h]
    push_cast
    constructor <;> linarith

/-- The integer nearest to `x`, when `x` is not half-way between two
integers. -/
theorem roundHalfEven_eq_of_lt (x : ℚ) (n : ℤ) (hlow : (n : ℚ) - 1 / 2 < x)
    (hhigh : x < n + 1 / 2) : roundHalfEven x = n := by
  have hfloor := Int.floor_le x
  have hlt := Int.lt_floor_add_one x
  have hn : ⌊x⌋ = n ∨ ⌊x⌋ = n - 1 := by
    have h1 : ⌊x⌋ < n + 1 := by
      have : (⌊x⌋ : ℚ) < (n : ℚ) + 1 := by linarith
      exact_mod_cast this
    have h2 : n - 2 < ⌊x⌋ := by
      have : (n : ℚ) - 2 < (⌊x⌋ : ℚ) := by linarith
      exact_mod_cast this
    omega
  unfold roundHalfEven
  rcases hn with h | h
  · rw [h]
    rw [if_pos (by linarith)]
  · rw [h]
    push_cast
    rw [if_neg (by linarith), if_pos (by linarith)]
    ring

/-- Rounding an integer to the nearest integer gives it back. -/
theorem roundHalfEven_intCast (n : ℤ) : roundHalfEven (n : ℚ) = n :=
  roundHalfEven_eq_of_lt _ n (by linarith) (by linarith)

/-- Rounding to the nearest integer keeps a value between the integers it
lies between. -/
theorem roundHalfEven_mem_Icc (x : ℚ) (a b : ℤ) (ha : (a : ℚ) ≤ x) (hb : x ≤ b) :
    a ≤ roundHalfEven x ∧ roundHalfEven x ≤ b := by
  have hfloor := Int.floor_le x
  have ha' : a ≤ ⌊x⌋ := Int.le_floor.mpr ha
  rcases roundHalfEven_cases x with ⟨h, -⟩ | ⟨h, hfrac⟩
  · rw [h]
    refine ⟨ha', ?_⟩
    have : (⌊x⌋ : ℚ) ≤ b := le_trans hfloor hb
    exact_mod_cast this
  · rw [h]
    refine ⟨by omega, ?_⟩
    have : (⌊x⌋ : ℚ) < b := by linarith
    have : ⌊x⌋ < b := by exact_mod_cast this
    omega

/-- The binary64 value nearest to a positive rational. -/
theorem roundDouble_of_pos (q : ℚ) (hq : 0 < q) :
    roundDouble q =
      (roundHalfEven (q / 2 ^ (Int.log 2 q - 52)) : ℚ) * 2 ^ (Int.log 2 q - 52) := by
  unfold roundDouble
  rw [if_neg hq.ne', if_neg (not_lt.mpr hq.le), abs_of_pos hq, one_mul]

/-- The scaled value `q / 2 ^ (log₂ q - 52)` of a positive rational lies
between `2 ^ 52` and `2 ^ 53`. -/
theorem scaled_mem (q : ℚ) (hq : 0 < q) :
    (2 : ℚ) ^ 52 ≤ q / 2 ^ (Int.log 2 q - 52) ∧ q / 2 ^ (Int.log 2 q - 52) < 2 ^ 53 := by
  have hlow : ((2 : ℕ) : ℚ) ^ Int.log 2 q ≤ q := Int.zpow_log_le_self (by norm_num) hq
  have hhigh : q < ((2 : ℕ) : ℚ) ^ (Int.log 2 q + 1) := Int.lt_zpow_succ_log_self (by norm_num) q
  have hpos : (0 : ℚ) < 2 ^ (Int.log 2 q - 52) := by positivity
  have e1 : (2 : ℚ) ^ 52 * 2 ^ (Int.log 2 q - 52) = 2 ^ Int.log 2 q := by
    rw [← zpow_natCast, ← zpow_add₀ (by norm_num)]
    congr 1
    omega
  have e2 : (2 : ℚ) ^ 53 * 2 ^ (Int.log 2 q - 52) = 2 ^ (Int.log 2 q + 1) := by
    rw [← zpow_natCast, ← zpow_add₀ (by norm_num)]
    congr 1
    omega
  push_cast at hlow hhigh
  constructor
  · rw [le_div_iff₀ hpos, e1]
    exact hlow
  · rw [div_lt_iff₀ hpos, e2]
    exact hhigh

/-- The binary64 value nearest to a positive rational `q`, from the binade of
`q` and the integer nearest to the scaled value. -/
theorem roundDouble_eq (q : ℚ) (k n : ℤ) (hlow : (2 : ℚ) ^ k ≤ q) (hhigh : q < 2 ^ (k + 1))
    (hnlow : (n : ℚ) - 1 / 2 < q / 2 ^ (k - 52)) (hnhigh : q / 2 ^ (k - 52) < n + 1 / 2) :
    roundDouble q = n * 2 ^ (k - 52) := by
  have hq : 0 < q := lt_of_lt_of_le (by positivity) hlow
  rw [roundDouble_of_pos q hq, log_eq_of_bounds q k hlow hhigh,
    roundHalfEven_eq_of_lt _ n hnlow hnhigh]

/-- Rounding a positive rational to binary64 changes it by at most
`2 ^ (-53)` of its value. -/
theorem abs_roundDouble_sub_le_of_pos (a : ℚ) (ha : 0 < a) :
    |(roundHalfEven (a / 2 ^ (Int.log 2 a - 52)) : ℚ) * 2 ^ (Int.log 2 a - 52) - a| ≤
      a / 2 ^ 53 := by
  obtain ⟨hscaled, -⟩ := scaled_mem a ha
  have hpos : (0 : ℚ) < 2 ^ (Int.log 2 a - 52) := by positivity
  have herr := abs_roundHalfEven_sub_le (a / 2 ^ (Int.log 2 a - 52))
  have e1 : (roundHalfEven (a / 2 ^ (Int.log 2 a - 52)) : ℚ) * 2 ^ (Int.log 2 a - 52) - a =
      ((roundHalfEven (a / 2 ^ (Int.log 2 a - 52)) : ℚ) - a / 2 ^ (Int.log 2 a - 52)) *
        2 ^ (Int.log 2 a - 52) := by
    field_simp
  have h2 : (2 : ℚ) ^ 52 * 2 ^ (Int.log 2 a - 52) ≤ a := by
    rw [le_div_iff₀ hpos] at hscaled
    exact hscaled
  rw [e1, abs_mul, abs_of_pos hpos]
  calc |(roundHalfEven (a / 2 ^ (Int.log 2 a - 52)) : ℚ) - a / 2 ^ (Int.log 2 a - 52)| *
        2 ^ (Int.log 2 a - 52)
      ≤ 1 / 2 * 2 ^ (Int.log 2 a - 52) := mul_le_mul_of_nonneg_right herr hpos.le
    _ = (2 : ℚ) ^ 52 * 2 ^ (Int.log 2 a - 52) / 2 ^ 53 := by ring
    _ ≤ a / 2 ^ 53 := div_le_div_of_nonneg_right h2 (by positivity)

/-- Rounding to binary64 changes a value by at most `2 ^ (-53)` of its
magnitude. -/
theorem abs_roundDouble_sub_le (q : ℚ) : |roundDouble q - q| ≤ |q| / 2 ^ 53 := by
  by_cases h0 : q = 0
  · simp [roundDouble, h0]
  have hmag := abs_roundDouble_sub_le_of_pos (abs q) (abs_pos.mpr h0)
  unfold roundDouble
  rw [if_neg h0]
  by_cases hneg : q < 0
  · rw [if_pos hneg]
    have hq : abs q = -q := abs_of_neg hneg
    rw [hq] at hmag ⊢
    have e2 : -1 * (roundHalfEven (-q / 2 ^ (Int.log 2 (-q) - 52)) : ℚ) *
        2 ^ (Int.log 2 (-q) - 52) - q =
        -((roundHalfEven (-q / 2 ^ (Int.log 2 (-q) - 52)) : ℚ) *
          2 ^ (Int.log 2 (-q) - 52) - -q) := by
      ring
    rw [e2, abs_neg]
    exact hmag
  · rw [if_neg hneg, one_mul]
    have hq : abs q = q := abs_of_nonneg (not_lt.mp hneg)
    rw [hq] at hmag ⊢
    exact hmag

/-- A multiple `n * 2 ^ e` with `2 ^ 52 ≤ n ≤ 2 ^ 53` is a binary64 value:
rounding gives it back. -/
theorem roundDouble_of_representable (n e : ℤ) (hlow : (2 : ℤ) ^ 52 ≤ n)
    (hhigh : n ≤ (2 : ℤ) ^ 53) : roundDouble ((n : ℚ) * 2 ^ e) = (n : ℚ) * 2 ^ e := by
  have hpos : (0 : ℚ) < 2 ^ e := by positivity
  have hlowQ : (2 : ℚ) ^ 52 ≤ n := by exact_mod_cast hlow
  have hhighQ : (n : ℚ) ≤ 2 ^ 53 := by exact_mod_cast hhigh
  have hnpos : (0 : ℚ) < n := lt_of_lt_of_le (by positivity) hlowQ
  have e52 : (2 : ℚ) ^ (e + 52) = 2 ^ 52 * 2 ^ e := by
    rw [zpow_add₀ (by norm_num), mul_comm]
    norm_num
  have e53 : (2 : ℚ) ^ (e + 52 + 1) = 2 ^ 53 * 2 ^ e := by
    rw [show e + 52 + 1 = e + 53 by ring, zpow_add₀ (by norm_num), mul_comm]
    norm_num
  rcases lt_or_eq_of_le hhigh with hlt | heq
  · have hltQ : (n : ℚ) < 2 ^ 53 := by exact_mod_cast hlt
    have hlog : Int.log 2 ((n : ℚ) * 2 ^ e) = e + 52 := by
      apply log_eq_of_bounds
      · rw [e52]
        exact mul_le_mul_of_nonneg_right hlowQ hpos.le
      · rw [e53]
        exact mul_lt_mul_of_pos_right hltQ hpos
    rw [roundDouble_of_pos _ (by positivity), hlog, show e + 52 - 52 = e by ring,
      mul_div_assoc, div_self hpos.ne', mul_one, roundHalfEven_intCast]
  · have hval : (n : ℚ) * 2 ^ e = 2 ^ (e + 53) := by
      rw [heq, zpow_add₀ (by norm_num), mul_comm]
      norm_num
    have hlog : Int.log 2 ((n : ℚ) * 2 ^ e) = e + 53 := by
      rw [hval]
      exact_mod_cast Int.log_zpow (R := ℚ) (b := 2) (by norm_num) (e + 53)
    have hscaled : (n : ℚ) * 2 ^ e / 2 ^ (e + 53 - 52) = ((2 ^ 52 : ℤ) : ℚ) := by
      rw [hval, ← zpow_sub₀ (by norm_num)]
      rw [show e + 53 - (e + 53 - 52) = 52 by ring]
      norm_num
    rw [roundDouble_of_pos _ (by positivity), hlog, hscaled, roundHalfEven_intCast, hval]
    have hsplit : (2 : ℚ) ^ (e + 53) = 2 ^ 52 * 2 ^ (e + 1) := by
      rw [show e + 53 = 52 + (e + 1) by ring, zpow_add₀ (by norm_num)]
      norm_num
    rw [show e + 53 - 52 = e + 1 by ring, hsplit]
    norm_num

/-- Rounding to binary64 twice is rounding once, for a value `≥ 0`. -/
theorem roundDouble_idempotent (q : ℚ) (hq : 0 ≤ q) :
    roundDouble (roundDouble q) = roundDouble q := by
  rcases eq_or_lt_of_le hq with h0 | hpos
  · rw [← h0]
    simp [roundDouble]
  · obtain ⟨hlow, hhigh⟩ := scaled_mem q hpos
    obtain ⟨hn1, hn2⟩ := roundHalfEven_mem_Icc (q / 2 ^ (Int.log 2 q - 52)) (2 ^ 52) (2 ^ 53)
      (by exact_mod_cast hlow) (by exact_mod_cast hhigh.le)
    rw [roundDouble_of_pos q hpos]
    exact roundDouble_of_representable _ _ hn1 hn2

/-- The binary64 value of `5 / 100`, the number written `0.05`. -/
theorem roundDouble_five_percent :
    roundDouble (5 / 100) = 7205759403792794 / 2 ^ 57 := by
  have h := roundDouble_eq (5 / 100) (-5) 7205759403792794 (by norm_num) (by norm_num)
    (by norm_num) (by norm_num)
  rw [h]
  norm_num

/-- The binary64 sum `1 + 0.05`. -/
theorem roundDouble_one_add_five_percent :
    roundDouble (1 + 7205759403792794 / 2 ^ 57) = 4728779608739021 / 2 ^ 52 := by
  have h := roundDouble_eq (1 + 7205759403792794 / 2 ^ 57) 0 4728779608739021 (by norm_num)
    (by norm_num) (by norm_num) (by norm_num)
  rw [h]
  norm_num

/-- The binary64 difference `(1 + 0.05) - 1`. -/
theorem roundDouble_sub_one :
    roundDouble (4728779608739021 / 2 ^ 52 - 1) = 225179981368525 / 2 ^ 52 := by
  have h := roundDouble_eq (4728779608739021 / 2 ^ 52 - 1) (-5) 7205759403792800 (by norm_num)
    (by norm_num) (by norm_num) (by norm_num)
  rw [h]
  norm_num

/-- In binary64 the two annual conversions compute the same number. -/
theorem nominalAnnualEarDouble_eq_effective (v : ℚ) (hv : 0 ≤ v) :
    nominalAnnualEarDouble v = effectiveAnnualEarDouble v := by
  unfold nominalAnnualEarDouble effectiveAnnualEarDouble
  rw [div_one, roundDouble_idempotent _ (by positivity)]

/-- In binary64 the annual conversion of `v ≥ 0` is within
`(1 + v / 50) / 2 ^ 52` of `v / 100`. -/
theorem abs_effectiveAnnualEarDouble_sub_le (v : ℚ) (hv : 0 ≤ v) :
    |effectiveAnnualEarDouble v - v / 100| ≤ (1 + v / 50) / 2 ^ 52 := by
  have hu : (0 : ℚ) ≤ v / 100 := by positivity
  have h1 := abs_roundDouble_sub_le (v / 100)
  have h2 := abs_roundDouble_sub_le (1 + roundDouble (v / 100))
  have h3 := abs_roundDouble_sub_le (roundDouble (1 + roundDouble (v / 100)) - 1)
  rw [abs_of_nonneg hu] at h1
  obtain ⟨h1a, h1b⟩ := abs_le.mp h1
  have hr0 : (0 : ℚ) ≤ roundDouble (v / 100) := by
    have : v / 100 / 2 ^ 53 ≤ v / 100 := div_le_self hu (by norm_num)
    linarith
  rw [abs_of_nonneg (by linarith : (0 : ℚ) ≤ 1 + roundDouble (v / 100))] at h2
  obtain ⟨h2a, h2b⟩ := abs_le.mp h2
  have hs : |roundDouble (1 + roundDouble (v / 100)) - 1| ≤
      roundDouble (v / 100) + (1 + roundDouble (v / 100)) / 2 ^ 53 := by
    rw [abs_le]
    constructor <;> linarith
  have h3' : |roundDouble (roundDouble (1 + roundDouble (v / 100)) - 1) -
      (roundDouble (1 + roundDouble (v / 100)) - 1)| ≤
      (roundDouble (v / 100) + (1 + roundDouble (v / 100)) / 2 ^ 53) / 2 ^ 53 :=
    le_trans h3 (div_le_div_of_nonneg_right hs (by positivity))
  obtain ⟨h3a, h3b⟩ := abs_le.mp h3'
  unfold effectiveAnnualEarDouble
  rw [abs_le]
  constructor
  · norm_num at h1a h1b h2a h2b h3a h3b ⊢
    linarith
  · norm_num at h1a h1b h2a h2b h3a h3b ⊢
    linarith

/-- In exact arithmetic the EAR of a finite value `x ≥ 0` held by an annual
field is `x / 100`. -/
theorem earOfValue_annual (id : String) (x : ℝ) (hx : 0 ≤ x)
    (hid : id = "nominal_Annual" ∨ id = "effective_period_Annual") :
    earOfValue id (JSNum.fin x) = some (JSNum.fin (x / 100)) := by
  have hm : MAPPING (idPeriod id) = some 1 := by
    rcases hid with h | h <;> rw [h] <;> decide
  rw [earOfValue_fin id x 1 hx hm]
  congr 2
  split_ifs <;> simp

/-- C13, as stated, fails for the annual nominal field holding `5`: the
text parses to `5`, and in binary64 `5 / 100` is `0.05` (the double
`7205759403792794 / 2^57`), `1 + 0.05` is `4728779608739021 / 2^52`, and
subtracting `1` leaves `225179981368525 / 2^52`, that is
`0.050000000000000044...`, which is neither the double `0.05` nor the
number `5 / 100`; the annual effective field gives the same. -/
theorem annual_ear_not_exact :
    parseFloat "5" = JSNum.fin 5 ∧
    roundDouble (5 / 100) = 7205759403792794 / 2 ^ 57 ∧
    nominalAnnualEarDouble 5 = 225179981368525 / 2 ^ 52 ∧
    effectiveAnnualEarDouble 5 = 225179981368525 / 2 ^ 52 ∧
    (0.050000000000000044 : ℚ) < nominalAnnualEarDouble 5 ∧
    nominalAnnualEarDouble 5 < (0.050000000000000045 : ℚ) ∧
    nominalAnnualEarDouble 5 ≠ roundDouble (5 / 100) ∧
    nominalAnnualEarDouble 5 ≠ 5 / 100 := by
  have hparse : parseFloat "5" = JSNum.fin 5 := by
    simp [parseFloat, show parseLiteral "5" = StrNum.dec false 5 0 by decide, StrNum.toJSNum]
  have heff : effectiveAnnualEarDouble 5 = 225179981368525 / 2 ^ 52 := by
    unfold effectiveAnnualEarDouble
    rw [roundDouble_five_percent, roundDouble_one_add_five_percent, roundDouble_sub_one]
  have hnom : nominalAnnualEarDouble 5 = 225179981368525 / 2 ^ 52 := by
    rw [nominalAnnualEarDouble_eq_effective 5 (by norm_num), heff]
  refine ⟨hparse, roundDouble_five_percent, hnom, heff, ?_, ?_, ?_, ?_⟩
  · rw [hnom]; norm_num
  · rw [hnom]; norm_num
  · rw [hnom, roundDouble_five_percent]; norm_num
  · rw [hnom]; norm_num

/-- C13, amended: for every finite `x ≥ 0` the annual representations
coincide.  For the annual nominal and the annual effective field alike
`calculateEffectiveAnnualRate` computes `(1 + x / 100) - 1` (`m = 1`); in
exact arithmetic that is `x / 100`, and evaluated in binary64 on a parsed
value `v ≥ 0` the two fields still give the same number, which is within
`(1 + v / 50) / 2^52` of `v / 100`. -/
theorem annual_representations_coincide (x : ℝ) (v : ℚ) (hx : 0 ≤ x) (hv : 0 ≤ v) :
    (∀ (matrix : Matrix) (id text : String),
      id = "nominal_Annual" ∨ id = "effective_period_Annual" →
      getField matrix id = some text → parseFloat text = JSNum.fin x →
      calculateEffectiveAnnualRate matrix id = some (JSNum.fin (x / 100))) ∧
    nominalAnnualEarDouble v = effectiveAnnualEarDouble v ∧
    |nominalAnnualEarDouble v - v / 100| ≤ (1 + v / 50) / 2 ^ 52 ∧
    |effectiveAnnualEarDouble v - v / 100| ≤ (1 + v / 50) / 2 ^ 52 := by
  refine ⟨?_, nominalAnnualEarDouble_eq_effective v hv, ?_,
    abs_effectiveAnnualEarDouble_sub_le v hv⟩
  · intro matrix id text hid hfield hparse
    rw [calculateEffectiveAnnualRate_of_field matrix id text hfield, hparse]
    exact earOfValue_annual id x hx hid
  · rw [nominalAnnualEarDouble_eq_effective v hv]
    exact abs_effectiveAnnualEarDouble_sub_le v hv

/-- C13, amended, at the value `5`. -/
theorem annual_representations_coincide_witness :
    (∀ (matrix : Matrix) (id text : String),
      id = "nominal_Annual" ∨ id = "effective_period_Annual" →
      getField matrix id = some text → parseFloat text = JSNum.fin 5 →
      calculateEffectiveAnnualRate matrix id = some (JSNum.fin (5 / 100))) ∧
    nominalAnnualEarDouble 5 = effectiveAnnualEarDouble 5 ∧
    |nominalAnnualEarDouble 5 - 5 / 100| ≤ (1 + 5 / 50) / 2 ^ 52 ∧
    |effectiveAnnualEarDouble 5 - 5 / 100| ≤ (1 + 5 / 50) / 2 ^ 52 :=
  annual_representations_coincide 5 5 (by norm_num) (by norm_num)

/-! ## The order of the nominal rates in binary64 -/

/-- The binary64 value of a rational that is a binary64 value already, from
its binade and its multiplier. -/
theorem roundDouble_exact (q : ℚ) (k n : ℤ) (hlow : (2 : ℚ) ^ k ≤ q) (hhigh : q < 2 ^ (k + 1))
    (hq : q = n * 2 ^ (k - 52)) : roundDouble q = q := by
  have hpos : (0 : ℚ) < 2 ^ (k - 52) := by positivity
  have hscaled : q / 2 ^ (k - 52) = n := by
    rw [hq, mul_div_assoc, div_self hpos.ne', mul_one]
  rw [roundDouble_eq q k n hlow hhigh (by rw [hscaled]; linarith) (by rw [hscaled]; linarith),
    ← hq]

/-- The EAR that the annual effective field holding `0.0000025` has in
binary64: `112589991 / 2^52`, that is `2.500000007...e-8`. -/
theorem effectiveAnnualEarDouble_tiny :
    effectiveAnnualEarDouble (roundDouble (25 / 10 ^ 7)) = 112589991 / 2 ^ 52 := by
  have h1 : roundDouble (25 / 10 ^ 7) = 5902958103587057 / 2 ^ 71 := by
    rw [roundDouble_eq (25 / 10 ^ 7) (-19) 5902958103587057 (by norm_num) (by norm_num)
      (by norm_num) (by norm_num)]
    norm_num
  have h2 : roundDouble (5902958103587057 / 2 ^ 71 / 100) = 7555786372591433 / 2 ^ 78 := by
    rw [roundDouble_eq (5902958103587057 / 2 ^ 71 / 100) (-26) 7555786372591433 (by norm_num)
      (by norm_num) (by norm_num) (by norm_num)]
    norm_num
  have h3 : roundDouble (1 + 7555786372591433 / 2 ^ 78) = 4503599739960487 / 2 ^ 52 := by
    rw [roundDouble_eq (1 + 7555786372591433 / 2 ^ 78) 0 4503599739960487 (by norm_num)
      (by norm_num) (by norm_num) (by norm_num)]
    norm_num
  have h4 : roundDouble (4503599739960487 / 2 ^ 52 - 1) = 112589991 / 2 ^ 52 := by
    rw [roundDouble_eq (4503599739960487 / 2 ^ 52 - 1) (-26) 7555786393780224 (by norm_num)
      (by norm_num) (by norm_num) (by norm_num)]
    norm_num
  unfold effectiveAnnualEarDouble
  rw [h1, h2, h3, h4]

/-- The nominal rate of lines 125-126 in binary64 when the difference and the
two products are binary64 values. -/
theorem nominalRateDouble_exact (p : ℚ) (m : ℕ) (k1 n1 k2 n2 k3 n3 : ℤ)
    (h1 : (2 : ℚ) ^ k1 ≤ p - 1 ∧ p - 1 < 2 ^ (k1 + 1) ∧ p - 1 = n1 * 2 ^ (k1 - 52))
    (h2 : (2 : ℚ) ^ k2 ≤ (p - 1) * m ∧ (p - 1) * m < 2 ^ (k2 + 1) ∧
      (p - 1) * m = n2 * 2 ^ (k2 - 52))
    (h3 : (2 : ℚ) ^ k3 ≤ (p - 1) * m * 100 ∧ (p - 1) * m * 100 < 2 ^ (k3 + 1) ∧
      (p - 1) * m * 100 = n3 * 2 ^ (k3 - 52)) :
    nominalRateDouble p m = (p - 1) * m * 100 := by
  unfold nominalRateDouble
  rw [roundDouble_exact _ k1 n1 h1.1 h1.2.1 h1.2.2, roundDouble_exact _ k2 n2 h2.1 h2.2.1 h2.2.2,
    roundDouble_exact _ k3 n3 h3.1 h3.2.1 h3.2.2]

/-- The binary64 value nearest to `a ≥ 0` lies between `a * (1 - 2^(-53))` and
`a * (1 + 2^(-53))`. -/
theorem roundDouble_mem_of_nonneg (a : ℚ) (ha : 0 ≤ a) :
    0 ≤ roundDouble a ∧ a - a / 2 ^ 53 ≤ roundDouble a ∧ roundDouble a ≤ a + a / 2 ^ 53 := by
  have h := abs_roundDouble_sub_le a
  rw [abs_of_nonneg ha] at h
  obtain ⟨h1, h2⟩ := abs_le.mp h
  have : a / 2 ^ 53 ≤ a := div_le_self ha (by norm_num)
  refine ⟨by linarith, by linarith, by linarith⟩

/-- In binary64 the nominal rate of lines 125-126, computed from a double
`p ≥ 1`, is within the relative distance `2^(-51)` of `(p - 1) * m * 100`. -/
theorem abs_nominalRateDouble_sub_le (p : ℚ) (m : ℕ) (hp : 1 ≤ p) :
    |nominalRateDouble p m - (p - 1) * m * 100| ≤ (p - 1) * m * 100 / 2 ^ 51 := by
  have hm : (0 : ℚ) ≤ m := Nat.cast_nonneg m
  have ha0 : (0 : ℚ) ≤ p - 1 := by linarith
  obtain ⟨hb0, h1a, h1b⟩ := roundDouble_mem_of_nonneg (p - 1) ha0
  obtain ⟨hc0, h2a, h2b⟩ := roundDouble_mem_of_nonneg (roundDouble (p - 1) * m)
    (mul_nonneg hb0 hm)
  obtain ⟨-, h3a, h3b⟩ := roundDouble_mem_of_nonneg (roundDouble (roundDouble (p - 1) * m) * 100)
    (mul_nonneg hc0 (by norm_num))
  have h1m := mul_le_mul_of_nonneg_right h1a hm
  have h1m' := mul_le_mul_of_nonneg_right h1b hm
  have ham0 : (0 : ℚ) ≤ (p - 1) * m := mul_nonneg ha0 hm
  unfold nominalRateDouble
  rw [abs_le]
  constructor
  · norm_num at h1m h1m' h2a h2b h3a h3b ⊢
    linarith
  · norm_num at h1m h1m' h2a h2b h3a h3b ⊢
    linarith

/-- A double within the relative distance `2^(-52)` of the `m`-th root of
`x` is within `p / 2^52` of the root. -/
theorem abs_sub_root_le (x : ℚ) (m : ℕ) (p : ℚ) (hm : 0 < m) (hx : 1 ≤ x)
    (hp : IsRootDouble x m p) :
    |(p : ℝ) - (x : ℝ) ^ ((1 : ℝ) / m)| ≤ p / 2 ^ 52 := by
  obtain ⟨hp1, hlow, hhigh⟩ := hp
  have hxR : (0 : ℝ) ≤ (x : ℝ) := by
    have : (0 : ℚ) ≤ x := by linarith
    exact_mod_cast this
  have hroot : ((x : ℝ) ^ ((1 : ℝ) / m)) ^ m = (x : ℝ) := root_pow (x : ℝ) m hxR hm
  have hr0 : (0 : ℝ) ≤ (x : ℝ) ^ ((1 : ℝ) / m) := Real.rpow_nonneg hxR _
  have hp1R : (1 : ℝ) ≤ (p : ℝ) := by exact_mod_cast hp1
  have hlowR : ((p : ℝ) * (1 - 1 / 2 ^ 52)) ^ m ≤ (x : ℝ) := by
    have h : (((p * (1 - 1 / 2 ^ 52)) ^ m : ℚ) : ℝ) ≤ ((x : ℚ) : ℝ) := Rat.cast_le.mpr hlow
    push_cast at h
    exact h
  have hhighR : (x : ℝ) ≤ ((p : ℝ) * (1 + 1 / 2 ^ 52)) ^ m := by
    have h : ((x : ℚ) : ℝ) ≤ (((p * (1 + 1 / 2 ^ 52)) ^ m : ℚ) : ℝ) := Rat.cast_le.mpr hhigh
    push_cast at h
    exact h
  have h1 : (p : ℝ) * (1 - 1 / 2 ^ 52) ≤ (x : ℝ) ^ ((1 : ℝ) / m) :=
    le_of_pow_le_pow_left₀ hm.ne' hr0 (by rw [hroot]; exact hlowR)
  have h2 : (x : ℝ) ^ ((1 : ℝ) / m) ≤ (p : ℝ) * (1 + 1 / 2 ^ 52) :=
    le_of_pow_le_pow_left₀ hm.ne' (by positivity) (by rw [hroot]; exact hhighR)
  rw [abs_le]
  constructor <;> linarith

/-- In binary64 the nominal rate of lines 125-126, computed from a double
within the relative distance `2^(-52)` of the `m`-th root of `x`, is within
`300 * p * m / 2^52` of `m * (x^(1/m) - 1) * 100`. -/
theorem abs_nominalRateDouble_sub_formula_le (x : ℚ) (m : ℕ) (p : ℚ) (hm : 0 < m)
    (hx : 1 ≤ x) (hp : IsRootDouble x m p) :
    |((nominalRateDouble p m : ℚ) : ℝ) - m * ((x : ℝ) ^ ((1 : ℝ) / m) - 1) * 100| ≤
      300 * p * m / 2 ^ 52 := by
  have hroot := abs_sub_root_le x m p hm hx hp
  have hrate : |((nominalRateDouble p m : ℚ) : ℝ) - ((p : ℝ) - 1) * m * 100| ≤
      ((p : ℝ) - 1) * m * 100 / 2 ^ 51 := by
    have h : ((|nominalRateDouble p m - (p - 1) * m * 100| : ℚ) : ℝ) ≤
        (((p - 1) * m * 100 / 2 ^ 51 : ℚ) : ℝ) :=
      Rat.cast_le.mpr (abs_nominalRateDouble_sub_le p m hp.1)
    push_cast at h
    exact h
  have hmR : (0 : ℝ) < m := by exact_mod_cast hm
  have hp1R : (1 : ℝ) ≤ (p : ℝ) := by exact_mod_cast hp.1
  have hpm : (0 : ℝ) ≤ (p : ℝ) * m := by positivity
  obtain ⟨hr1, hr2⟩ := abs_le.mp hroot
  obtain ⟨hn1, hn2⟩ := abs_le.mp hrate
  have e1 := mul_le_mul_of_nonneg_right hr2 (show (0 : ℝ) ≤ m * 100 by positivity)
  have e2 := mul_le_mul_of_nonneg_right hr1 (show (0 : ℝ) ≤ m * 100 by positivity)
  rw [abs_le]
  constructor
  · norm_num at e1 e2 hn1 hn2 ⊢
    linarith
  · norm_num at e1 e2 hn1 hn2 ⊢
    linarith

/-- In binary64, when `Math.pow` is within the relative distance `2^(-52)` of
the root, the nominal rate of the higher frequency exceeds that of the lower
frequency by at most `300 * (p₁ * m₁ + p₂ * m₂) / 2^52`. -/
theorem nominalRateDouble_le_add (x : ℚ) (m₁ m₂ : ℕ) (p₁ p₂ : ℚ) (hm : 0 < m₂)
    (hle : m₂ ≤ m₁) (hx : 1 ≤ x) (hp₁ : IsRootDouble x m₁ p₁) (hp₂ : IsRootDouble x m₂ p₂) :
    nominalRateDouble p₁ m₁ ≤
      nominalRateDouble p₂ m₂ + 300 * (p₁ * m₁ + p₂ * m₂) / 2 ^ 52 := by
  have hxR : (1 : ℝ) ≤ (x : ℝ) := by exact_mod_cast hx
  have h1 := abs_nominalRateDouble_sub_formula_le x m₁ p₁ (lt_of_lt_of_le hm hle) hx hp₁
  have h2 := abs_nominalRateDouble_sub_formula_le x m₂ p₂ hm hx hp₂
  have hmono := nominal_rate_antitone (x : ℝ) hxR m₂ m₁ hm hle
  obtain ⟨-, h1b⟩ := abs_le.mp h1
  obtain ⟨h2a, -⟩ := abs_le.mp h2
  have hR : ((nominalRateDouble p₁ m₁ : ℚ) : ℝ) ≤
      ((nominalRateDouble p₂ m₂ : ℚ) : ℝ) + 300 * ((p₁ : ℝ) * m₁ + p₂ * m₂) / 2 ^ 52 := by
    have : (m₁ : ℝ) * ((x : ℝ) ^ ((1 : ℝ) / m₁) - 1) * 100 ≤
        m₂ * ((x : ℝ) ^ ((1 : ℝ) / m₂) - 1) * 100 :=
      mul_le_mul_of_nonneg_right hmono (by norm_num)
    linarith
  have hQ : ((nominalRateDouble p₁ m₁ : ℚ) : ℝ) ≤
      ((nominalRateDouble p₂ m₂ + 300 * (p₁ * m₁ + p₂ * m₂) / 2 ^ 52 : ℚ) : ℝ) := by
    push_cast
    exact hR
  exact Rat.cast_le.mp hQ

/-- In binary64, when `Math.pow` is within the relative distance `2^(-52)` of
the power, the EAR that lines 71-90 compute for a nominal field of frequency
`m` holding `v ≥ 0` is at least `v / 100 - (1 + v / 100) * (m + 5) / 2^53`. -/
theorem le_earOfPowerDouble (v : ℚ) (m : ℕ) (q : ℚ) (hv : 0 ≤ v) (hm : 0 < m)
    (hq : IsPowerDouble (nominalBaseDouble v m) m q) :
    v / 100 - (1 + v / 100) * (m + 5) / 2 ^ 53 ≤ earOfPowerDouble q := by
  have hmQ : (0 : ℚ) < m := by exact_mod_cast hm
  have hw : (0 : ℚ) ≤ v / 100 := by positivity
  obtain ⟨hr0, hr1, -⟩ := roundDouble_mem_of_nonneg (v / 100) hw
  have hc0 : (0 : ℚ) ≤ roundDouble (v / 100) / m := div_nonneg hr0 hmQ.le
  obtain ⟨hs0, hs1, -⟩ := roundDouble_mem_of_nonneg _ hc0
  have h1s : (0 : ℚ) ≤ 1 + roundDouble (roundDouble (v / 100) / m) := by linarith
  obtain ⟨hb0, hb1, -⟩ := roundDouble_mem_of_nonneg _ h1s
  obtain ⟨hq1, -⟩ := hq
  unfold nominalBaseDouble at hq1
  generalize roundDouble (1 + roundDouble (roundDouble (v / 100) / m)) = b at hb0 hb1 hq1
  generalize roundDouble (roundDouble (v / 100) / m) = s at hs0 hs1 h1s hb1
  generalize roundDouble (v / 100) = r at hr0 hr1 hc0 hs1
  generalize v / 100 = w at hw hr1 ⊢
  have hpow0 : (0 : ℚ) ≤ b ^ m := pow_nonneg hb0 m
  have hq0 : 0 ≤ q := by
    have : 0 ≤ b ^ m * (1 - 1 / 2 ^ 52) := mul_nonneg hpow0 (by norm_num)
    linarith
  have hms : r - r / 2 ^ 53 ≤ m * s := by
    have h := mul_le_mul_of_nonneg_left hs1 hmQ.le
    have e : (m : ℚ) * (r / m - r / m / 2 ^ 53) = r - r / 2 ^ 53 := by
      field_simp
      ring
    linarith
  have hmw : 0 ≤ (m : ℚ) * w := mul_nonneg hmQ.le hw
  have hL : w - (1 + w) * (m + 4) / 2 ^ 53 ≤ q - 1 := by
    by_cases hmu : (m : ℚ) / 2 ^ 53 ≤ 1
    · have hB1 : 1 + (m : ℚ) * s ≤ (1 + s) ^ m := one_add_mul_le_pow (by linarith) m
      have hB2 : 1 + (m : ℚ) * (-(1 / 2 ^ 53)) ≤ (1 + -(1 / 2 ^ 53)) ^ m :=
        one_add_mul_le_pow (by norm_num) m
      have hfac0 : (0 : ℚ) ≤ 1 + (m : ℚ) * (-(1 / 2 ^ 53)) := by linarith
      have hprod : (1 + (m : ℚ) * s) * (1 + (m : ℚ) * (-(1 / 2 ^ 53))) ≤
          (1 + s) ^ m * (1 + -(1 / 2 ^ 53)) ^ m :=
        mul_le_mul hB1 hB2 hfac0 (pow_nonneg h1s m)
      have hbm : ((1 + s) * (1 + -(1 / 2 ^ 53))) ^ m ≤ b ^ m :=
        pow_le_pow_left₀ (mul_nonneg h1s (by norm_num)) (by linarith) m
      rw [mul_pow] at hbm
      have hfac := mul_le_mul_of_nonneg_right
        (show 1 + (w - 2 * w / 2 ^ 53) ≤ 1 + (m : ℚ) * s by linarith) hfac0
      have hK : (1 + w) * (1 - (m + 2) / 2 ^ 53) ≤ b ^ m := by
        have e : (1 + w) * (1 - ((m : ℚ) + 2) / 2 ^ 53) ≤
            (1 + (w - 2 * w / 2 ^ 53)) * (1 + (m : ℚ) * (-(1 / 2 ^ 53))) := by
          norm_num
          linarith
        linarith
      have hK2 := mul_le_mul_of_nonneg_right hK (show (0 : ℚ) ≤ 1 - 1 / 2 ^ 52 by norm_num)
      norm_num at hK2 hq1 ⊢
      linarith
    · push_neg at hmu
      have h := mul_nonneg (show (0 : ℚ) ≤ (m : ℚ) / 2 ^ 53 - 1 by linarith) hw
      norm_num at h hmu ⊢
      linarith
  unfold earOfPowerDouble
  have habs := abs_roundDouble_sub_le (q - 1)
  by_cases ht : 0 ≤ q - 1
  · rw [abs_of_nonneg ht] at habs
    obtain ⟨h1, -⟩ := abs_le.mp habs
    norm_num at h1 hL ⊢
    linarith
  · push_neg at ht
    rw [abs_of_neg ht] at habs
    obtain ⟨h1, -⟩ := abs_le.mp habs
    norm_num at h1 hL ⊢
    linarith

/-- The binary64 value nearest to a rational `≥ 1` is `≥ 1`. -/
theorem one_le_roundDouble (q : ℚ) (hq : 1 ≤ q) : 1 ≤ roundDouble q := by
  have hpos : 0 < q := by linarith
  obtain ⟨hlow, hhigh⟩ := scaled_mem q hpos
  obtain ⟨hn1, -⟩ := roundHalfEven_mem_Icc (q / 2 ^ (Int.log 2 q - 52)) (2 ^ 52) (2 ^ 53)
    (by exact_mod_cast hlow) (by exact_mod_cast hhigh.le)
  have hlog : 0 ≤ Int.log 2 q :=
    (Int.zpow_le_iff_le_log (by norm_num) hpos).mp (by simpa using hq)
  have hp : (0 : ℚ) < 2 ^ (Int.log 2 q - 52) := by positivity
  have e1 : (2 : ℚ) ^ 52 * 2 ^ (Int.log 2 q - 52) = 2 ^ Int.log 2 q := by
    rw [← zpow_natCast, ← zpow_add₀ (by norm_num)]
    congr 1
    omega
  have h3 : (1 : ℚ) ≤ 2 ^ Int.log 2 q := one_le_zpow₀ (by norm_num) hlog
  have h4 : (2 : ℚ) ^ 52 ≤ (roundHalfEven (q / 2 ^ (Int.log 2 q - 52)) : ℚ) := by
    exact_mod_cast hn1
  rw [roundDouble_of_pos q hpos]
  calc (1 : ℚ) ≤ 2 ^ Int.log 2 q := h3
    _ = 2 ^ 52 * 2 ^ (Int.log 2 q - 52) := e1.symm
    _ ≤ _ := mul_le_mul_of_nonneg_right h4 hp.le

/-- In binary64 the annual nominal rate that lines 125-126 compute from the
EAR `ear ≥ 0` is within `600 * (1 + ear) / 2^53` of `100 * ear`. -/
theorem abs_nominalAnnualDouble_sub_le (ear : ℚ) (hear : 0 ≤ ear) :
    |nominalRateDouble (roundDouble (1 + ear)) 1 - 100 * ear| ≤ 600 * (1 + ear) / 2 ^ 53 := by
  have hx1 : 1 ≤ roundDouble (1 + ear) := one_le_roundDouble _ (by linarith)
  obtain ⟨-, hx2, hx3⟩ := roundDouble_mem_of_nonneg (1 + ear) (by linarith)
  have hrate := abs_nominalRateDouble_sub_le (roundDouble (1 + ear)) 1 hx1
  obtain ⟨hn1, hn2⟩ := abs_le.mp hrate
  rw [abs_le]
  constructor
  · norm_num at hx2 hx3 hn1 hn2 ⊢
    linarith
  · norm_num at hx2 hx3 hn1 hn2 ⊢
    linarith

/-- The base of the power of line 90 is a value `≥ 0`, and a `Math.pow(b, 1)`
that returns `b` has the accuracy of `IsPowerDouble`. -/
theorem isPowerDouble_one (v : ℚ) (hv : 0 ≤ v) :
    IsPowerDouble (nominalBaseDouble v 1) 1 (nominalBaseDouble v 1) := by
  have hw : (0 : ℚ) ≤ v / 100 := by positivity
  obtain ⟨hr0, -, -⟩ := roundDouble_mem_of_nonneg (v / 100) hw
  obtain ⟨hs0, -, -⟩ := roundDouble_mem_of_nonneg (roundDouble (v / 100) / (1 : ℕ))
    (div_nonneg hr0 (by norm_num))
  obtain ⟨hb0, -, -⟩ := roundDouble_mem_of_nonneg
    (1 + roundDouble (roundDouble (v / 100) / (1 : ℕ))) (by linarith)
  unfold IsPowerDouble nominalBaseDouble
  rw [pow_one]
  constructor
  · have : roundDouble (1 + roundDouble (roundDouble (v / 100) / (1 : ℕ))) * (1 / 2 ^ 52) ≥ 0 :=
      mul_nonneg hb0 (by norm_num)
    linarith
  · have : roundDouble (1 + roundDouble (roundDouble (v / 100) / (1 : ℕ))) * (1 / 2 ^ 52) ≥ 0 :=
      mul_nonneg hb0 (by norm_num)
    linarith

/-- The base `1 + 20 / 100 / 1` of line 90 in binary64: `1.2`, the double
`5404319552844595 / 2^52`. -/
theorem nominalBaseDouble_twenty : nominalBaseDouble 20 1 = 5404319552844595 / 2 ^ 52 := by
  have h1 : roundDouble (20 / 100) = 7205759403792794 / 2 ^ 55 := by
    rw [roundDouble_eq (20 / 100) (-3) 7205759403792794 (by norm_num) (by norm_num)
      (by norm_num) (by norm_num)]
    norm_num
  have h2 : roundDouble (7205759403792794 / 2 ^ 55 / (1 : ℕ)) = 7205759403792794 / 2 ^ 55 := by
    rw [roundDouble_eq (7205759403792794 / 2 ^ 55 / (1 : ℕ)) (-3) 7205759403792794
      (by norm_num) (by norm_num) (by norm_num) (by norm_num)]
    norm_num
  have h3 : roundDouble (1 + 7205759403792794 / 2 ^ 55) = 5404319552844595 / 2 ^ 52 := by
    rw [roundDouble_eq (1 + 7205759403792794 / 2 ^ 55) 0 5404319552844595 (by norm_num)
      (by norm_num) (by norm_num) (by norm_num)]
    norm_num
  unfold nominalBaseDouble
  rw [h1, h2, h3]

/-- The difference `1.2 - 1` of line 90 in binary64:
`900719925474099 / 2^52`, that is `0.19999999999999996`. -/
theorem earOfPowerDouble_twenty :
    earOfPowerDouble (5404319552844595 / 2 ^ 52) = 900719925474099 / 2 ^ 52 := by
  unfold earOfPowerDouble
  rw [roundDouble_eq (5404319552844595 / 2 ^ 52 - 1) (-3) 7205759403792792 (by norm_num)
    (by norm_num) (by norm_num) (by norm_num)]
  norm_num

/-- The binary64 value of `20 / 100`, the number written `0.2`. -/
theorem roundDouble_twenty_percent :
    roundDouble (20 / 100) = 7205759403792794 / 2 ^ 55 := by
  rw [roundDouble_eq (20 / 100) (-3) 7205759403792794 (by norm_num) (by norm_num)
    (by norm_num) (by norm_num)]
  norm_num

/-- The doubles nearest to the 365th and to the 12th root of
`1 + 112589991 / 2^52` have the accuracy of `IsRootDouble`. -/
theorem isRootDouble_tiny :
    IsRootDouble (1 + 112589991 / 2 ^ 52) 365 (1 + 308466 / 2 ^ 52) ∧
    IsRootDouble (1 + 112589991 / 2 ^ 52) 12 (1 + 9382499 / 2 ^ 52) :=
  ⟨⟨by norm_num, by norm_num, by norm_num⟩, ⟨by norm_num, by norm_num, by norm_num⟩⟩

/-- C18, as stated, fails in binary64, in both of its forms.  When the annual
effective field holds `0.0000025` its EAR is `112589991 / 2^52`
(`2.500000007e-8`) and `1 + ear` is a double.  The double nearest to the
365th root of `1 + ear` is `1 + 308466 / 2^52` and the double nearest to its
12th root is `1 + 9382499 / 2^52`; from them lines 125-126 compute
`nominal_Daily = 2.5000022e-6`, above `nominal_Monthly = 2.4999999e-6` and
above `nominal_Annual = 2.5000000e-6` (the rounding of the exponents
`1 / 365` and `1 / 12` moves the two roots by less than `10^(-24)`, far less
than their distance to the nearest midpoint of two doubles, so a `Math.pow`
that rounds to nearest returns these two doubles).  And when the annual
nominal field holds `20`, line 90 computes `(1 + 0.2 / 1) - 1`, the double
`0.19999999999999996`, below `20 / 100` and below the double `0.2`
(`Math.pow(x, 1)` being `x`). -/
theorem nominal_rates_misordered_in_binary64 :
    effectiveAnnualEarDouble (roundDouble (25 / 10 ^ 7)) = 112589991 / 2 ^ 52 ∧
    roundDouble (1 + 112589991 / 2 ^ 52) = 1 + 112589991 / 2 ^ 52 ∧
    IsNearestRootDouble (1 + 112589991 / 2 ^ 52) 365 (1 + 308466 / 2 ^ 52) ∧
    IsNearestRootDouble (1 + 112589991 / 2 ^ 52) 12 (1 + 9382499 / 2 ^ 52) ∧
    nominalRateDouble (1 + 308466 / 2 ^ 52) 365 = 1407376125 / 2 ^ 49 ∧
    nominalRateDouble (1 + 9382499 / 2 ^ 52) 12 = 703687425 / 2 ^ 48 ∧
    nominalRateDouble (1 + 112589991 / 2 ^ 52) 1 = 2814749775 / 2 ^ 50 ∧
    (2.5000022e-6 : ℚ) < nominalRateDouble (1 + 308466 / 2 ^ 52) 365 ∧
    nominalRateDouble (1 + 9382499 / 2 ^ 52) 12 < (2.5e-6 : ℚ) ∧
    nominalRateDouble (1 + 112589991 / 2 ^ 52) 1 < (2.5000001e-6 : ℚ) ∧
    ¬ (nominalRateDouble (1 + 308466 / 2 ^ 52) 365 ≤
      nominalRateDouble (1 + 9382499 / 2 ^ 52) 12) ∧
    ¬ (nominalRateDouble (1 + 308466 / 2 ^ 52) 365 ≤
      nominalRateDouble (1 + 112589991 / 2 ^ 52) 1) ∧
    parseFloat "20" = JSNum.fin 20 ∧
    nominalBaseDouble 20 1 = 5404319552844595 / 2 ^ 52 ∧
    earOfPowerDouble (nominalBaseDouble 20 1) = 900719925474099 / 2 ^ 52 ∧
    roundDouble (20 / 100) = 7205759403792794 / 2 ^ 55 ∧
    earOfPowerDouble (nominalBaseDouble 20 1) < (0.19999999999999997 : ℚ) ∧
    ¬ (roundDouble (20 / 100) ≤ earOfPowerDouble (nominalBaseDouble 20 1)) ∧
    ¬ ((20 : ℚ) / 100 ≤ earOfPowerDouble (nominalBaseDouble 20 1)) := by
  have hbase : roundDouble (1 + 112589991 / 2 ^ 52) = 1 + 112589991 / 2 ^ 52 :=
    roundDouble_exact _ 0 4503599739960487 (by norm_num) (by norm_num) (by norm_num)
  have hdaily : nominalRateDouble (1 + 308466 / 2 ^ 52) 365 = 1407376125 / 2 ^ 49 := by
    rw [nominalRateDouble_exact _ 365 (-34) 5299405527711744 (-26) 7555793037557760 (-19)
      5902963310592000 ⟨by norm_num, by norm_num, by norm_num⟩
      ⟨by norm_num, by norm_num, by norm_num⟩ ⟨by norm_num, by norm_num, by norm_num⟩]
    norm_num
  have hmonthly : nominalRateDouble (1 + 9382499 / 2 ^ 52) 12 = 703687425 / 2 ^ 48 := by
    rw [nominalRateDouble_exact _ 12 (-29) 5037190794969088 (-26) 7555786192453632 (-19)
      5902957962854400 ⟨by norm_num, by norm_num, by norm_num⟩
      ⟨by norm_num, by norm_num, by norm_num⟩ ⟨by norm_num, by norm_num, by norm_num⟩]
    norm_num
  have hannual : nominalRateDouble (1 + 112589991 / 2 ^ 52) 1 = 2814749775 / 2 ^ 50 := by
    rw [nominalRateDouble_exact _ 1 (-26) 7555786393780224 (-26) 7555786393780224 (-19)
      5902958120140800 ⟨by norm_num, by norm_num, by norm_num⟩
      ⟨by norm_num, by norm_num, by norm_num⟩ ⟨by norm_num, by norm_num, by norm_num⟩]
    norm_num
  have hparse : parseFloat "20" = JSNum.fin 20 := by
    simp [parseFloat, show parseLiteral "20" = StrNum.dec false 20 0 by decide, StrNum.toJSNum]
  have hear : earOfPowerDouble (nominalBaseDouble 20 1) = 900719925474099 / 2 ^ 52 := by
    rw [nominalBaseDouble_twenty, earOfPowerDouble_twenty]
  refine ⟨effectiveAnnualEarDouble_tiny, hbase,
    ⟨by norm_num, by norm_num, ⟨308466, by norm_num⟩, by norm_num, by norm_num⟩,
    ⟨by norm_num, by norm_num, ⟨9382499, by norm_num⟩, by norm_num, by norm_num⟩,
    hdaily, hmonthly, hannual, ?_, ?_, ?_, ?_, ?_, hparse, nominalBaseDouble_twenty, hear,
    roundDouble_twenty_percent, ?_, ?_, ?_⟩
  · rw [hdaily]; norm_num
  · rw [hmonthly]; norm_num
  · rw [hannual]; norm_num
  · rw [hdaily, hmonthly]; norm_num
  · rw [hdaily, hannual]; norm_num
  · rw [hear]; norm_num
  · rw [hear, roundDouble_twenty_percent]; norm_num
  · rw [hear]; norm_num

/-- C18, amended: in exact arithmetic, for every finite EAR `e ≥ 0`, the
nominal rates that the formula of lines 122-127 defines,
`m * ((1 + e)^(1/m) - 1) * 100`, do not increase with the compounding
frequency: `nominal_Daily ≤ nominal_Monthly ≤ nominal_Quarterly ≤
nominal_Annual`, the last one being `100 * e`; and, in exact arithmetic, for
every period and finite `v ≥ 0` the EAR of the nominal rate `v` is at least
`v / 100`.  The doubles that the script computes satisfy these relations up
to rounding.  When `Math.pow` errs by at most one unit in the last place:
from the double `x = 1 + ear ≥ 1`, the nominal rate computed for a frequency
`m₁` exceeds the one computed for a frequency `m₂ ≤ m₁` by at most
`300 * (p₁ * m₁ + p₂ * m₂) / 2^52`, where `p₁`, `p₂` are the roots that
`Math.pow` returned; the annual nominal rate computed from `ear ≥ 0` is within
`600 * (1 + ear) / 2^53` of `100 * ear`; and the EAR computed for a nominal
field of frequency `m` holding `v ≥ 0` is at least
`v / 100 - (1 + v / 100) * (m + 5) / 2^53`. -/
theorem nominal_rates_ordered (e : ℝ) (he : 0 ≤ e) :
    (∃ daily monthly quarterly annual : ℝ,
      rateOfEar (JSNum.fin e) "nominal_Daily" = JSNum.fin daily ∧
      rateOfEar (JSNum.fin e) "nominal_Monthly" = JSNum.fin monthly ∧
      rateOfEar (JSNum.fin e) "nominal_Quarterly" = JSNum.fin quarterly ∧
      rateOfEar (JSNum.fin e) "nominal_Annual" = JSNum.fin annual ∧
      daily ≤ monthly ∧ monthly ≤ quarterly ∧ quarterly ≤ annual ∧ annual = 100 * e) ∧
    (∀ period, period ∈ PERIOD_NAMES → ∀ v : ℝ, 0 ≤ v →
      ∃ ear : ℝ, earOfValue (fieldId "nominal" period) (JSNum.fin v) = some (JSNum.fin ear) ∧
        v / 100 ≤ ear) ∧
    (∀ (x : ℚ) (m₁ m₂ : ℕ) (p₁ p₂ : ℚ), 0 < m₂ → m₂ ≤ m₁ → 1 ≤ x →
      IsRootDouble x m₁ p₁ → IsRootDouble x m₂ p₂ →
      nominalRateDouble p₁ m₁ ≤
        nominalRateDouble p₂ m₂ + 300 * (p₁ * m₁ + p₂ * m₂) / 2 ^ 52) ∧
    (∀ ear : ℚ, 0 ≤ ear →
      |nominalRateDouble (roundDouble (1 + ear)) 1 - 100 * ear| ≤
        600 * (1 + ear) / 2 ^ 53) ∧
    (∀ (v : ℚ) (m : ℕ) (q : ℚ), 0 ≤ v → 0 < m →
      IsPowerDouble (nominalBaseDouble v m) m q →
      v / 100 - (1 + v / 100) * (m + 5) / 2 ^ 53 ≤ earOfPowerDouble q) := by
  have hx : (1 : ℝ) ≤ 1 + e := by linarith
  refine ⟨?_, ?_, nominalRateDouble_le_add, abs_nominalAnnualDouble_sub_le,
    le_earOfPowerDouble⟩
  · refine ⟨_, _, _, _,
      rateOfEar_nominal e he "Daily" 365 (by decide) (by decide),
      rateOfEar_nominal e he "Monthly" 12 (by decide) (by decide),
      rateOfEar_nominal e he "Quarterly" 4 (by decide) (by decide),
      rateOfEar_nominal e he "Annual" 1 (by decide) (by decide), ?_, ?_, ?_, ?_⟩
    · exact mul_le_mul_of_nonneg_right
        (nominal_rate_antitone (1 + e) hx 12 365 (by norm_num) (by norm_num)) (by norm_num)
    · exact mul_le_mul_of_nonneg_right
        (nominal_rate_antitone (1 + e) hx 4 12 (by norm_num) (by norm_num)) (by norm_num)
    · exact mul_le_mul_of_nonneg_right
        (nominal_rate_antitone (1 + e) hx 1 4 (by norm_num) (by norm_num)) (by norm_num)
    · simp only [Nat.cast_one, div_one, Real.rpow_one]
      ring
  · intro period hperiod v hv
    obtain ⟨ht, hp, m, hm, -⟩ := id_parts_of_fieldId "nominal" period (by decide) hperiod
    have hm0 : 0 < m := MAPPING_pos _ _ hm
    have hmR : (0 : ℝ) < m := by exact_mod_cast hm0
    refine ⟨_, earOfValue_fin _ v m hv (by rw [hp]; exact hm), ?_⟩
    rw [ht, if_neg (by decide)]
    have hq : (0 : ℝ) ≤ v / 100 / m := by positivity
    have hbern := one_add_mul_le_pow (show (-2 : ℝ) ≤ v / 100 / m by linarith) m
    have hcancel : (m : ℝ) * (v / 100 / m) = v / 100 := by
      field_simp
      ring
    rw [hcancel] at hbern
    linarith

/-- C18, amended, at the EAR `0.05`, with the bounds on the doubles at the
values where the order fails: the roots of `1 + 112589991 / 2^52` for the
daily and the monthly rate, the annual rate of the EAR `112589991 / 2^52`, and
the annual nominal field holding `20`. -/
theorem nominal_rates_ordered_witness :
    ((∃ daily monthly quarterly annual : ℝ,
      rateOfEar (JSNum.fin 0.05) "nominal_Daily" = JSNum.fin daily ∧
      rateOfEar (JSNum.fin 0.05) "nominal_Monthly" = JSNum.fin monthly ∧
      rateOfEar (JSNum.fin 0.05) "nominal_Quarterly" = JSNum.fin quarterly ∧
      rateOfEar (JSNum.fin 0.05) "nominal_Annual" = JSNum.fin annual ∧
      daily ≤ monthly ∧ monthly ≤ quarterly ∧ quarterly ≤ annual ∧ annual = 100 * 0.05) ∧
    (∀ period, period ∈ PERIOD_NAMES → ∀ v : ℝ, 0 ≤ v →
      ∃ ear : ℝ, earOfValue (fieldId "nominal" period) (JSNum.fin v) = some (JSNum.fin ear) ∧
        v / 100 ≤ ear) ∧
    (∀ (x : ℚ) (m₁ m₂ : ℕ) (p₁ p₂ : ℚ), 0 < m₂ → m₂ ≤ m₁ → 1 ≤ x →
      IsRootDouble x m₁ p₁ → IsRootDouble x m₂ p₂ →
      nominalRateDouble p₁ m₁ ≤
        nominalRateDouble p₂ m₂ + 300 * (p₁ * m₁ + p₂ * m₂) / 2 ^ 52) ∧
    (∀ ear : ℚ, 0 ≤ ear →
      |nominalRateDouble (roundDouble (1 + ear)) 1 - 100 * ear| ≤
        600 * (1 + ear) / 2 ^ 53) ∧
    (∀ (v : ℚ) (m : ℕ) (q : ℚ), 0 ≤ v → 0 < m →
      IsPowerDouble (nominalBaseDouble v m) m q →
      v / 100 - (1 + v / 100) * (m + 5) / 2 ^ 53 ≤ earOfPowerDouble q)) ∧
    nominalRateDouble (1 + 308466 / 2 ^ 52) 365 ≤
      nominalRateDouble (1 + 9382499 / 2 ^ 52) 12 +
        300 * ((1 + 308466 / 2 ^ 52) * ((365 : ℕ) : ℚ) +
          (1 + 9382499 / 2 ^ 52) * ((12 : ℕ) : ℚ)) / 2 ^ 52 ∧
    |nominalRateDouble (roundDouble (1 + 112589991 / 2 ^ 52)) 1 - 100 * (112589991 / 2 ^ 52)| ≤
      600 * (1 + 112589991 / 2 ^ 52) / 2 ^ 53 ∧
    20 / 100 - (1 + 20 / 100) * (((1 : ℕ) : ℚ) + 5) / 2 ^ 53 ≤
      earOfPowerDouble (nominalBaseDouble 20 1) :=
  ⟨nominal_rates_ordered 0.05 (by norm_num),
    (nominal_rates_ordered 0.05 (by norm_num)).2.2.1 _ 365 12 _ _ (by norm_num) (by norm_num)
      (by norm_num) isRootDouble_tiny.1 isRootDouble_tiny.2,
    (nominal_rates_ordered 0.05 (by norm_num)).2.2.2.1 _ (by norm_num),
    (nominal_rates_ordered 0.05 (by norm_num)).2.2.2.2 20 1 _ (by norm_num) (by norm_num)
      (isPowerDouble_one 20 (by norm_num))⟩

end RateConverter
